import Mathlib

/-! scrypt-jane (ccminer): Keccak-512 sponge, HMAC, PBKDF2 with one iteration,
the N-factor schedule and the nonce search loop

Shallow embedding of `src/scrypt-jane.cpp`.  Bytes, 32-bit words and 64-bit
lanes are natural numbers; truncations are written with explicit `%`.
Arrays are lists, `a[i]` is `List.getD a i 0` and `a[i] = v` is `List.set`.
-/

namespace ScryptJane

/-! ## Constants of the source -/

/-- The constant `SCRYPT_HASH_DIGEST_SIZE`. -/
def SCRYPT_HASH_DIGEST_SIZE : Nat := 64

/-- The constant `SCRYPT_KECCAK_F`. -/
def SCRYPT_KECCAK_F : Nat := 1600

/-- The constant `SCRYPT_KECCAK_C`, twice the digest size in bits. -/
def SCRYPT_KECCAK_C : Nat := SCRYPT_HASH_DIGEST_SIZE * 8 * 2

/-- The constant `SCRYPT_KECCAK_R`, the rate in bits. -/
def SCRYPT_KECCAK_R : Nat := SCRYPT_KECCAK_F - SCRYPT_KECCAK_C

/-- The constant `SCRYPT_HASH_BLOCK_SIZE`, the rate in bytes (72). -/
def SCRYPT_HASH_BLOCK_SIZE : Nat := SCRYPT_KECCAK_R / 8

/-- The constant `scrypt_maxN`. -/
def scrypt_maxN : Nat := 30

/-- The table `keccak_round_constants[24]`. -/
def keccak_round_constants : List Nat :=
  [0x0000000000000001, 0x0000000000008082,
   0x800000000000808a, 0x8000000080008000,
   0x000000000000808b, 0x0000000080000001,
   0x8000000080008081, 0x8000000000008009,
   0x000000000000008a, 0x0000000000000088,
   0x0000000080008009, 0x000000008000000a,
   0x000000008000808b, 0x800000000000008b,
   0x8000000000008089, 0x8000000000008003,
   0x8000000000008002, 0x8000000000000080,
   0x000000000000800a, 0x800000008000000a,
   0x8000000080008081, 0x8000000000008080,
   0x0000000080000001, 0x8000000080008008]

/-! ## Word macros of `scrypt-jane-portable.h` -/

/-- Modelled from the spec: the macro `ROTL64` of `scrypt-jane-portable.h`
(not under `src/`), the 64-bit left rotation the spec calls "64-bit rotations":
`(a << b) | (a >> (64 - b))` on a `uint64_t`. -/
def ROTL64 (a b : Nat) : Nat := ((a <<< b) ||| (a >>> (64 - b))) % 2 ^ 64

/-- Modelled from the spec: the macro `U8TO64_LE` of `scrypt-jane-portable.h`
(not under `src/`): the little-endian 64-bit word read from eight bytes. -/
def U8TO64_LE (p : List Nat) : Nat :=
  p.getD 0 0 ||| (p.getD 1 0 <<< 8) ||| (p.getD 2 0 <<< 16) ||| (p.getD 3 0 <<< 24) |||
  (p.getD 4 0 <<< 32) ||| (p.getD 5 0 <<< 40) ||| (p.getD 6 0 <<< 48) ||| (p.getD 7 0 <<< 56)

/-- Modelled from the spec: the macro `U64TO8_LE` of `scrypt-jane-portable.h`
(not under `src/`): the eight little-endian bytes of a 64-bit word. -/
def U64TO8_LE (v : Nat) : List Nat :=
  [v % 256, (v >>> 8) % 256, (v >>> 16) % 256, (v >>> 24) % 256,
   (v >>> 32) % 256, (v >>> 40) % 256, (v >>> 48) % 256, (v >>> 56) % 256]

/-- Modelled from the spec: the macro `U32TO8_BE` of `scrypt-jane-portable.h`
(not under `src/`): the four big-endian bytes of a 32-bit word. -/
def U32TO8_BE (v : Nat) : List Nat :=
  [(v >>> 24) % 256, (v >>> 16) % 256, (v >>> 8) % 256, v % 256]

/-- The C operator `~` on a `uint64_t`. -/
def NOT64 (w : Nat) : Nat := w ^^^ 0xFFFFFFFFFFFFFFFF

/-! ## `keccak_block` -/

/-- The statement `s[i] ^= v`. -/
def xorAt (s : List Nat) (i v : Nat) : List Nat := s.set i (s.getD i 0 ^^^ v)

/-- One line of the chi step of `keccak_block`, for the row starting at lane `b`:
`v = s[b]; w = s[b+1]; s[b] ^= (~w) & s[b+2]; s[b+1] ^= (~s[b+2]) & s[b+3];
s[b+2] ^= (~s[b+3]) & s[b+4]; s[b+3] ^= (~s[b+4]) & v; s[b+4] ^= (~v) & w;`. -/
def chiRow (s : List Nat) (b : Nat) : List Nat :=
  let v := s.getD b 0
  let w := s.getD (b + 1) 0
  let s := xorAt s b (NOT64 w &&& s.getD (b + 2) 0)
  let s := xorAt s (b + 1) (NOT64 (s.getD (b + 2) 0) &&& s.getD (b + 3) 0)
  let s := xorAt s (b + 2) (NOT64 (s.getD (b + 3) 0) &&& s.getD (b + 4) 0)
  let s := xorAt s (b + 3) (NOT64 (s.getD (b + 4) 0) &&& v)
  xorAt s (b + 4) (NOT64 v &&& w)

/-- The theta step of one round of `keccak_block`. -/
def thetaStep (s : List Nat) : List Nat :=
  let t0 := s.getD 0 0 ^^^ s.getD 5 0 ^^^ s.getD 10 0 ^^^ s.getD 15 0 ^^^ s.getD 20 0
  let t1 := s.getD 1 0 ^^^ s.getD 6 0 ^^^ s.getD 11 0 ^^^ s.getD 16 0 ^^^ s.getD 21 0
  let t2 := s.getD 2 0 ^^^ s.getD 7 0 ^^^ s.getD 12 0 ^^^ s.getD 17 0 ^^^ s.getD 22 0
  let t3 := s.getD 3 0 ^^^ s.getD 8 0 ^^^ s.getD 13 0 ^^^ s.getD 18 0 ^^^ s.getD 23 0
  let t4 := s.getD 4 0 ^^^ s.getD 9 0 ^^^ s.getD 14 0 ^^^ s.getD 19 0 ^^^ s.getD 24 0
  let u0 := t4 ^^^ ROTL64 t1 1
  let u1 := t0 ^^^ ROTL64 t2 1
  let u2 := t1 ^^^ ROTL64 t3 1
  let u3 := t2 ^^^ ROTL64 t4 1
  let u4 := t3 ^^^ ROTL64 t0 1
  let s := xorAt (xorAt (xorAt (xorAt (xorAt s 0 u0) 5 u0) 10 u0) 15 u0) 20 u0
  let s := xorAt (xorAt (xorAt (xorAt (xorAt s 1 u1) 6 u1) 11 u1) 16 u1) 21 u1
  let s := xorAt (xorAt (xorAt (xorAt (xorAt s 2 u2) 7 u2) 12 u2) 17 u2) 22 u2
  let s := xorAt (xorAt (xorAt (xorAt (xorAt s 3 u3) 8 u3) 13 u3) 18 u3) 23 u3
  xorAt (xorAt (xorAt (xorAt (xorAt s 4 u4) 9 u4) 14 u4) 19 u4) 24 u4

/-- The in-place rho/pi rotation chain of one round of `keccak_block`. -/
def rhoPiStep (s : List Nat) : List Nat :=
  let v := s.getD 1 0
  let s := s.set 1 (ROTL64 (s.getD 6 0) 44)
  let s := s.set 6 (ROTL64 (s.getD 9 0) 20)
  let s := s.set 9 (ROTL64 (s.getD 22 0) 61)
  let s := s.set 22 (ROTL64 (s.getD 14 0) 39)
  let s := s.set 14 (ROTL64 (s.getD 20 0) 18)
  let s := s.set 20 (ROTL64 (s.getD 2 0) 62)
  let s := s.set 2 (ROTL64 (s.getD 12 0) 43)
  let s := s.set 12 (ROTL64 (s.getD 13 0) 25)
  let s := s.set 13 (ROTL64 (s.getD 19 0) 8)
  let s := s.set 19 (ROTL64 (s.getD 23 0) 56)
  let s := s.set 23 (ROTL64 (s.getD 15 0) 41)
  let s := s.set 15 (ROTL64 (s.getD 4 0) 27)
  let s := s.set 4 (ROTL64 (s.getD 24 0) 14)
  let s := s.set 24 (ROTL64 (s.getD 21 0) 2)
  let s := s.set 21 (ROTL64 (s.getD 8 0) 55)
  let s := s.set 8 (ROTL64 (s.getD 16 0) 45)
  let s := s.set 16 (ROTL64 (s.getD 5 0) 36)
  let s := s.set 5 (ROTL64 (s.getD 3 0) 28)
  let s := s.set 3 (ROTL64 (s.getD 18 0) 21)
  let s := s.set 18 (ROTL64 (s.getD 17 0) 15)
  let s := s.set 17 (ROTL64 (s.getD 11 0) 10)
  let s := s.set 11 (ROTL64 (s.getD 7 0) 6)
  let s := s.set 7 (ROTL64 (s.getD 10 0) 3)
  s.set 10 (ROTL64 v 1)

/-- The chi step of one round of `keccak_block`: the five row lines. -/
def chiStep (s : List Nat) : List Nat :=
  chiRow (chiRow (chiRow (chiRow (chiRow s 0) 5) 10) 15) 20

/-- The body of the round loop of `keccak_block`, with round constant `rc`. -/
def keccak_round (s : List Nat) (rc : Nat) : List Nat :=
  xorAt (chiStep (rhoPiStep (thetaStep s))) 0 rc

/-- The absorb loop of `keccak_block`:
`for (i = 0; i < SCRYPT_HASH_BLOCK_SIZE / 8; i++, in += 8) s[i] ^= U8TO64_LE(in)`. -/
def keccak_absorb (s : List Nat) (inp : List Nat) : List Nat :=
  (List.range (SCRYPT_HASH_BLOCK_SIZE / 8)).foldl
    (fun s i => xorAt s i (U8TO64_LE (inp.drop (8 * i)))) s

/-- The function `keccak_block(S, in)` on the lanes `S->state`: absorb 72 bytes, then 24 rounds. -/
def keccak_block (s : List Nat) (inp : List Nat) : List Nat :=
  keccak_round_constants.foldl keccak_round (keccak_absorb s inp)

/-! ## The sponge: `scrypt_hash_init`, `scrypt_hash_update`, `scrypt_hash_finish` -/

/-- The type `struct scrypt_hash_state_t`. -/
structure scrypt_hash_state where
  state : List Nat
  leftover : Nat
  buffer : List Nat
deriving DecidableEq, Repr

/-- The call `memcpy(dst + off, src, n)` on a destination array `dst`. -/
def memcpy (dst : List Nat) (off : Nat) (src : List Nat) (n : Nat) : List Nat :=
  dst.take off ++ src.take n ++ dst.drop (off + n)

/-- The call `memset(dst + off, 0, n)` on a destination array `dst`. -/
def memset0 (dst : List Nat) (off n : Nat) : List Nat :=
  dst.take off ++ List.replicate n 0 ++ dst.drop (off + n)

/-- The function `scrypt_hash_init`: `memset(S, 0, sizeof(*S))`. -/
def scrypt_hash_init : scrypt_hash_state :=
  { state := List.replicate (SCRYPT_KECCAK_F / 64) 0,
    leftover := 0,
    buffer := List.replicate SCRYPT_HASH_BLOCK_SIZE 0 }

/-- The loop `while (inlen >= SCRYPT_HASH_BLOCK_SIZE)` of `scrypt_hash_update`;
returns the lanes and the unread input.  The first argument bounds the number
of iterations; `scrypt_hash_update` passes the input length, which is enough. -/
def hash_blocks : Nat → List Nat → List Nat → List Nat × List Nat
  | 0, s, inp => (s, inp)
  | fuel + 1, s, inp =>
    if inp.length ≥ SCRYPT_HASH_BLOCK_SIZE then
      hash_blocks fuel (keccak_block s inp) (inp.drop SCRYPT_HASH_BLOCK_SIZE)
    else (s, inp)

/-- The part of `scrypt_hash_update` after "handle the previous data". -/
def hash_update_current (S : scrypt_hash_state) (inp : List Nat) : scrypt_hash_state :=
  let r := hash_blocks inp.length S.state inp
  let leftover := r.2.length % 2 ^ 32
  { state := r.1,
    leftover := leftover,
    buffer := if leftover ≠ 0 then memcpy S.buffer 0 r.2 leftover else S.buffer }

/-- The function `scrypt_hash_update(S, in, inlen)` with `inlen` the length of `inp`. -/
def scrypt_hash_update (S : scrypt_hash_state) (inp : List Nat) : scrypt_hash_state :=
  if S.leftover ≠ 0 then
    let want := SCRYPT_HASH_BLOCK_SIZE - S.leftover
    let want := if want < inp.length then want else inp.length
    let buffer := memcpy S.buffer S.leftover inp want
    let leftover := (S.leftover + want) % 2 ^ 32
    if leftover < SCRYPT_HASH_BLOCK_SIZE then
      { state := S.state, leftover := leftover, buffer := buffer }
    else
      hash_update_current
        { state := keccak_block S.state buffer, leftover := leftover, buffer := buffer }
        (inp.drop want)
  else hash_update_current S inp

/-- The function `scrypt_hash_finish(S, hash)`: the final state and the 64 digest bytes. -/
def scrypt_hash_finish (S : scrypt_hash_state) : scrypt_hash_state × List Nat :=
  let buffer := S.buffer.set S.leftover 0x01
  let buffer := memset0 buffer (S.leftover + 1) (SCRYPT_HASH_BLOCK_SIZE - (S.leftover + 1))
  let buffer := buffer.set (SCRYPT_HASH_BLOCK_SIZE - 1)
    (buffer.getD (SCRYPT_HASH_BLOCK_SIZE - 1) 0 ||| 0x80)
  let state := keccak_block S.state buffer
  ({ state := state, leftover := S.leftover, buffer := buffer },
   ((List.range (SCRYPT_HASH_DIGEST_SIZE / 8)).map (fun j => U64TO8_LE (state.getD j 0))).flatten)

/-- The function `scrypt_hash(hash, m, mlen)`: init, one update, finish. -/
def scrypt_hash (m : List Nat) : List Nat :=
  (scrypt_hash_finish (scrypt_hash_update scrypt_hash_init m)).2

/-! ## Specification-side definitions for the sponge -/

/-- The all-zero 25-lane state. -/
def zero_state : List Nat := List.replicate 25 0

/-- The padding the spec describes for a message of `n` bytes: the shortest
non-empty string `0x01, 0x00, ..., 0x00` with `0x80` OR-ed into its last byte
that brings the length to a multiple of 72. -/
def spec_pad (n : Nat) : List Nat :=
  let k := 72 - n % 72
  let p := 0x01 :: List.replicate (k - 1) 0
  p.set (k - 1) (p.getD (k - 1) 0 ||| 0x80)

/-- The consecutive 72-byte blocks of a byte string (the last one may be short);
the first argument bounds the number of blocks. -/
def spec_blocks : Nat → List Nat → List (List Nat)
  | 0, _ => []
  | fuel + 1, l => if l = [] then [] else l.take 72 :: spec_blocks fuel (l.drop 72)

/-- Little-endian serialisation of lanes 0..7 of a state (64 bytes). -/
def spec_squeeze (s : List Nat) : List Nat :=
  ((List.range 8).map (fun j => U64TO8_LE (s.getD j 0))).flatten

/-- The sponge of the spec: fold `keccak_block` from the zero state over the
72-byte blocks of the padded message, then squeeze lanes 0..7. -/
def spec_hash (m : List Nat) : List Nat :=
  let padded := m ++ spec_pad m.length
  spec_squeeze ((spec_blocks padded.length padded).foldl keccak_block zero_state)

/-- The lanes after absorbing every full 72-byte block of `d`. -/
def absorbed (s : List Nat) (d : List Nat) : List Nat :=
  (spec_blocks (d.length / 72) d).foldl keccak_block s

/-- The bytes of `d` after its last full 72-byte block. -/
def rest (d : List Nat) : List Nat := d.drop (72 * (d.length / 72))

/-- The invariant of a sponge state: a 72-byte buffer and a leftover count below 72. -/
def WF (S : scrypt_hash_state) : Prop := S.buffer.length = 72 ∧ S.leftover < 72

/-- The buffered bytes of a sponge state that are not absorbed yet. -/
def pending (S : scrypt_hash_state) : List Nat := S.buffer.take S.leftover

/-- The block `scrypt_hash_finish` builds in the buffer before its single
`keccak_block`. -/
def finish_block (S : scrypt_hash_state) : List Nat :=
  (scrypt_hash_finish S).1.buffer

/-! ## HMAC: `scrypt_hmac_init`, `scrypt_hmac_update`, `scrypt_hmac_finish` -/

/-- The type `struct scrypt_hmac_state_t`. -/
structure scrypt_hmac_state where
  inner : scrypt_hash_state
  outer : scrypt_hash_state
deriving DecidableEq, Repr

/-- The function `scrypt_hmac_init(st, key, keylen)` with `keylen` the length of `key`. -/
def scrypt_hmac_init (key : List Nat) : scrypt_hmac_state :=
  let pad := List.replicate SCRYPT_HASH_BLOCK_SIZE 0
  let inner := scrypt_hash_init
  let outer := scrypt_hash_init
  let pad :=
    if key.length ≤ SCRYPT_HASH_BLOCK_SIZE then memcpy pad 0 key key.length
    else memcpy pad 0 (scrypt_hash key) SCRYPT_HASH_DIGEST_SIZE
  let pad := pad.map (fun b => b ^^^ 0x36)
  let inner := scrypt_hash_update inner pad
  let pad := pad.map (fun b => b ^^^ (0x5c ^^^ 0x36))
  let outer := scrypt_hash_update outer pad
  { inner := inner, outer := outer }

/-- The function `scrypt_hmac_update(st, m, mlen)`. -/
def scrypt_hmac_update (st : scrypt_hmac_state) (m : List Nat) : scrypt_hmac_state :=
  { st with inner := scrypt_hash_update st.inner m }

/-- The function `scrypt_hmac_finish(st, mac)`: the final context and the 64 MAC bytes. -/
def scrypt_hmac_finish (st : scrypt_hmac_state) : scrypt_hmac_state × List Nat :=
  let r := scrypt_hash_finish st.inner
  let innerhash := r.2
  let outer := scrypt_hash_update st.outer innerhash
  let r2 := scrypt_hash_finish outer
  ({ inner := r.1, outer := r2.1 }, r2.2)

/-- The key block `K` of the spec: the key zero-padded to 72 bytes when it has at
most 72 bytes, otherwise its hash zero-padded from 64 to 72 bytes. -/
def spec_hmac_key (k : List Nat) : List Nat :=
  if k.length ≤ 72 then k ++ List.replicate (72 - k.length) 0
  else scrypt_hash k ++ List.replicate 8 0

/-- The HMAC of the spec: `H((K xor 0x5c) ++ H((K xor 0x36) ++ m))` with `H = scrypt_hash`. -/
def spec_hmac (k m : List Nat) : List Nat :=
  scrypt_hash ((spec_hmac_key k).map (fun b => b ^^^ 0x5c) ++
    scrypt_hash ((spec_hmac_key k).map (fun b => b ^^^ 0x36) ++ m))

/-- A sponge state that has absorbed exactly the byte string `d` since init. -/
def Absorbs (S : scrypt_hash_state) (d : List Nat) : Prop :=
  WF S ∧ S.state = absorbed zero_state d ∧ pending S = rest d

/-! ## `scrypt_pbkdf2_1` -/

/-- The loop `for (i = 1; i <= blocks; i++)` of `scrypt_pbkdf2_1`, from counter `i`:
`out` is the caller's output array, `off` the offset the pointer `out` has
reached, `bytes` the 64-bit byte counter.  The dead store `memcpy(u, ti, ..)`
is left out.  The first argument bounds the number of iterations;
`scrypt_pbkdf2_1` passes `blocks`, which is enough. -/
def pbkdf2_loop (hmac_pw_salt : scrypt_hmac_state) (blocks : Nat) :
    Nat → Nat → List Nat → Nat → Nat → List Nat
  | 0, _, out, _, _ => out
  | fuel + 1, i, out, off, bytes =>
    if i ≤ blocks then
      let be := U32TO8_BE i
      let work := hmac_pw_salt
      let work := scrypt_hmac_update work be
      let ti := (scrypt_hmac_finish work).2
      let out := memcpy out off ti
        (if bytes > SCRYPT_HASH_DIGEST_SIZE then SCRYPT_HASH_DIGEST_SIZE else bytes)
      pbkdf2_loop hmac_pw_salt blocks fuel ((i + 1) % 2 ^ 32) out
        (off + SCRYPT_HASH_DIGEST_SIZE)
        ((bytes + (2 ^ 64 - SCRYPT_HASH_DIGEST_SIZE)) % 2 ^ 64)
    else out

/-- The function `scrypt_pbkdf2_1(password, password_len, salt, salt_len, out, bytes)`: the
caller's array `out` after the call. -/
def scrypt_pbkdf2_1 (password salt out : List Nat) (bytes : Nat) : List Nat :=
  let hmac_pw := scrypt_hmac_init password
  let hmac_pw_salt := hmac_pw
  let hmac_pw_salt := scrypt_hmac_update hmac_pw_salt salt
  let blocks := ((bytes % 2 ^ 32 + (SCRYPT_HASH_DIGEST_SIZE - 1)) % 2 ^ 32)
    / SCRYPT_HASH_DIGEST_SIZE
  pbkdf2_loop hmac_pw_salt blocks blocks 1 out 0 bytes

/-- The HMAC of this file as one function: init, one update, finish. -/
def scrypt_hmac (k m : List Nat) : List Nat :=
  (scrypt_hmac_finish (scrypt_hmac_update (scrypt_hmac_init k) m)).2

/-- The blocks `HMAC(p, s ++ be32(i))` for `i = first, .., first + count - 1`, concatenated. -/
def spec_pbkdf2_stream (p s : List Nat) (first count : Nat) : List Nat :=
  ((List.range' first count).map (fun i => scrypt_hmac p (s ++ U32TO8_BE i))).flatten

/-- The output the spec describes: the first `L` bytes of blocks `1 .. ceil(L / 64)`. -/
def spec_pbkdf2 (p s : List Nat) (L : Nat) : List Nat :=
  (spec_pbkdf2_stream p s 1 ((L + 63) / 64)).take L

/-! ## `GetNfactor` -/

/-- The width of `unsigned long`, which the source does not fix: 64 bits, the
LP64 data model of the Linux builds of the miner. -/
def ULONG_BITS : Nat := 64

/-- The conversion of a 32-bit pattern to `int` (two's complement). -/
def int_of_bits32 (v : Nat) : Int :=
  if v % 2 ^ 32 < 2 ^ 31 then ((v % 2 ^ 32 : Nat) : Int) else ((v % 2 ^ 32 : Nat) : Int) - 2 ^ 32

/-- The loop `while ((s >> 1) > 3) { l += 1; s >>= 1; }` of `GetNfactor`; returns
`(l, s)`.  The first argument bounds the number of iterations; `GetNfactor`
passes `s`, which is enough. -/
def halve_loop : Nat → Nat → Nat → Nat × Nat
  | 0, l, s => (l, s)
  | fuel + 1, l, s => if (s >>> 1) > 3 then halve_loop fuel (l + 1) (s >>> 1) else (l, s)

/-- The expression `(l * 170 + s * 25 - 2320) / 100` of `GetNfactor`, evaluated in
`unsigned long` and converted to `int`. -/
def nfactor_expr (l s : Nat) : Int :=
  int_of_bits32 (((l * 170 + s * 25 + (2 ^ ULONG_BITS - 2320)) % 2 ^ ULONG_BITS) / 100)

/-- The part of `GetNfactor` after the profile is chosen ("determination based on
the constants determined above"); the result is an `unsigned char`. -/
def GetNfactor_schedule (Ntimestamp minN maxN nTimestamp : Nat) : Nat :=
  if nTimestamp ≤ Ntimestamp then minN % 256
  else
    let s := (nTimestamp - Ntimestamp) % 2 ^ 32
    let r := halve_loop s 0 s
    let l := r.1
    let s := r.2 &&& 3
    let n := nfactor_expr l s
    let n := if n < 0 then 0 else n
    let Nfactor := n.toNat % 2 ^ 32
    if Nfactor < minN then minN % 256
    else if Nfactor > maxN then maxN % 256
    else Nfactor % 256

/-- The C library's `strcasecmp(a, b) == 0`: equality up to ASCII letter case. -/
def strcasecmp_eq (a b : String) : Bool :=
  a.toList.map Char.toLower == b.toList.map Char.toLower

/-- The value of a run of decimal digits. -/
def digits_value (ds : List Char) : Nat :=
  ds.foldl (fun acc c => 10 * acc + (c.toNat - 48)) 0

/-- The C library's `isspace` in the "C" locale: the space and the controls
`\t`, `\n`, `\v`, `\f`, `\r` (codes 9 to 13). -/
def c_isspace (c : Char) : Bool := c.toNat == 32 || (9 ≤ c.toNat && c.toNat ≤ 13)

/-- The C library's conversion `%u` of `sscanf`: skip white space, accept an
optional sign, read a non-empty run of decimal digits.  The digits are converted
as by `strtoul`, into an `unsigned long` that saturates at `ULONG_MAX` and is
negated after a minus sign, and the result is stored in an `unsigned int`.
Returns the value and the unread input, or `none` when the conversion fails. -/
def scan_u (cs : List Char) : Option (Nat × List Char) :=
  let cs := cs.dropWhile c_isspace
  let neg := cs.head? == some '-'
  let cs := if cs.head? == some '-' || cs.head? == some '+' then cs.drop 1 else cs
  let ds := cs.takeWhile Char.isDigit
  if ds.isEmpty then none
  else
    let raw := digits_value ds
    let ul := if raw ≥ 2 ^ ULONG_BITS then 2 ^ ULONG_BITS - 1
      else if neg then (2 ^ ULONG_BITS - raw) % 2 ^ ULONG_BITS else raw
    some (ul % 2 ^ 32, cs.dropWhile Char.isDigit)

/-- The C library's `sscanf(s, "%u,%u,%u", ..)`: the values assigned, in order;
the return value of `sscanf` is their number (end of input counted as 0). -/
def sscanf_uuu (s : String) : List Nat :=
  match scan_u s.toList with
  | none => []
  | some (a, r1) =>
    match r1 with
    | ',' :: r2 =>
      match scan_u r2 with
      | none => [a]
      | some (b, r3) =>
        match r3 with
        | ',' :: r4 =>
          match scan_u r4 with
          | none => [a, b]
          | some (c, _) => [a, b, c]
        | _ => [a, b]
    | _ => [a]

/-- The C library's `sscanf(s, "%u", ..)`: the value assigned, if any. -/
def sscanf_u (s : String) : Option Nat :=
  (scan_u s.toList).map (fun r => r.1)

/-- The coin table of `GetNfactor`: the `else if` chain in source order, each
entry the short code (compared with `strcmp`), the long name (compared with
`strcasecmp`) and the values assigned to `Ntimestamp`, `minN`, `maxN`.  The
first entry is the no-op branch, which keeps the Yacoin defaults. -/
def coin_table : List (String × String × Nat × Nat × Nat) :=
  [("YAC", "Yacoin", 1367991200, 4, 30),
   ("YBC", "YBCoin", 1372386273, 4, 30),
   ("ZZC", "ZZCoin", 1375817223, 12, 30),
   ("FEC", "FreeCoin", 1375801200, 6, 32),
   ("ONC", "OneCoin", 1371119462, 6, 30),
   ("QQC", "QQCoin", 1387769316, 4, 30),
   ("GPL", "GoldPressedLatinum", 1377557832, 4, 30),
   ("MRC", "MicroCoin", 1389028879, 4, 30),
   ("APC", "AppleCoin", 1384720832, 4, 30),
   ("CPR", "Copperbars", 1376184687, 4, 30),
   ("CACH", "CacheCoin", 1388949883, 4, 30),
   ("UTC", "UltraCoin", 1388361600, 4, 30),
   ("VEL", "VelocityCoin", 1387769316, 4, 30),
   ("ITC", "InternetCoin", 1388385602, 4, 30),
   ("RAD", "RadioactiveCoin", 1389196388, 4, 30),
   ("LEO", "LEOCoin", 1402845776, 4, 30)]

/-- What the first part of `GetNfactor` decides: the early `return Nfactor` of a
bare integer, or the values of `Ntimestamp`, `minN`, `maxN` for the schedule. -/
inductive jane_choice where
  | override (Nfactor : Nat)
  | profile (Ntimestamp minN maxN : Nat)
deriving DecidableEq, Repr

/-- The first part of `GetNfactor`: the choice made from `jane_params`. -/
def jane_select (jane_params : String) : jane_choice :=
  let Ntimestamp := 1367991200
  let minN := 4
  let maxN := 30
  if jane_params.length > 0 then
    match coin_table.find? (fun e => jane_params == e.1 || strcasecmp_eq jane_params e.2.1) with
    | some e => .profile e.2.2.1 e.2.2.2.1 e.2.2.2.2
    | none =>
      let vals := sscanf_uuu jane_params
      let Ntimestamp := vals.getD 0 Ntimestamp
      let minN := vals.getD 1 minN
      let maxN := vals.getD 2 maxN
      if vals.length ≠ 3 then
        match sscanf_u jane_params with
        | some Nfactor => .override Nfactor
        | none => .profile Ntimestamp minN maxN
      else .profile Ntimestamp minN maxN
  else .profile Ntimestamp minN maxN

/-- The function `GetNfactor(nTimestamp)` with the global `jane_params`; the result is an
`unsigned char`. -/
def GetNfactor (jane_params : String) (nTimestamp : Nat) : Nat :=
  match jane_select jane_params with
  | .override Nfactor => Nfactor % 256
  | .profile Ntimestamp minN maxN => GetNfactor_schedule Ntimestamp minN maxN nTimestamp

/-- The clamp of the spec: `x` limited to the closed range `[lo, hi]`. -/
def spec_clamp (x lo hi : Int) : Int := min (max x lo) hi

/-- The exponent the spec describes for a timestamp after the reference one:
`clamp(max(0, (l*170 + r*25 - 2320) div 100), minExponent, maxExponent)` over the
integers, with `l` the number of halvings and `r` the final `s AND 3`. -/
def spec_Nfactor (Ntimestamp minN maxN nTimestamp : Nat) : Int :=
  let s0 := nTimestamp - Ntimestamp
  let l : Int := (halve_loop s0 0 s0).1
  let r : Int := ((halve_loop s0 0 s0).2 &&& 3 : Nat)
  spec_clamp (max 0 ((l * 170 + r * 25 - 2320) / 100)) minN maxN

/-- The exponent before the clamp, as a function of the difference `s`. -/
def nfactor_raw (s : Nat) : Nat :=
  ((halve_loop s 0 s).1 * 170 + ((halve_loop s 0 s).2 &&& 3) * 25 - 2320) / 100

/-! ## `scanhash_scrypt_jane` -/

/-- The macro `bswap_32x4`. -/
def bswap_32x4 (x : Nat) : Nat :=
  (((x <<< 24) &&& 0xff000000) ||| ((x <<< 8) &&& 0x00ff0000)
    ||| ((x >>> 8) &&& 0x0000ff00) ||| ((x >>> 24) &&& 0x000000ff))

/-- The four bytes of a `uint32_t` in memory (little-endian host). -/
def word_bytes (w : Nat) : List Nat :=
  [w % 256, (w >>> 8) % 256, (w >>> 16) % 256, (w >>> 24) % 256]

/-- A `uint32_t` array read as bytes: the cast `(unsigned char *)`. -/
def words_to_bytes (ws : List Nat) : List Nat := (ws.map word_bytes).flatten

/-- A byte array read as `uint32_t` words (little-endian host). -/
def bytes_to_words : List Nat → List Nat
  | b0 :: b1 :: b2 :: b3 :: bs =>
    (b0 ||| (b1 <<< 8) ||| (b2 <<< 16) ||| (b3 <<< 24)) :: bytes_to_words bs
  | _ => []

/-- The 256-bit number held in eight 32-bit words, least significant word first. -/
def value256 (ws : List Nat) : Nat :=
  (List.range 8).foldl (fun acc i => acc + ws.getD i 0 * 2 ^ (32 * i)) 0

/-- Modelled from the spec: `fulltest` of `util.cpp` (not under `src/`), "the full
256-bit target comparison": the hash, read as a number, does not exceed the target. -/
def fulltest (hash target : List Nat) : Bool := value256 hash ≤ value256 target

/-- The collaborators of `scanhash_scrypt_jane` that are not in this file: the
configuration, the device and the reference mix. -/
structure scan_env where
  /-- The global `parallel`. -/
  parallel : Nat
  /-- The value of `throughput` after the one-time `cuda_throughput` query. -/
  throughput : Nat
  /-- The buffers `cuda_transferbuffer(thr_id, 0)` and `(thr_id, 1)` on entry. -/
  X_init : List (List Nat)
  /-- The buffers `cuda_hashbuffer(thr_id, 0)` and `(thr_id, 1)` on entry. -/
  hash_init : List (List Nat)
  /-- What the device leaves in `cuda_X[nxt]` in a given iteration (`parallel < 2`),
  from what was sent. -/
  mix_X : Nat → List Nat → List Nat
  /-- What the device leaves in `hash[nxt]` in a given iteration (`parallel == 2`),
  from the base nonce of the slot. -/
  dev_hash : Nat → Nat → List Nat
  /-- The result of the first `cuda_scrypt_sync` of an iteration. -/
  sync1 : Nat → Bool
  /-- The result of the second `cuda_scrypt_sync` of an iteration (`parallel == 2`). -/
  sync2 : Nat → Bool
  /-- The value of `work_restart[thr_id].restart` read at the end of an iteration. -/
  restart : Nat → Bool
  /-- The reference mix `scrypt_ROMix_1` on one 128-byte lane buffer, with `N`. -/
  romix : List Nat → Nat → List Nat

/-- The local variables of the search loop of `scanhash_scrypt_jane`. -/
structure scan_state where
  n : Nat
  nonce : List Nat
  cur : Nat
  nxt : Nat
  iteration : Nat
  data : List (List Nat)
  hash : List (List Nat)
  cuda_X : List (List Nat)
deriving DecidableEq, Repr

/-- How a call of `scanhash_scrypt_jane` ends. -/
inductive scan_result where
  /-- The outcome `return 1`: the caller's header, `*hashes_done`, and (for reference) the lane
  and the loop variables at the moment of acceptance. -/
  | found (pdata : List Nat) (hashes_done : Nat) (lane : Nat) (st : scan_state)
  /-- The outcome `return 0`: the caller's header and `*hashes_done`. -/
  | exhausted (pdata : List Nat) (hashes_done : Nat)
  /-- The outcome `return -1`: `throughput == 0`. -/
  | no_device
  /-- The call `scrypt_fatal_error("scrypt: N out of range")`. -/
  | fatal
deriving DecidableEq, Repr

/-- The header `tdata` rebuilt for a candidate: the byte-swapped words of `pdata`
with the byte-swapped nonce in the last word; `hw` is `block_header_size / 4`. -/
def tdata_of (pdata : List Nat) (hw tmp_nonce : Nat) : List Nat :=
  (List.range (hw - 1)).map (fun z => bswap_32x4 (pdata.getD z 0)) ++ [bswap_32x4 tmp_nonce]

/-- The digest `thash` recomputed on the CPU for a candidate nonce:
`scrypt_pbkdf2_1`, `scrypt_ROMix_1`, `scrypt_pbkdf2_1`, as eight words.  The output
arrays are overwritten in full, so they start here as zeros. -/
def cpu_digest (env : scan_env) (pdata : List Nat) (hw N tmp_nonce : Nat) : List Nat :=
  let tdata := words_to_bytes (tdata_of pdata hw tmp_nonce)
  let X := scrypt_pbkdf2_1 tdata tdata (List.replicate 128 0) 128
  let X := env.romix X N
  bytes_to_words (scrypt_pbkdf2_1 tdata X (List.replicate 32 0) 32)

/-- The eight words `&hash[cur][8 * i]` of lane `i`. -/
def lane_hash (st : scan_state) (i : Nat) : List Nat :=
  ((st.hash.getD st.cur []).drop (8 * i)).take 8

/-- The test of one lane in the scan of `hash[cur]`: the pre-filter on word 7,
`fulltest`, and the comparison (`memcmp`) with the digest recomputed on the CPU. -/
def lane_accepts (env : scan_env) (pdata ptarget : List Nat) (hw N : Nat) (st : scan_state)
    (i : Nat) : Bool :=
  let Htarg := ptarget.getD 7 0
  if (lane_hash st i).getD 7 0 ≤ Htarg && fulltest (lane_hash st i) ptarget then
    let tmp_nonce := (st.nonce.getD st.cur 0 + i) % 2 ^ 32
    cpu_digest env pdata hw N tmp_nonce == lane_hash st i
  else false

/-- The loop `for (int i = 0; iteration > 0 && i < throughput; i++)`: the first
lane that is accepted, if any. -/
def scan_lanes (env : scan_env) (pdata ptarget : List Nat) (hw N : Nat) (st : scan_state) :
    Option Nat :=
  if st.iteration > 0 then
    (List.range env.throughput).find? (fun i => lane_accepts env pdata ptarget hw N st i)
  else none

/-- The 128-byte pre-mix buffers of all lanes of a slot (`parallel < 2`):
`scrypt_pbkdf2_1` with password and salt the lane's header. -/
def premix_lanes (env : scan_env) (hw : Nat) (data : List Nat) : List Nat :=
  ((List.range env.throughput).map (fun i =>
    let h := words_to_bytes ((data.drop (hw * i)).take hw)
    (scrypt_pbkdf2_1 h h (List.replicate 128 0) 128))).flatten

/-- The digests of all lanes of a slot (`parallel < 2`): `scrypt_pbkdf2_1` with
password the lane's header and salt the lane's mixed buffer, 32 bytes each. -/
def postmix_lanes (env : scan_env) (hw : Nat) (data X : List Nat) : List Nat :=
  ((List.range env.throughput).map (fun i =>
    let h := words_to_bytes ((data.drop (hw * i)).take hw)
    bytes_to_words (scrypt_pbkdf2_1 h ((X.drop (128 * i)).take 128)
      (List.replicate 32 0) 32))).flatten

/-- The nonce assignment `for (i..) { tmp_nonce = n++; data[nxt][..] = bswap(tmp_nonce) }`:
the new `n` and the new `data[nxt]`. -/
def assign_nonces (env : scan_env) (hw n : Nat) (data : List Nat) : Nat × List Nat :=
  (List.range env.throughput).foldl
    (fun acc i => ((acc.1 + 1) % 2 ^ 32, acc.2.set (hw * i + (hw - 1)) (bswap_32x4 acc.1)))
    (n, data)

/-- The body of the `do` loop up to the scan: the new loop variables, and whether
a `cuda_scrypt_sync` failed (`break`). -/
def scan_stage (env : scan_env) (hw : Nat) (st : scan_state) : scan_state × Bool :=
  let nonce := st.nonce.set st.nxt st.n
  if env.parallel < 2 then
    let a := assign_nonces env hw st.n (st.data.getD st.nxt [])
    let data := st.data.set st.nxt a.2
    let Xnxt := premix_lanes env hw a.2
    let cuda_X := st.cuda_X.set st.nxt (env.mix_X st.iteration Xnxt)
    if !env.sync1 st.iteration then
      ({ st with n := a.1, nonce := nonce, data := data, cuda_X := cuda_X }, true)
    else
      let Xcur := cuda_X.getD st.cur []
      let digests := postmix_lanes env hw (data.getD st.cur []) Xcur
      let hash := st.hash.set st.cur (digests ++ (st.hash.getD st.cur []).drop digests.length)
      ({ st with n := a.1, nonce := nonce, data := data, cuda_X := cuda_X, hash := hash },
        false)
  else
    let n := (st.n + env.throughput) % 2 ^ 32
    if !env.sync1 st.iteration then ({ st with n := n, nonce := nonce }, true)
    else
      let hash := st.hash.set st.nxt (env.dev_hash st.iteration (nonce.getD st.nxt 0))
      ({ st with n := n, nonce := nonce, hash := hash }, !env.sync2 st.iteration)

/-- The code after the loop: `*hashes_done = n - pdata[..]; pdata[..] = n; return 0`. -/
def scan_exit (pdata : List Nat) (hw : Nat) (st : scan_state) : scan_result :=
  .exhausted (pdata.set (hw - 1) st.n) ((st.n + 2 ^ 32 - pdata.getD (hw - 1) 0) % 2 ^ 32)

/-- The `do { .. } while (n <= max_nonce && !work_restart[thr_id].restart)` loop of
`scanhash_scrypt_jane`.  The first argument bounds the number of iterations; the
result is `none` when it is used up. -/
def scan_loop (env : scan_env) (pdata ptarget : List Nat) (max_nonce hw N : Nat) :
    Nat → scan_state → Option scan_result
  | 0, _ => none
  | fuel + 1, st =>
    let r := scan_stage env hw st
    if r.2 then some (scan_exit pdata hw r.1)
    else
      match scan_lanes env pdata ptarget hw N r.1 with
      | some i =>
        let tmp_nonce := (r.1.nonce.getD r.1.cur 0 + i) % 2 ^ 32
        some (.found (pdata.set (hw - 1) tmp_nonce)
          ((r.1.n + 2 ^ 32 - pdata.getD (hw - 1) 0) % 2 ^ 32) i r.1)
      | none =>
        let st2 := { r.1 with
          cur := (r.1.cur + 1) &&& 1, nxt := (r.1.nxt + 1) &&& 1,
          iteration := r.1.iteration + 1 }
        if st2.n ≤ max_nonce && !env.restart r.1.iteration then
          scan_loop env pdata ptarget max_nonce hw N fuel st2
        else some (scan_exit pdata hw st2)

/-- The value `N = (1 << (Nfactor + 1))` as a `uint32_t`. -/
def scrypt_N (Nfactor : Nat) : Nat := (1 <<< (Nfactor + 1)) % 2 ^ 32

/-- The exponent `Nfactor` chosen by `scanhash_scrypt_jane`. -/
def scan_Nfactor (jane_params : String) (pdata : List Nat) (block_version : Int) : Nat :=
  if block_version < 7 then GetNfactor jane_params (bswap_32x4 (pdata.getD 17 0)) else 21

/-- The value of `block_header_size / 4`. -/
def scan_header_words (block_version : Int) : Nat :=
  (if block_version < 7 then 80 else 84) / 4

/-- The loop variables on entry to the `do` loop: `n` is the caller's nonce word,
`data[0]` and `data[1]` hold `throughput` copies of the byte-swapped header.  The
array `nonce[2]` is not initialised in the source and is written before it is
read; it starts here as zeros. -/
def scan_init (env : scan_env) (pdata : List Nat) (hw : Nat) : scan_state :=
  let hdr := (List.range hw).map (fun z => bswap_32x4 (pdata.getD z 0))
  let copies := (List.replicate env.throughput hdr).flatten
  { n := pdata.getD (hw - 1) 0, nonce := [0, 0], cur := 0, nxt := 1, iteration := 0,
    data := [copies, copies], hash := env.hash_init, cuda_X := env.X_init }

/-- The function `scanhash_scrypt_jane(thr_id, work, max_nonce, hashes_done, .., block_version)`
with `work->data = pdata`, `work->target = ptarget` and the global `jane_params`.
The last argument bounds the number of loop iterations.  Logging, timing, the
lookup-gap tuning and allocation failures are left out. -/
def scanhash_scrypt_jane (env : scan_env) (jane_params : String) (pdata ptarget : List Nat)
    (max_nonce : Nat) (block_version : Int) (fuel : Nat) : Option scan_result :=
  let Nfactor := scan_Nfactor jane_params pdata block_version
  let hw := scan_header_words block_version
  if Nfactor > scrypt_maxN then some .fatal
  else
    let N := scrypt_N Nfactor
    if env.throughput = 0 then some .no_device
    else scan_loop env pdata ptarget max_nonce hw N fuel (scan_init env pdata hw)

/-- The invariant of the loop variables at the top of an iteration; `start` is the
caller's nonce word on entry. -/
def scan_inv (env : scan_env) (start : Nat) (st : scan_state) : Prop :=
  st.cur < 2 ∧ st.nxt = 1 - st.cur ∧ st.nonce.length = 2 ∧ st.hash.length = 2 ∧
  st.n = (start + st.iteration * env.throughput) % 2 ^ 32 ∧
  (0 < st.iteration →
    st.nonce.getD st.cur 0 = (start + (st.iteration - 1) * env.throughput) % 2 ^ 32) ∧
  (2 ≤ env.parallel → 0 < st.iteration →
    st.hash.getD st.cur [] = env.dev_hash (st.iteration - 1) (st.nonce.getD st.cur 0))

/-- The invariant of the loop variables at the scan of `hash[cur]`. -/
def scan_mid (env : scan_env) (start : Nat) (st : scan_state) : Prop :=
  st.cur < 2 ∧ st.nxt = 1 - st.cur ∧ st.nonce.length = 2 ∧ st.hash.length = 2 ∧
  st.n = (start + (st.iteration + 1) * env.throughput) % 2 ^ 32 ∧
  (0 < st.iteration →
    st.nonce.getD st.cur 0 = (start + (st.iteration - 1) * env.throughput) % 2 ^ 32) ∧
  st.nonce.getD st.nxt 0 = (start + st.iteration * env.throughput) % 2 ^ 32 ∧
  (2 ≤ env.parallel → 0 < st.iteration →
    st.hash.getD st.cur [] = env.dev_hash (st.iteration - 1) (st.nonce.getD st.cur 0)) ∧
  (2 ≤ env.parallel →
    st.hash.getD st.nxt [] = env.dev_hash st.iteration (st.nonce.getD st.nxt 0))

/-- A sample device for two-slot runs with one lane (`parallel == 2`): every sync
succeeds, no restart is requested, the reference mix returns 128 zero bytes and
the device reports the digest in its argument for every nonce. -/
def sample_env (digest : List Nat) : scan_env :=
  { parallel := 2, throughput := 1, X_init := [[], []], hash_init := [[], []],
    mix_X := fun _ x => x, dev_hash := fun _ _ => digest,
    sync1 := fun _ => true, sync2 := fun _ => true, restart := fun _ => false,
    romix := fun _ _ => List.replicate 128 0 }

/-- The all-zero 80-byte header. -/
def sample_header : List Nat := List.replicate 20 0

/-- The easiest target. -/
def sample_target : List Nat := List.replicate 8 0xffffffff

/-- The digest the CPU computes for the all-zero header with nonce 0 and `N = 32`
when the reference mix is the one of `sample_env`. -/
def sample_digest : List Nat := cpu_digest (sample_env []) sample_header 20 32 0

/-- The loop variables when the sample run accepts lane 0 in its second iteration. -/
def sample_state : scan_state :=
  { n := 2, nonce := [1, 0], cur := 1, nxt := 0, iteration := 1,
    data := [sample_header, sample_header],
    hash := [sample_digest, sample_digest], cuda_X := [[], []] }

/-- The loop variables of the sample run at the scan of its first iteration. -/
def sample_state0 : scan_state :=
  { n := 1, nonce := [0, 0], cur := 0, nxt := 1, iteration := 0,
    data := [sample_header, sample_header],
    hash := [[], sample_digest], cuda_X := [[], []] }

/-- The loop variables of the sample run at the top of its second iteration. -/
def sample_state1 : scan_state :=
  { n := 1, nonce := [0, 0], cur := 1, nxt := 0, iteration := 1,
    data := [sample_header, sample_header],
    hash := [[], sample_digest], cuda_X := [[], []] }

/-! ## Textbook Keccak-f[1600], for comparison with `keccak_block` -/

/-- Lane `A[x, y]` of a state, stored at index `x + 5 * y`. -/
def lane (A : List Nat) (x y : Nat) : Nat := A.getD (x + 5 * y) 0

/-- The standard rotation offsets `r[x, y]` of Keccak-f[1600], row `x`, column `y`. -/
def rho_offsets : List (List Nat) :=
  [[0, 36, 3, 41, 18],
   [1, 44, 10, 45, 2],
   [62, 6, 43, 15, 61],
   [28, 55, 25, 21, 56],
   [27, 20, 39, 8, 14]]

/-- The offset `r[x, y]`. -/
def rho_offset (x y : Nat) : Nat := (rho_offsets.getD x []).getD y 0

/-- Textbook theta: `C[x] = A[x,0] ^ .. ^ A[x,4]`, `D[x] = C[x-1] ^ rot(C[x+1], 1)`,
`A[x,y] ^= D[x]`. -/
def spec_theta (A : List Nat) : List Nat :=
  let C := fun x => lane A x 0 ^^^ lane A x 1 ^^^ lane A x 2 ^^^ lane A x 3 ^^^ lane A x 4
  let D := fun x => C ((x + 4) % 5) ^^^ ROTL64 (C ((x + 1) % 5)) 1
  (List.range 25).map (fun i => lane A (i % 5) (i / 5) ^^^ D (i % 5))

/-- Textbook rho and pi: `B[y, 2x+3y] = rot(A[x,y], r[x,y])`. -/
def spec_rho_pi (A : List Nat) : List Nat :=
  (List.range 25).foldl
    (fun B i =>
      let x := i % 5
      let y := i / 5
      B.set (y + 5 * ((2 * x + 3 * y) % 5)) (ROTL64 (lane A x y) (rho_offset x y)))
    (List.replicate 25 0)

/-- Textbook chi: `A[x,y] = B[x,y] ^ (~B[x+1,y] & B[x+2,y])`. -/
def spec_chi (B : List Nat) : List Nat :=
  (List.range 25).map (fun i =>
    let x := i % 5
    let y := i / 5
    lane B x y ^^^ (NOT64 (lane B ((x + 1) % 5) y) &&& lane B ((x + 2) % 5) y))

/-- Textbook iota: `A[0,0] ^= RC`. -/
def spec_iota (A : List Nat) (rc : Nat) : List Nat := A.set 0 (lane A 0 0 ^^^ rc)

/-- One textbook round: theta, rho and pi, chi, iota. -/
def spec_round (A : List Nat) (rc : Nat) : List Nat :=
  spec_iota (spec_chi (spec_rho_pi (spec_theta A))) rc

/-- One step of the degree-8 LFSR that generates the round constants
(`x^8 + x^6 + x^5 + x^4 + 1`). -/
def lfsr_step (r : Nat) : Nat :=
  if r &&& 0x80 ≠ 0 then ((r <<< 1) ^^^ 0x71) % 256 else (r <<< 1) % 256

/-- The LFSR output bit `rc(t)`. -/
def lfsr_bit (t : Nat) : Nat := (lfsr_step^[t] 1) &&& 1

/-- The standard round constant of round `i`: bit `2^j - 1` is `rc(j + 7 i)`, `j = 0..6`. -/
def spec_RC (i : Nat) : Nat :=
  (List.range 7).foldl (fun acc j => acc ||| (lfsr_bit (j + 7 * i) <<< (2 ^ j - 1))) 0

/-- The 24 standard round constants. -/
def spec_round_constants : List Nat := (List.range 24).map spec_RC

/-- Textbook Keccak-f[1600]: 24 rounds. -/
def spec_keccak_f (A : List Nat) : List Nat := spec_round_constants.foldl spec_round A

/-- The state with lanes 0..8 XORed with the nine little-endian 64-bit words of a
block and lanes 9..24 left as they were. -/
def spec_xor_block (s : List Nat) (block : List Nat) : List Nat :=
  (List.range 25).map (fun i =>
    if i < 9 then s.getD i 0 ^^^ U8TO64_LE (block.drop (8 * i)) else s.getD i 0)

/-- Every lane of a state is a 64-bit word. -/
def Lanes64 (s : List Nat) : Prop := ∀ i, s.getD i 0 < 2 ^ 64

/-- A sponge state obtained from `scrypt_hash_init` by a sequence of
`scrypt_hash_update` calls. -/
def Reachable (S : scrypt_hash_state) : Prop :=
  ∃ chunks : List (List Nat), S = chunks.foldl scrypt_hash_update scrypt_hash_init

/-- The published Keccak-512 digest of the empty message (rate 576 bits, capacity
1024 bits, domain-separation byte 0x01):
0eab42de4c3ceb92 35fc91acffe746b2 9c29a8c366b7c60e 4e67c466f36a4304
c00fa9caf9d87976 ba469bcbe06713b4 35f091ef2769fb16 0cdab33d3670680e. -/
def keccak512_empty : List Nat :=
  [0x0e, 0xab, 0x42, 0xde, 0x4c, 0x3c, 0xeb, 0x92, 0x35, 0xfc, 0x91, 0xac, 0xff, 0xe7, 0x46, 0xb2,
   0x9c, 0x29, 0xa8, 0xc3, 0x66, 0xb7, 0xc6, 0x0e, 0x4e, 0x67, 0xc4, 0x66, 0xf3, 0x6a, 0x43, 0x04,
   0xc0, 0x0f, 0xa9, 0xca, 0xf9, 0xd8, 0x79, 0x76, 0xba, 0x46, 0x9b, 0xcb, 0xe0, 0x67, 0x13, 0xb4,
   0x35, 0xf0, 0x91, 0xef, 0x27, 0x69, 0xfb, 0x16, 0x0c, 0xda, 0xb3, 0x3d, 0x36, 0x70, 0x68, 0x0e]

/-- The sample device with the restart flag already set. -/
def cancelled_env : scan_env :=
  { sample_env [] with restart := fun _ => true }

/-- The characters of a string in lower case, as `strcasecmp` compares them. -/
def lower (s : String) : List Char := s.toList.map Char.toLower

/-- An entry of the coin table that a lowered identifier hits by its short code
or long name with case ignored on both. -/
def caseless_hit (L : List Char) (e : String × String × Nat × Nat × Nat) : Bool :=
  L == lower e.1 || L == lower e.2.1

/-- The end of an iteration of the search loop: `cur` and `nxt` swapped, `iteration`
counted. -/
def scan_flip (st : scan_state) : scan_state :=
  { st with cur := (st.cur + 1) &&& 1, nxt := (st.nxt + 1) &&& 1, iteration := st.iteration + 1 }

/-- The loop variables at the top of iteration `it` (counted from 0) of the search
loop, as long as the loop has neither returned nor been left. -/
def scan_top (env : scan_env) (pdata : List Nat) (hw : Nat) : Nat → scan_state
  | 0 => scan_init env pdata hw
  | it + 1 => scan_flip (scan_stage env hw (scan_top env pdata hw it)).1

/-- The loop variables at the scan of `hash[cur]` in iteration `it`. -/
def scan_at (env : scan_env) (pdata : List Nat) (hw it : Nat) : scan_state :=
  (scan_stage env hw (scan_top env pdata hw it)).1

/-- The loop condition `n <= max_nonce && !work_restart[thr_id].restart` at the end
of iteration `it`. -/
def scan_cond (env : scan_env) (pdata : List Nat) (max_nonce hw it : Nat) : Bool :=
  decide ((scan_at env pdata hw it).n ≤ max_nonce) && !env.restart (scan_at env pdata hw it).iteration

/-- Iteration `it` passes without an event: no sync fails, no lane is accepted and
the loop condition holds. -/
def scan_quiet (env : scan_env) (pdata ptarget : List Nat) (max_nonce hw N it : Nat) : Prop :=
  (scan_stage env hw (scan_top env pdata hw it)).2 = false ∧
  scan_lanes env pdata ptarget hw N (scan_at env pdata hw it) = none ∧
  scan_cond env pdata max_nonce hw it = true

/-- The device digests equal the CPU reference digests: whenever `hash[cur]` is
scanned, the eight words of every lane are the digest computed on the CPU for
that lane's nonce `nonce[cur] + i`. -/
def device_honest (env : scan_env) (pdata : List Nat) (hw N : Nat) : Prop :=
  ∀ it i, 0 < it → i < env.throughput →
    lane_hash (scan_at env pdata hw it) i
      = cpu_digest env pdata hw N
          (((scan_at env pdata hw it).nonce.getD (scan_at env pdata hw it).cur 0 + i) % 2 ^ 32)

/-- No cancellation and no device failure: every `cuda_scrypt_sync` succeeds and
the restart flag is never set. -/
def no_failure (env : scan_env) : Prop :=
  ∀ it, env.sync1 it = true ∧ env.sync2 it = true ∧ env.restart it = false

/-- The digest of nonce `v`, computed on the CPU, satisfies the target. -/
def qualifies (env : scan_env) (pdata ptarget : List Nat) (hw N v : Nat) : Bool :=
  fulltest (cpu_digest env pdata hw N v) ptarget
/-- The digests an honest device leaves for a slot of `T` lanes with base nonce
`nonce`, for the all-zero header with `N = 32` and the reference mix of
`sample_env`: the CPU digest of every lane's nonce, eight words each. -/
def honest_digests (T nonce : Nat) : List Nat :=
  ((List.range T).map (fun i =>
    cpu_digest (sample_env []) sample_header 20 32 ((nonce + i) % 2 ^ 32))).flatten

/-- A sample device with `T` lanes (`parallel == 2`) whose digests are the CPU
reference digests: every sync succeeds and no restart is requested. -/
def honest_env (T : Nat) : scan_env :=
  { parallel := 2, throughput := T, X_init := [[], []], hash_init := [[], []],
    mix_X := fun _ x => x, dev_hash := fun _ nonce => honest_digests T nonce,
    sync1 := fun _ => true, sync2 := fun _ => true, restart := fun _ => false,
    romix := fun _ _ => List.replicate 128 0 }

/-- The value of `blocks` in `scrypt_pbkdf2_1`:
`((uint32_t)bytes + (SCRYPT_HASH_DIGEST_SIZE - 1)) / SCRYPT_HASH_DIGEST_SIZE` in 32-bit
arithmetic. -/
def pbkdf2_blocks (bytes : Nat) : Nat :=
  ((bytes % 2 ^ 32 + (SCRYPT_HASH_DIGEST_SIZE - 1)) % 2 ^ 32) / SCRYPT_HASH_DIGEST_SIZE

/-- The argument `N * 128` of `scrypt_alloc` for `Vbuf` in `scanhash_scrypt_jane`: the
product of the `uint32_t N` and the `int` 128 is evaluated in 32 bits, then
converted to the `uint64_t` parameter. -/
def scan_Vbuf_size (Nfactor : Nat) : Nat := (scrypt_N Nfactor * 128) % 2 ^ 32

/-- The argument `Nsize * chunk_bytes` of `scrypt_alloc` for `V` in `scryptjane_hash`:
`chunk_bytes` is a `uint64_t` with value 128, so the product is evaluated in 64
bits. -/
def hash_V_size (Nfactor : Nat) : Nat := (scrypt_N Nfactor * 128) % 2 ^ 64
/-- The caller's header after the call: the array of the outcomes that write the
nonce word; `return -1` and the fatal error write nothing. -/
def header_after (pdata : List Nat) : scan_result → List Nat
  | .found p _ _ _ => p
  | .exhausted p _ => p
  | .no_device => pdata
  | .fatal => pdata

/-- A sample device with one lane (`parallel == 2`) that reports the digest
`1, 0, .., 0` for every nonce; every sync succeeds and no restart is requested. -/
def reject_env : scan_env := sample_env [1, 0, 0, 0, 0, 0, 0, 0]

/-- The hardest target: all zero. -/
def zero_target : List Nat := List.replicate 8 0

/-- A target that half of all digests meet: the top word is `0x7fffffff`, the
other words are all ones. -/
def half_target : List Nat := List.replicate 7 0xffffffff ++ [0x7fffffff]

/-! # Properties -/

/-! ## Lemmas on `keccak_block` and the absorb loop -/

theorem getD_drop_add (l : List Nat) (k j : Nat) :
    (l.drop k).getD j 0 = l.getD (k + j) 0 := by
  simp [List.getD_eq_getElem?_getD, List.getElem?_drop]

theorem U8TO64_LE_drop_congr (inp inp2 : List Nat) (k : Nat)
    (h : ∀ j, j < 8 → inp.getD (k + j) 0 = inp2.getD (k + j) 0) :
    U8TO64_LE (inp.drop k) = U8TO64_LE (inp2.drop k) := by
  unfold U8TO64_LE
  simp only [getD_drop_add]
  rw [h 0 (by omega), h 1 (by omega), h 2 (by omega), h 3 (by omega),
    h 4 (by omega), h 5 (by omega), h 6 (by omega), h 7 (by omega)]

/-- The function `keccak_block` reads only the first 72 bytes behind its input pointer. -/
theorem keccak_block_congr (s inp inp2 : List Nat)
    (h : ∀ i, i < 72 → inp.getD i 0 = inp2.getD i 0) :
    keccak_block s inp = keccak_block s inp2 := by
  unfold keccak_block keccak_absorb
  have e : SCRYPT_HASH_BLOCK_SIZE / 8 = 9 := by decide
  rw [e]
  have hk : ∀ i, i < 9 → U8TO64_LE (inp.drop (8 * i)) = U8TO64_LE (inp2.drop (8 * i)) := by
    intro i hi
    apply U8TO64_LE_drop_congr
    intro j hj
    exact h _ (by omega)
  simp only [List.range_succ, List.range_zero, List.nil_append, List.cons_append,
    List.foldl_cons, List.foldl_nil]
  rw [hk 0 (by omega), hk 1 (by omega), hk 2 (by omega), hk 3 (by omega), hk 4 (by omega),
    hk 5 (by omega), hk 6 (by omega), hk 7 (by omega), hk 8 (by omega)]

theorem keccak_block_take (s inp : List Nat) :
    keccak_block s (inp.take 72) = keccak_block s inp := by
  apply keccak_block_congr
  intro i hi
  simp [List.getD_eq_getElem?_getD, List.getElem?_take, hi]

theorem keccak_block_append (s a b : List Nat) (h : a.length = 72) :
    keccak_block s (a ++ b) = keccak_block s a := by
  rw [← keccak_block_take s (a ++ b)]
  simp [List.take_append_of_le_length, h]

theorem spec_blocks_nil (fuel : Nat) : spec_blocks fuel [] = [] := by
  cases fuel <;> simp [spec_blocks]

theorem hash_blocks_eq (fuel : Nat) : ∀ (s inp : List Nat), inp.length / 72 ≤ fuel →
    hash_blocks fuel s inp = (absorbed s inp, rest inp) := by
  induction fuel with
  | zero =>
    intro s inp h
    have h0 : inp.length / 72 = 0 := by omega
    simp [hash_blocks, absorbed, rest, h0, spec_blocks]
  | succ n ih =>
    intro s inp h
    unfold hash_blocks
    have e : SCRYPT_HASH_BLOCK_SIZE = 72 := by decide
    rw [e]
    by_cases hl : inp.length ≥ 72
    · rw [if_pos hl]
      have hlen : (inp.drop 72).length = inp.length - 72 := by simp
      have hq : (inp.drop 72).length / 72 = inp.length / 72 - 1 := by rw [hlen]; omega
      rw [ih _ _ (by rw [hq]; omega)]
      have hk : inp.length / 72 = (inp.length / 72 - 1) + 1 := by omega
      have hne : inp ≠ [] := by
        intro h0; rw [h0, List.length_nil] at hl; omega
      unfold absorbed rest
      rw [hq, Prod.mk.injEq]
      constructor
      · conv_rhs => rw [hk, spec_blocks, if_neg hne]
        rw [List.foldl_cons, keccak_block_take]
      · rw [List.drop_drop]
        have e2 : 72 + 72 * (inp.length / 72 - 1) = 72 * (inp.length / 72) := by omega
        rw [e2]
    · rw [if_neg hl]
      have h0 : inp.length / 72 = 0 := by omega
      simp [absorbed, rest, h0, spec_blocks]

theorem rest_length (d : List Nat) : (rest d).length = d.length % 72 := by
  unfold rest
  rw [List.length_drop]
  omega

theorem rest_of_short (d : List Nat) (h : d.length < 72) : rest d = d := by
  unfold rest
  have h0 : d.length / 72 = 0 := by omega
  simp [h0]

theorem absorbed_of_short (s d : List Nat) (h : d.length < 72) : absorbed s d = s := by
  unfold absorbed
  have h0 : d.length / 72 = 0 := by omega
  simp [h0, spec_blocks]

/-- Absorbing `a ++ b` where `a` is exactly one block. -/
theorem absorbed_block_append (s a b : List Nat) (h : a.length = 72) :
    absorbed s (a ++ b) = absorbed (keccak_block s a) b ∧ rest (a ++ b) = rest b := by
  unfold absorbed rest
  have hl : (a ++ b).length = 72 + b.length := by simp [h]
  have hq : (a ++ b).length / 72 = b.length / 72 + 1 := by rw [hl]; omega
  have hne : a ++ b ≠ [] := by
    intro h0
    have := congrArg List.length h0
    rw [List.length_append, List.length_nil] at this
    omega
  rw [hq]
  constructor
  · rw [spec_blocks, if_neg hne, List.foldl_cons]
    rw [List.take_left' h, List.drop_left' h]
  · have : 72 * (b.length / 72 + 1) = a.length + 72 * (b.length / 72) := by omega
    rw [this, List.drop_append]

/-- What the part of `scrypt_hash_update` after the leftover handling does. -/
theorem hash_update_current_spec (S : scrypt_hash_state) (inp : List Nat)
    (hb : S.buffer.length = 72) :
    WF (hash_update_current S inp) ∧
    (hash_update_current S inp).state = absorbed S.state inp ∧
    pending (hash_update_current S inp) = rest inp := by
  have hr := hash_blocks_eq inp.length S.state inp (Nat.div_le_self _ _)
  have hlen := rest_length inp
  have hlt : (rest inp).length < 72 := by rw [hlen]; omega
  have hmod : (rest inp).length % 2 ^ 32 = (rest inp).length := by
    apply Nat.mod_eq_of_lt; omega
  unfold WF pending hash_update_current
  simp only [hr, hmod]
  by_cases h0 : (rest inp).length = 0
  · have hnil : rest inp = [] := List.length_eq_zero.mp h0
    simp [h0, hb, hnil]
  · simp only [ne_eq, h0, not_false_eq_true, if_true]
    refine ⟨⟨?_, hlt⟩, trivial, ?_⟩
    · simp [memcpy, hb]; omega
    · simp [memcpy]

theorem memcpy_length (dst src : List Nat) (off n : Nat)
    (h1 : off + n ≤ dst.length) (h2 : n ≤ src.length) :
    (memcpy dst off src n).length = dst.length := by
  simp [memcpy]
  omega

theorem pending_length (S : scrypt_hash_state) (h : WF S) :
    (pending S).length = S.leftover := by
  obtain ⟨hb, hl⟩ := h
  simp [pending, hb]
  omega

/-- The function `scrypt_hash_update` keeps the invariant and absorbs the full blocks of the
pending bytes followed by the input; the new pending bytes are what remains. -/
theorem scrypt_hash_update_spec (S : scrypt_hash_state) (inp : List Nat) (h : WF S) :
    WF (scrypt_hash_update S inp) ∧
    (scrypt_hash_update S inp).state = absorbed S.state (pending S ++ inp) ∧
    pending (scrypt_hash_update S inp) = rest (pending S ++ inp) := by
  have hp := pending_length S h
  obtain ⟨hb, hl⟩ := h
  have e : SCRYPT_HASH_BLOCK_SIZE = 72 := by decide
  unfold scrypt_hash_update
  by_cases h0 : S.leftover = 0
  · have hnil : pending S = [] := by simp [pending, h0]
    rw [if_neg (by simpa using h0), hnil, List.nil_append]
    exact hash_update_current_spec S inp hb
  · rw [if_pos h0]
    simp only [e]
    generalize hwant : (if 72 - S.leftover < inp.length then 72 - S.leftover else inp.length) = want
    have hw1 : want ≤ inp.length := by rw [← hwant]; split <;> omega
    have hw2 : want ≤ 72 - S.leftover := by rw [← hwant]; split <;> omega
    have hw3 : want = 72 - S.leftover ∨ want = inp.length := by rw [← hwant]; split <;> simp
    have hmod : (S.leftover + want) % 2 ^ 32 = S.leftover + want := by
      apply Nat.mod_eq_of_lt; omega
    have hbl : (memcpy S.buffer S.leftover inp want).length = 72 := by
      rw [memcpy_length _ _ _ _ (by omega) hw1, hb]
    have hd : pending S ++ inp = (pending S ++ inp.take want) ++ inp.drop want := by
      rw [List.append_assoc, List.take_append_drop]
    rw [hmod]
    by_cases hlt : S.leftover + want < 72
    · rw [if_pos hlt]
      have hwl : want = inp.length := by omega
      have hdl : (pending S ++ inp).length < 72 := by
        rw [List.length_append, hp]; omega
      rw [absorbed_of_short _ _ hdl, rest_of_short _ hdl]
      refine ⟨⟨hbl, hlt⟩, rfl, ?_⟩
      simp only [pending, memcpy]
      rw [List.take_of_length_le (Nat.le_of_eq hwl.symm)]
      have hlen2 : (List.take S.leftover S.buffer ++ inp).length = S.leftover + want := by
        rw [List.length_append, List.length_take, hb, hwl]
        omega
      exact List.take_left' hlen2
    · rw [if_neg hlt]
      have hwl : S.leftover + want = 72 := by omega
      have hbuf : memcpy S.buffer S.leftover inp want = pending S ++ inp.take want := by
        simp only [memcpy, pending]
        rw [hwl, List.drop_of_length_le (by omega), List.append_nil]
      have hs := hash_update_current_spec
        { state := keccak_block S.state (memcpy S.buffer S.leftover inp want),
          leftover := S.leftover + want,
          buffer := memcpy S.buffer S.leftover inp want } (inp.drop want) hbl
      obtain ⟨hA, hR⟩ := absorbed_block_append S.state (pending S ++ inp.take want)
        (inp.drop want) (by rw [← hbuf]; exact hbl)
      rw [hd, hA, hR, ← hbuf]
      simp only [] at hs
      exact hs

/-- The final block is the pending bytes followed by the padding of the spec. -/
theorem finish_block_eq (S : scrypt_hash_state) (h : WF S) :
    finish_block S = pending S ++ spec_pad S.leftover := by
  have hp := pending_length S h
  obtain ⟨hb, hl⟩ := h
  have e : SCRYPT_HASH_BLOCK_SIZE = 72 := by decide
  have hmod : S.leftover % 72 = S.leftover := Nat.mod_eq_of_lt hl
  have h1 : S.buffer.set S.leftover 1
      = pending S ++ 1 :: S.buffer.drop (S.leftover + 1) := by
    rw [List.set_eq_take_append_cons_drop, if_pos (by omega)]
    rfl
  have h2 : memset0 (S.buffer.set S.leftover 1) (S.leftover + 1) (72 - (S.leftover + 1))
      = pending S ++ 1 :: List.replicate (72 - S.leftover - 1) 0 := by
    unfold memset0
    rw [h1]
    have ht : List.take (S.leftover + 1) (pending S ++ 1 :: S.buffer.drop (S.leftover + 1))
        = pending S ++ [1] := by
      rw [← hp, List.take_append]
      simp
    have hd : List.drop (S.leftover + 1 + (72 - (S.leftover + 1)))
        (pending S ++ 1 :: S.buffer.drop (S.leftover + 1)) = [] := by
      apply List.drop_of_length_le
      simp [hp, hb]
      omega
    rw [ht, hd, List.append_nil, List.append_assoc]
    have : 72 - (S.leftover + 1) = 72 - S.leftover - 1 := by omega
    rw [this]
    rfl
  unfold finish_block scrypt_hash_finish
  simp only [e]
  rw [h2]
  unfold spec_pad
  simp only [hmod]
  have hidx : 72 - 1 = (pending S).length + (72 - S.leftover - 1) := by rw [hp]; omega
  rw [hidx, List.set_append_right _ _ (Nat.le_add_right _ _),
    List.getD_append_right _ _ _ _ (Nat.le_add_right _ _), Nat.add_sub_cancel_left]

theorem scrypt_hash_finish_digest (S : scrypt_hash_state) :
    (scrypt_hash_finish S).2 = spec_squeeze (keccak_block S.state (finish_block S)) := by
  rfl

/-- The digest of a state that satisfies the invariant. -/
theorem scrypt_hash_finish_spec (S : scrypt_hash_state) (h : WF S) :
    (scrypt_hash_finish S).2
      = spec_squeeze (keccak_block S.state (pending S ++ spec_pad S.leftover)) := by
  rw [scrypt_hash_finish_digest, finish_block_eq S h]

theorem spec_pad_length (n : Nat) : (spec_pad n).length = 72 - n % 72 := by
  unfold spec_pad
  simp only [List.length_set, List.length_cons, List.length_replicate]
  omega

theorem spec_pad_mod (n : Nat) : spec_pad (n % 72) = spec_pad n := by
  unfold spec_pad
  rw [Nat.mod_mod]

/-- Folding `keccak_block` over the blocks of `m ++ tail`, where `tail` completes
the last block, absorbs the full blocks of `m` and then the completed block. -/
theorem fold_blocks_append (q : Nat) : ∀ (m s tail : List Nat) (fuel : Nat),
    m.length / 72 = q → (rest m ++ tail).length = 72 → q + 1 ≤ fuel →
    (spec_blocks fuel (m ++ tail)).foldl keccak_block s
      = keccak_block (absorbed s m) (rest m ++ tail) := by
  induction q with
  | zero =>
    intro m s tail fuel hq hlen hf
    have hm : m.length < 72 := by omega
    rw [rest_of_short m hm] at hlen ⊢
    rw [absorbed_of_short s m hm]
    obtain ⟨f, rfl⟩ : ∃ f, fuel = f + 1 := ⟨fuel - 1, by omega⟩
    have hne : m ++ tail ≠ [] := by
      intro h0
      rw [h0, List.length_nil] at hlen
      omega
    rw [spec_blocks, if_neg hne, List.take_of_length_le (Nat.le_of_eq hlen),
      List.drop_of_length_le (Nat.le_of_eq hlen), spec_blocks_nil, List.foldl_cons,
      List.foldl_nil]
  | succ q ih =>
    intro m s tail fuel hq hlen hf
    have hm : 72 ≤ m.length := by omega
    have ha : (m.take 72).length = 72 := by rw [List.length_take]; omega
    have hsplit : m = m.take 72 ++ m.drop 72 := (List.take_append_drop 72 m).symm
    obtain ⟨hA, hR⟩ := absorbed_block_append s (m.take 72) (m.drop 72) ha
    rw [← hsplit] at hA hR
    obtain ⟨f, rfl⟩ : ∃ f, fuel = f + 1 := ⟨fuel - 1, by omega⟩
    have hne : m ++ tail ≠ [] := by
      intro h0
      have := congrArg List.length h0
      rw [List.length_append, List.length_nil] at this
      omega
    have hbq : (m.drop 72).length / 72 = q := by
      rw [List.length_drop]; omega
    have e1 : (m ++ tail).take 72 = m.take 72 := by
      rw [List.take_append_of_le_length hm]
    have e2 : (m ++ tail).drop 72 = m.drop 72 ++ tail := by
      rw [List.drop_append_of_le_length hm]
    rw [spec_blocks, if_neg hne, List.foldl_cons, e1, e2, hA, hR]
    exact ih (m.drop 72) (keccak_block s (m.take 72)) tail f hbq (by rw [← hR]; exact hlen)
      (by omega)

theorem scrypt_hash_init_WF : WF scrypt_hash_init := by
  unfold WF scrypt_hash_init
  simp only [List.length_replicate]
  decide

theorem scrypt_hash_init_pending : pending scrypt_hash_init = [] := by
  simp [pending, scrypt_hash_init]

theorem scrypt_hash_init_state : scrypt_hash_init.state = zero_state := by
  decide

/-- The digest of `scrypt_hash`: absorb the full blocks, then the padded rest. -/
theorem scrypt_hash_eq_absorbed (m : List Nat) :
    scrypt_hash m
      = spec_squeeze (keccak_block (absorbed zero_state m) (rest m ++ spec_pad m.length)) := by
  obtain ⟨hW, hS, hP⟩ := scrypt_hash_update_spec scrypt_hash_init m scrypt_hash_init_WF
  rw [scrypt_hash_init_pending, List.nil_append] at hS hP
  have hlo : (scrypt_hash_update scrypt_hash_init m).leftover = m.length % 72 := by
    rw [← pending_length _ hW, hP, rest_length]
  unfold scrypt_hash
  rw [scrypt_hash_finish_spec _ hW, hS, hP, hlo, spec_pad_mod, scrypt_hash_init_state]

/-- Claim C1.  For every byte string `m`, `scrypt_hash m` (init, one update with
`m`, finish) is the little-endian serialisation of lanes 0..7 of the state
obtained by folding `keccak_block`, from the all-zero state, over the
consecutive 72-byte blocks of `m ++ pad`, with `pad` the shortest non-empty
string `0x01, 0, ..., 0` with `0x80` OR-ed into its last byte that makes the
length a multiple of 72. -/
theorem scrypt_hash_eq_spec (m : List Nat) : scrypt_hash m = spec_hash m := by
  rw [scrypt_hash_eq_absorbed]
  unfold spec_hash
  have hlen : (rest m ++ spec_pad m.length).length = 72 := by
    rw [List.length_append, rest_length, spec_pad_length]
    omega
  simp only []
  rw [fold_blocks_append (m.length / 72) m zero_state (spec_pad m.length) _ rfl hlen]
  rw [List.length_append, spec_pad_length]
  omega

/-! ## `keccak_block` against the textbook permutation -/

theorem spec_round_constants_eq : spec_round_constants = keccak_round_constants := by
  decide

theorem range25 : List.range 25 = [0, 1, 2, 3, 4, 5, 6, 7, 8, 9, 10, 11, 12, 13, 14, 15, 16, 17,
    18, 19, 20, 21, 22, 23, 24] := by decide

theorem range9 : List.range 9 = [0, 1, 2, 3, 4, 5, 6, 7, 8] := by decide

/-- A list of 25 lanes written out lane by lane. -/
theorem explicit25 (l : List Nat) (h : l.length = 25) :
    l = [l.getD 0 0, l.getD 1 0, l.getD 2 0, l.getD 3 0, l.getD 4 0, l.getD 5 0, l.getD 6 0,
      l.getD 7 0, l.getD 8 0, l.getD 9 0, l.getD 10 0, l.getD 11 0, l.getD 12 0, l.getD 13 0,
      l.getD 14 0, l.getD 15 0, l.getD 16 0, l.getD 17 0, l.getD 18 0, l.getD 19 0, l.getD 20 0,
      l.getD 21 0, l.getD 22 0, l.getD 23 0, l.getD 24 0] := by
  apply List.ext_getElem
  · simp [h]
  · intro n h1 h2
    have hn : n < 25 := by omega
    interval_cases n <;> simp [List.getD_eq_getElem?_getD, List.getElem?_eq_getElem, h]

theorem thetaStep_explicit (a0 a1 a2 a3 a4 a5 a6 a7 a8 a9 a10 a11 a12 a13 a14 a15 a16 a17 a18 a19
  a20 a21 a22 a23 a24 : Nat) :
    thetaStep [a0, a1, a2, a3, a4, a5, a6, a7, a8, a9, a10, a11, a12, a13, a14, a15, a16, a17,
      a18, a19, a20, a21, a22, a23, a24] = spec_theta [a0, a1, a2, a3, a4, a5, a6, a7, a8, a9,
      a10, a11, a12, a13, a14, a15, a16, a17, a18, a19, a20, a21, a22, a23, a24] := by
  simp only [thetaStep, spec_theta, xorAt, lane, range25, List.map_cons, List.map_nil,
    List.getD_cons_succ, List.getD_cons_zero, List.set_cons_succ, List.set_cons_zero,
    Nat.reduceMod, Nat.reduceDiv, Nat.reduceAdd, Nat.reduceMul]

theorem chiStep_explicit (a0 a1 a2 a3 a4 a5 a6 a7 a8 a9 a10 a11 a12 a13 a14 a15 a16 a17 a18 a19
  a20 a21 a22 a23 a24 : Nat) :
    chiStep [a0, a1, a2, a3, a4, a5, a6, a7, a8, a9, a10, a11, a12, a13, a14, a15, a16, a17, a18,
      a19, a20, a21, a22, a23, a24] = spec_chi [a0, a1, a2, a3, a4, a5, a6, a7, a8, a9, a10, a11,
      a12, a13, a14, a15, a16, a17, a18, a19, a20, a21, a22, a23, a24] := by
  simp only [chiStep, chiRow, spec_chi, NOT64, xorAt, lane, range25, List.map_cons,
    List.map_nil, List.getD_cons_succ, List.getD_cons_zero, List.set_cons_succ, List.set_cons_zero,
    Nat.reduceMod, Nat.reduceDiv, Nat.reduceAdd, Nat.reduceMul]

theorem ROTL64_zero (a : Nat) (h : a < 2 ^ 64) : ROTL64 a 0 = a := by
  unfold ROTL64
  have h2 : a >>> (64 - 0) = 0 := by
    rw [Nat.shiftRight_eq_div_pow]
    exact Nat.div_eq_of_lt h
  rw [h2, Nat.shiftLeft_zero, Nat.or_zero, Nat.mod_eq_of_lt h]

theorem rhoPiStep_explicit (a0 a1 a2 a3 a4 a5 a6 a7 a8 a9 a10 a11 a12 a13 a14 a15 a16 a17 a18 a19
  a20 a21 a22 a23 a24 : Nat) (h : a0 < 2 ^ 64) :
    rhoPiStep [a0, a1, a2, a3, a4, a5, a6, a7, a8, a9, a10, a11, a12, a13, a14, a15, a16, a17,
      a18, a19, a20, a21, a22, a23, a24] = spec_rho_pi [a0, a1, a2, a3, a4, a5, a6, a7, a8, a9,
      a10, a11, a12, a13, a14, a15, a16, a17, a18, a19, a20, a21, a22, a23, a24] := by
  simp only [rhoPiStep, spec_rho_pi, rho_offset, rho_offsets, lane, range25, List.foldl_cons,
    List.foldl_nil, List.replicate, List.getD_cons_succ, List.getD_cons_zero, List.set_cons_succ,
      List.set_cons_zero,
    Nat.reduceMod, Nat.reduceDiv, Nat.reduceAdd, Nat.reduceMul]
  rw [ROTL64_zero a0 h]

theorem keccak_absorb_explicit (a0 a1 a2 a3 a4 a5 a6 a7 a8 a9 a10 a11 a12 a13 a14 a15 a16 a17 a18
  a19 a20 a21 a22 a23 a24 : Nat) (inp : List Nat) :
    keccak_absorb [a0, a1, a2, a3, a4, a5, a6, a7, a8, a9, a10, a11, a12, a13, a14, a15, a16, a17,
      a18, a19, a20, a21, a22, a23, a24] inp = spec_xor_block [a0, a1, a2, a3, a4, a5, a6, a7, a8,
      a9, a10, a11, a12, a13, a14, a15, a16, a17, a18, a19, a20, a21, a22, a23, a24] inp := by
  have e : SCRYPT_HASH_BLOCK_SIZE / 8 = 9 := by decide
  simp only [keccak_absorb, e, spec_xor_block, xorAt, range25, range9, List.map_cons,
    List.map_nil, List.foldl_cons, List.foldl_nil, Nat.reduceLT, if_true, if_false,
    List.getD_cons_succ, List.getD_cons_zero, List.set_cons_succ, List.set_cons_zero,
    Nat.reduceMod, Nat.reduceDiv, Nat.reduceAdd, Nat.reduceMul]

theorem thetaStep_eq (l : List Nat) (h : l.length = 25) : thetaStep l = spec_theta l := by
  rw [explicit25 l h]
  exact thetaStep_explicit _ _ _ _ _ _ _ _ _ _ _ _ _ _ _ _ _ _ _ _ _ _ _ _ _

theorem chiStep_eq (l : List Nat) (h : l.length = 25) : chiStep l = spec_chi l := by
  rw [explicit25 l h]
  exact chiStep_explicit _ _ _ _ _ _ _ _ _ _ _ _ _ _ _ _ _ _ _ _ _ _ _ _ _

theorem rhoPiStep_eq (l : List Nat) (h : l.length = 25) (h0 : l.getD 0 0 < 2 ^ 64) :
    rhoPiStep l = spec_rho_pi l := by
  rw [explicit25 l h]
  exact rhoPiStep_explicit _ _ _ _ _ _ _ _ _ _ _ _ _ _ _ _ _ _ _ _ _ _ _ _ _ h0

theorem keccak_absorb_eq (l inp : List Nat) (h : l.length = 25) :
    keccak_absorb l inp = spec_xor_block l inp := by
  rw [explicit25 l h]
  exact keccak_absorb_explicit _ _ _ _ _ _ _ _ _ _ _ _ _ _ _ _ _ _ _ _ _ _ _ _ _ inp

theorem getD_map_range (f : Nat → Nat) (n i : Nat) :
    ((List.range n).map f).getD i 0 = if i < n then f i else 0 := by
  rw [List.getD_eq_getElem?_getD, List.getElem?_map]
  by_cases h : i < n
  · rw [List.getElem?_range h, if_pos h]; rfl
  · rw [List.getElem?_eq_none (by simpa using h), if_neg h]; rfl

theorem getD_set_lt (B : List Nat) (k v i n : Nat) (hB : ∀ j, B.getD j 0 < n) (hv : v < n) :
    (B.set k v).getD i 0 < n := by
  have hpos : 0 < n := Nat.lt_of_le_of_lt (Nat.zero_le _) hv
  have hi := hB i
  rw [List.getD_eq_getElem?_getD] at hi ⊢
  rw [List.getElem?_set]
  by_cases hk : k = i
  · rw [if_pos hk]
    by_cases hl : k < B.length
    · rw [if_pos hl]; exact hv
    · rw [if_neg hl]; exact hpos
  · rw [if_neg hk]; exact hi

theorem ROTL64_lt (a b : Nat) : ROTL64 a b < 2 ^ 64 := Nat.mod_lt _ (by decide)

theorem lane_lt (A : List Nat) (h : Lanes64 A) (x y : Nat) : lane A x y < 2 ^ 64 := h _

theorem Lanes64_spec_theta (A : List Nat) (h : Lanes64 A) : Lanes64 (spec_theta A) := by
  intro i
  unfold spec_theta
  simp only []
  rw [getD_map_range]
  split
  · have hC : ∀ x, lane A x 0 ^^^ lane A x 1 ^^^ lane A x 2 ^^^ lane A x 3 ^^^ lane A x 4
        < 2 ^ 64 := fun x =>
      Nat.xor_lt_two_pow (Nat.xor_lt_two_pow (Nat.xor_lt_two_pow (Nat.xor_lt_two_pow
        (lane_lt A h _ _) (lane_lt A h _ _)) (lane_lt A h _ _)) (lane_lt A h _ _))
        (lane_lt A h _ _)
    exact Nat.xor_lt_two_pow (lane_lt A h _ _) (Nat.xor_lt_two_pow (hC _) (ROTL64_lt _ _))
  · decide

theorem Lanes64_spec_chi (B : List Nat) (h : Lanes64 B) : Lanes64 (spec_chi B) := by
  intro i
  unfold spec_chi
  rw [getD_map_range]
  split
  · exact Nat.xor_lt_two_pow (lane_lt B h _ _) (Nat.and_lt_two_pow _ (lane_lt B h _ _))
  · decide

theorem Lanes64_fold_set (f g : Nat → Nat) (L : List Nat) : ∀ (B : List Nat), Lanes64 B →
    Lanes64 (L.foldl (fun B i => B.set (f i) (ROTL64 (g i) (rho_offset (i % 5) (i / 5)))) B) := by
  induction L with
  | nil => intro B hB; exact hB
  | cons a L ih =>
    intro B hB
    rw [List.foldl_cons]
    apply ih
    intro i
    exact getD_set_lt B _ _ i _ hB (ROTL64_lt _ _)

theorem length_fold_set (f g : Nat → Nat) (L : List Nat) : ∀ (B : List Nat),
    (L.foldl (fun B i => B.set (f i) (g i)) B).length = B.length := by
  induction L with
  | nil => intro B; rfl
  | cons a L ih =>
    intro B
    rw [List.foldl_cons, ih, List.length_set]

theorem Lanes64_spec_rho_pi (A : List Nat) : Lanes64 (spec_rho_pi A) := by
  unfold spec_rho_pi
  apply Lanes64_fold_set (fun i => i / 5 + 5 * ((2 * (i % 5) + 3 * (i / 5)) % 5))
    (fun i => lane A (i % 5) (i / 5))
  intro i
  rw [List.getD_eq_getElem?_getD, List.getElem?_replicate]
  split <;> decide

theorem Lanes64_spec_iota (A : List Nat) (rc : Nat) (h : Lanes64 A) (hrc : rc < 2 ^ 64) :
    Lanes64 (spec_iota A rc) := by
  intro i
  unfold spec_iota
  exact getD_set_lt A _ _ i _ h (Nat.xor_lt_two_pow (lane_lt A h _ _) hrc)

theorem length_spec_theta (A : List Nat) : (spec_theta A).length = 25 := by
  simp [spec_theta]

theorem length_spec_chi (A : List Nat) : (spec_chi A).length = 25 := by
  simp [spec_chi]

theorem length_spec_rho_pi (A : List Nat) : (spec_rho_pi A).length = 25 := by
  unfold spec_rho_pi
  rw [length_fold_set (fun i => i / 5 + 5 * ((2 * (i % 5) + 3 * (i / 5)) % 5))
    (fun i => ROTL64 (lane A (i % 5) (i / 5)) (rho_offset (i % 5) (i / 5)))]
  simp

theorem length_spec_round (A : List Nat) (rc : Nat) : (spec_round A rc).length = 25 := by
  unfold spec_round spec_iota
  rw [List.length_set, length_spec_chi]

theorem Lanes64_spec_round (A : List Nat) (rc : Nat) (hrc : rc < 2 ^ 64) :
    Lanes64 (spec_round A rc) :=
  Lanes64_spec_iota _ _ (Lanes64_spec_chi _ (Lanes64_spec_rho_pi _)) hrc

/-- One round of `keccak_block` is one textbook round. -/
theorem keccak_round_eq (l : List Nat) (rc : Nat) (h : l.length = 25) (hl : Lanes64 l) :
    keccak_round l rc = spec_round l rc := by
  unfold keccak_round spec_round
  rw [thetaStep_eq l h, rhoPiStep_eq _ (length_spec_theta l) (Lanes64_spec_theta l hl 0),
    chiStep_eq _ (length_spec_rho_pi _)]
  rfl

theorem keccak_rounds_eq (rcs : List Nat) (hrc : ∀ rc ∈ rcs, rc < 2 ^ 64) :
    ∀ (l : List Nat), l.length = 25 → Lanes64 l →
    rcs.foldl keccak_round l = rcs.foldl spec_round l := by
  induction rcs with
  | nil => intro l _ _; simp only [List.foldl_nil]
  | cons rc rcs ih =>
    intro l h hl
    rw [List.foldl_cons, List.foldl_cons, keccak_round_eq l rc h hl]
    exact ih (fun r hr => hrc r (List.mem_cons_of_mem _ hr)) _ (length_spec_round l rc)
      (Lanes64_spec_round l rc (hrc rc (List.mem_cons_self _ _)))

theorem keccak_round_constants_lt : ∀ rc ∈ keccak_round_constants, rc < 2 ^ 64 := by
  decide

theorem getD_lt_of_forall (l : List Nat) (n j : Nat) (hn : 0 < n) (h : ∀ b ∈ l, b < n) :
    l.getD j 0 < n := by
  rw [List.getD_eq_getElem?_getD]
  by_cases hj : j < l.length
  · rw [List.getElem?_eq_getElem hj]
    exact h _ (List.getElem_mem hj)
  · rw [List.getElem?_eq_none (by omega)]
    exact hn

theorem U8TO64_LE_lt (p : List Nat) (h : ∀ j, p.getD j 0 < 256) : U8TO64_LE p < 2 ^ 64 := by
  unfold U8TO64_LE
  have h0 := h 0
  have h1 := h 1
  have h2 := h 2
  have h3 := h 3
  have h4 := h 4
  have h5 := h 5
  have h6 := h 6
  have h7 := h 7
  simp only [Nat.shiftLeft_eq]
  refine Nat.or_lt_two_pow (Nat.or_lt_two_pow (Nat.or_lt_two_pow (Nat.or_lt_two_pow
    (Nat.or_lt_two_pow (Nat.or_lt_two_pow (Nat.or_lt_two_pow ?_ ?_) ?_) ?_) ?_) ?_) ?_) ?_
    <;> omega

theorem Lanes64_spec_xor_block (s inp : List Nat) (hs : Lanes64 s) (hb : ∀ b ∈ inp, b < 256) :
    Lanes64 (spec_xor_block s inp) := by
  intro i
  unfold spec_xor_block
  rw [getD_map_range]
  split
  · split
    · apply Nat.xor_lt_two_pow (hs i)
      apply U8TO64_LE_lt
      intro j
      rw [getD_drop_add]
      exact getD_lt_of_forall inp 256 _ (by decide) hb
    · exact hs i
  · decide

/-- Claim C2.  For every state of 25 64-bit lanes and every 72-byte block,
`keccak_block` is the textbook Keccak-f[1600] permutation (24 rounds of theta,
rho and pi with the standard offsets, chi, iota with the standard round
constants) applied to the state whose lanes 0..8 are XORed with the nine
little-endian words of the block and whose lanes 9..24 are unchanged. -/
theorem keccak_block_eq_keccak_f (s inp : List Nat) (hs : s.length = 25)
    (hl : ∀ v ∈ s, v < 2 ^ 64) (_hi : inp.length = 72) (hb : ∀ b ∈ inp, b < 256) :
    keccak_block s inp = spec_keccak_f (spec_xor_block s inp) := by
  have hL : Lanes64 s := fun i => getD_lt_of_forall s _ i (by decide) hl
  unfold keccak_block spec_keccak_f
  rw [spec_round_constants_eq, keccak_absorb_eq s inp hs]
  exact keccak_rounds_eq _ keccak_round_constants_lt _ (by simp [spec_xor_block])
    (Lanes64_spec_xor_block s inp hL hb)

theorem keccak_block_eq_keccak_f_witness :
    (List.replicate 25 0).length = 25 ∧ (∀ v ∈ List.replicate 25 0, v < 2 ^ 64) ∧
    (List.replicate 72 0).length = 72 ∧ (∀ b ∈ List.replicate 72 0, b < 256) ∧
    keccak_block (List.replicate 25 0) (List.replicate 72 0)
      = spec_keccak_f (spec_xor_block (List.replicate 25 0) (List.replicate 72 0)) :=
  ⟨by decide, by decide, by decide, by decide,
   keccak_block_eq_keccak_f _ _ (by decide) (by decide) (by decide) (by decide)⟩

/-! ## HMAC -/

/-- Absorbing `d ++ x` is absorbing `d` and then the rest of `d` followed by `x`. -/
theorem absorbed_append (q : Nat) : ∀ (d s x : List Nat), d.length / 72 = q →
    absorbed s (d ++ x) = absorbed (absorbed s d) (rest d ++ x) ∧
    rest (d ++ x) = rest (rest d ++ x) := by
  induction q with
  | zero =>
    intro d s x hq
    have hd : d.length < 72 := by omega
    rw [absorbed_of_short s d hd, rest_of_short d hd]
    exact ⟨rfl, rfl⟩
  | succ q ih =>
    intro d s x hq
    have hm : 72 ≤ d.length := by omega
    have ha : (d.take 72).length = 72 := by rw [List.length_take]; omega
    have hsplit : d = d.take 72 ++ d.drop 72 := (List.take_append_drop 72 d).symm
    obtain ⟨hA, hR⟩ := absorbed_block_append s (d.take 72) (d.drop 72) ha
    obtain ⟨hA2, hR2⟩ := absorbed_block_append s (d.take 72) (d.drop 72 ++ x) ha
    rw [← List.append_assoc, ← hsplit] at hA2 hR2
    rw [← hsplit] at hA hR
    have hbq : (d.drop 72).length / 72 = q := by
      rw [List.length_drop]; omega
    obtain ⟨i1, i2⟩ := ih (d.drop 72) (keccak_block s (d.take 72)) x hbq
    rw [hA2, hR2, hA, hR]
    exact ⟨i1, i2⟩

theorem Absorbs_init : Absorbs scrypt_hash_init [] := by
  refine ⟨scrypt_hash_init_WF, ?_, ?_⟩
  · rw [scrypt_hash_init_state, absorbed_of_short _ _ (by simp)]
  · rw [scrypt_hash_init_pending, rest_of_short _ (by simp)]

theorem Absorbs_update (S : scrypt_hash_state) (d x : List Nat) (h : Absorbs S d) :
    Absorbs (scrypt_hash_update S x) (d ++ x) := by
  obtain ⟨hW, hS, hP⟩ := h
  obtain ⟨hW2, hS2, hP2⟩ := scrypt_hash_update_spec S x hW
  obtain ⟨hA, hR⟩ := absorbed_append (d.length / 72) d zero_state x rfl
  refine ⟨hW2, ?_, ?_⟩
  · rw [hS2, hS, hP, hA]
  · rw [hP2, hP, hR]

theorem Absorbs_finish (S : scrypt_hash_state) (d : List Nat) (h : Absorbs S d) :
    (scrypt_hash_finish S).2 = scrypt_hash d := by
  obtain ⟨hW, hS, hP⟩ := h
  have hlo : S.leftover = d.length % 72 := by
    rw [← pending_length _ hW, hP, rest_length]
  rw [scrypt_hash_finish_spec S hW, scrypt_hash_eq_absorbed, hS, hP, hlo, spec_pad_mod]

theorem spec_squeeze_length (s : List Nat) : (spec_squeeze s).length = 64 := by
  simp [spec_squeeze, U64TO8_LE, List.range_succ]

theorem scrypt_hash_length (m : List Nat) : (scrypt_hash m).length = 64 := by
  rw [scrypt_hash_eq_absorbed, spec_squeeze_length]

theorem xor_pad_swap (x a b : Nat) : (x ^^^ a) ^^^ (b ^^^ a) = x ^^^ b := by
  rw [Nat.xor_comm b a, ← Nat.xor_assoc, Nat.xor_assoc x a a, Nat.xor_self, Nat.xor_zero]

/-- The key block `scrypt_hmac_init` builds in `pad` before masking. -/
theorem hmac_key_block (key : List Nat) :
    (if key.length ≤ SCRYPT_HASH_BLOCK_SIZE
      then memcpy (List.replicate SCRYPT_HASH_BLOCK_SIZE 0) 0 key key.length
      else memcpy (List.replicate SCRYPT_HASH_BLOCK_SIZE 0) 0 (scrypt_hash key)
        SCRYPT_HASH_DIGEST_SIZE)
      = spec_hmac_key key := by
  have e : SCRYPT_HASH_BLOCK_SIZE = 72 := by decide
  have e2 : SCRYPT_HASH_DIGEST_SIZE = 64 := by decide
  rw [e, e2]
  unfold spec_hmac_key memcpy
  by_cases h : key.length ≤ 72
  · rw [if_pos h, if_pos h]
    simp only [List.take_zero, List.nil_append, Nat.zero_add, List.take_length,
      List.drop_replicate]
  · rw [if_neg h, if_neg h]
    have hl := scrypt_hash_length key
    rw [List.take_of_length_le (Nat.le_of_eq hl)]
    simp only [List.take_zero, List.nil_append, Nat.zero_add, List.drop_replicate,
      Nat.reduceSub]

theorem scrypt_hmac_init_spec (key : List Nat) :
    Absorbs (scrypt_hmac_init key).inner ((spec_hmac_key key).map (fun b => b ^^^ 0x36)) ∧
    Absorbs (scrypt_hmac_init key).outer ((spec_hmac_key key).map (fun b => b ^^^ 0x5c)) := by
  unfold scrypt_hmac_init
  simp only []
  rw [hmac_key_block]
  constructor
  · have := Absorbs_update scrypt_hash_init [] ((spec_hmac_key key).map (fun b => b ^^^ 0x36))
      Absorbs_init
    rwa [List.nil_append] at this
  · have := Absorbs_update scrypt_hash_init []
      (((spec_hmac_key key).map (fun b => b ^^^ 0x36)).map (fun b => b ^^^ (0x5c ^^^ 0x36)))
      Absorbs_init
    rw [List.nil_append, List.map_map] at this
    have hf : ((fun b => b ^^^ (0x5c ^^^ 0x36)) ∘ fun b => b ^^^ 0x36)
        = fun b : Nat => b ^^^ 0x5c := by
      funext b
      exact xor_pad_swap b 0x36 0x5c
    rw [hf] at this
    rw [List.map_map, hf]
    exact this

theorem scrypt_hmac_update_spec (st : scrypt_hmac_state) (d m : List Nat)
    (h : Absorbs st.inner d) :
    Absorbs (scrypt_hmac_update st m).inner (d ++ m) ∧
    (scrypt_hmac_update st m).outer = st.outer :=
  ⟨Absorbs_update st.inner d m h, rfl⟩

theorem scrypt_hmac_updates_spec (chunks : List (List Nat)) :
    ∀ (st : scrypt_hmac_state) (d : List Nat), Absorbs st.inner d →
    Absorbs (chunks.foldl scrypt_hmac_update st).inner (d ++ chunks.flatten) ∧
    (chunks.foldl scrypt_hmac_update st).outer = st.outer := by
  induction chunks with
  | nil =>
    intro st d h
    simp only [List.foldl_nil, List.flatten_nil, List.append_nil]
    exact ⟨h, trivial⟩
  | cons c cs ih =>
    intro st d h
    obtain ⟨h1, h2⟩ := scrypt_hmac_update_spec st d c h
    obtain ⟨i1, i2⟩ := ih (scrypt_hmac_update st c) (d ++ c) h1
    rw [List.foldl_cons, List.flatten_cons, ← List.append_assoc]
    exact ⟨i1, i2.trans h2⟩

theorem scrypt_hmac_finish_spec (st : scrypt_hmac_state) (d o : List Nat)
    (hi : Absorbs st.inner d) (ho : Absorbs st.outer o) :
    (scrypt_hmac_finish st).2 = scrypt_hash (o ++ scrypt_hash d) := by
  unfold scrypt_hmac_finish
  simp only []
  rw [Absorbs_finish st.inner d hi]
  exact Absorbs_finish _ _ (Absorbs_update st.outer o _ ho)

theorem scrypt_hmac_chunks (k : List Nat) (chunks : List (List Nat)) :
    (scrypt_hmac_finish (chunks.foldl scrypt_hmac_update (scrypt_hmac_init k))).2
      = spec_hmac k chunks.flatten := by
  obtain ⟨hI, hO⟩ := scrypt_hmac_init_spec k
  obtain ⟨h1, h2⟩ := scrypt_hmac_updates_spec chunks (scrypt_hmac_init k) _ hI
  rw [scrypt_hmac_finish_spec _ _ _ h1 (by rw [h2]; exact hO)]
  rfl

/-- Claim C3.  For every key `k` and every message, however it is split across
`scrypt_hmac_update` calls, `scrypt_hmac_finish` after `scrypt_hmac_init k`
returns `H((K xor 0x5c) ++ H((K xor 0x36) ++ m))` with `H = scrypt_hash` and
`K` the key zero-padded to 72 bytes (at most 72 bytes, used directly) or its
hash zero-padded from 64 to 72 bytes (more than 72 bytes). -/
theorem scrypt_hmac_eq_spec (k : List Nat) (chunks : List (List Nat)) :
    (scrypt_hmac_finish (chunks.foldl scrypt_hmac_update (scrypt_hmac_init k))).2
      = spec_hmac k chunks.flatten :=
  scrypt_hmac_chunks k chunks

/-! ## PBKDF2 with one iteration -/

theorem scrypt_hmac_eq (k m : List Nat) : scrypt_hmac k m = spec_hmac k m := by
  have := scrypt_hmac_chunks k [m]
  simpa [scrypt_hmac] using this

/-- A block computed from the forked context equals a fresh HMAC. -/
theorem pbkdf2_block_eq (p s be : List Nat) :
    (scrypt_hmac_finish (scrypt_hmac_update (scrypt_hmac_update (scrypt_hmac_init p) s) be)).2
      = scrypt_hmac p (s ++ be) := by
  have := scrypt_hmac_chunks p [s, be]
  rw [scrypt_hmac_eq]
  simpa using this

theorem spec_hmac_length (k m : List Nat) : (spec_hmac k m).length = 64 :=
  scrypt_hash_length _

theorem scrypt_hmac_length (k m : List Nat) : (scrypt_hmac k m).length = 64 := by
  rw [scrypt_hmac_eq, spec_hmac_length]

theorem spec_pbkdf2_stream_succ (p s : List Nat) (first count : Nat) :
    spec_pbkdf2_stream p s first (count + 1)
      = scrypt_hmac p (s ++ U32TO8_BE first) ++ spec_pbkdf2_stream p s (first + 1) count := by
  simp [spec_pbkdf2_stream, List.range'_succ]

theorem spec_pbkdf2_stream_length (p s : List Nat) (count : Nat) : ∀ first,
    (spec_pbkdf2_stream p s first count).length = 64 * count := by
  induction count with
  | zero => intro first; simp [spec_pbkdf2_stream]
  | succ n ih =>
    intro first
    rw [spec_pbkdf2_stream_succ, List.length_append, ih, scrypt_hmac_length]
    omega

theorem pbkdf2_loop_exit (st : scrypt_hmac_state) (blocks fuel i : Nat) (out : List Nat)
    (off bytes : Nat) (h : blocks < i) : pbkdf2_loop st blocks fuel i out off bytes = out := by
  cases fuel with
  | zero => rfl
  | succ f => rw [pbkdf2_loop, if_neg (by omega)]

/-- The loop of `scrypt_pbkdf2_1` from counter `i`: the bytes before the offset
stay, the blocks `i .. n` are written, cut at `L`, and the bytes from `L` on stay. -/
theorem pbkdf2_loop_spec (p s : List Nat) (L n : Nat) (hn : n = (L + 63) / 64)
    (hL : L ≤ 2 ^ 32 - 64) : ∀ (fuel i : Nat) (out : List Nat),
    1 ≤ i → i ≤ n → n + 1 ≤ fuel + i → L ≤ out.length →
    pbkdf2_loop (scrypt_hmac_update (scrypt_hmac_init p) s) n fuel i out
      (64 * (i - 1)) (L - 64 * (i - 1))
    = out.take (64 * (i - 1)) ++ (spec_pbkdf2_stream p s i (n + 1 - i)).take (L - 64 * (i - 1))
      ++ out.drop L := by
  have e2 : SCRYPT_HASH_DIGEST_SIZE = 64 := rfl
  intro fuel
  induction fuel with
  | zero => intro i out h1 h2 h3; omega
  | succ f ih =>
    intro i out h1 h2 h3 ho
    rw [pbkdf2_loop, if_pos h2]
    simp only [e2]
    rw [pbkdf2_block_eq]
    have hti := scrypt_hmac_length p (s ++ U32TO8_BE i)
    by_cases hlast : i = n
    · subst hlast
      have hb1 : L - 64 * (i - 1) ≤ 64 := by omega
      have hb2 : 64 * (i - 1) + (L - 64 * (i - 1)) = L := by omega
      rw [if_neg (by omega), pbkdf2_loop_exit _ _ _ _ _ _ _ (by
        rw [Nat.mod_eq_of_lt (by omega)]; omega)]
      have hc : i + 1 - i = 1 := by omega
      rw [hc, spec_pbkdf2_stream_succ]
      simp only [memcpy, hb2, spec_pbkdf2_stream, List.range'_zero, List.map_nil,
        List.flatten_nil, List.append_nil]
    · have hlt : i < n := by omega
      have hb1 : 64 < L - 64 * (i - 1) := by omega
      rw [if_pos hb1]
      have hi1 : (i + 1) % 2 ^ 32 = i + 1 := Nat.mod_eq_of_lt (by omega)
      have hoff : 64 * (i - 1) + 64 = 64 * (i + 1 - 1) := by omega
      have hby : (L - 64 * (i - 1) + (2 ^ 64 - 64)) % 2 ^ 64 = L - 64 * (i + 1 - 1) := by
        omega
      rw [hi1, hoff, hby]
      have hlen : (memcpy out (64 * (i - 1)) (scrypt_hmac p (s ++ U32TO8_BE i)) 64).length
          = out.length := memcpy_length _ _ _ _ (by omega) (by omega)
      rw [ih (i + 1) _ (by omega) (by omega) (by omega) (by rw [hlen]; exact ho)]
      have htake : (scrypt_hmac p (s ++ U32TO8_BE i)).take 64
          = scrypt_hmac p (s ++ U32TO8_BE i) := List.take_of_length_le (by omega)
      have hA : (out.take (64 * (i - 1)) ++ scrypt_hmac p (s ++ U32TO8_BE i)).length
          = 64 * (i + 1 - 1) := by
        rw [List.length_append, List.length_take, hti]; omega
      have hc : n + 1 - i = (n + 1 - (i + 1)) + 1 := by omega
      rw [hc, spec_pbkdf2_stream_succ]
      simp only [memcpy, htake]
      rw [List.take_left' hA, List.drop_append_eq_append_drop, hA,
        List.drop_of_length_le (by rw [hA]; omega), List.nil_append, List.drop_drop,
        List.take_append_eq_append_take, hti,
        List.take_of_length_le (by omega : (scrypt_hmac p (s ++ U32TO8_BE i)).length
          ≤ L - 64 * (i - 1))]
      have e3 : 64 * (i - 1) + 64 + (L - 64 * (i + 1 - 1)) = L := by omega
      have e4 : L - 64 * (i - 1) - 64 = L - 64 * (i + 1 - 1) := by omega
      rw [e3, e4]
      simp only [List.append_assoc]

theorem pbkdf2_blocks_eq (L : Nat) (hL : L ≤ 2 ^ 32 - 64) :
    ((L % 2 ^ 32 + (SCRYPT_HASH_DIGEST_SIZE - 1)) % 2 ^ 32) / SCRYPT_HASH_DIGEST_SIZE
      = (L + 63) / 64 := by
  have e2 : SCRYPT_HASH_DIGEST_SIZE = 64 := rfl
  rw [e2]
  omega

theorem spec_pbkdf2_length (p s : List Nat) (L : Nat) : (spec_pbkdf2 p s L).length = L := by
  unfold spec_pbkdf2
  rw [List.length_take, spec_pbkdf2_stream_length]
  omega

theorem scrypt_pbkdf2_1_out (p s out : List Nat) (L : Nat) (hL : L ≤ 2 ^ 32 - 64)
    (ho : L ≤ out.length) :
    scrypt_pbkdf2_1 p s out L = spec_pbkdf2 p s L ++ out.drop L := by
  unfold scrypt_pbkdf2_1
  simp only []
  rw [pbkdf2_blocks_eq L hL]
  by_cases h0 : L = 0
  · subst h0
    simp [pbkdf2_loop, spec_pbkdf2, spec_pbkdf2_stream]
  · have := pbkdf2_loop_spec p s L ((L + 63) / 64) rfl hL ((L + 63) / 64) 1 out
      (by omega) (by omega) (by omega) ho
    simp only [Nat.sub_self, Nat.mul_zero, Nat.sub_zero, List.take_zero, List.nil_append,
      Nat.add_sub_cancel] at this
    rw [this]
    rfl

/-- Claim C4.  For every password, salt and output length `L ≤ 2^32 - 64`,
`scrypt_pbkdf2_1` writes exactly `L` bytes (the rest of the output array is
untouched), equal to the first `L` bytes of
`HMAC(p, s ++ be32(1)) ++ .. ++ HMAC(p, s ++ be32(ceil(L/64)))`, each block a
single fresh HMAC of this file. -/
theorem scrypt_pbkdf2_1_eq_spec (p s out : List Nat) (L : Nat) (hL : L ≤ 2 ^ 32 - 64)
    (ho : L ≤ out.length) :
    scrypt_pbkdf2_1 p s out L = spec_pbkdf2 p s L ++ out.drop L ∧
    (spec_pbkdf2 p s L).length = L :=
  ⟨scrypt_pbkdf2_1_out p s out L hL ho, spec_pbkdf2_length p s L⟩

theorem scrypt_pbkdf2_1_eq_spec_witness :
    5 ≤ 2 ^ 32 - 64 ∧ 5 ≤ [7, 7, 7, 7, 7, 7, 7, 7].length ∧
    scrypt_pbkdf2_1 [1, 2, 3] [4, 5] [7, 7, 7, 7, 7, 7, 7, 7] 5
      = spec_pbkdf2 [1, 2, 3] [4, 5] 5 ++ [7, 7, 7, 7, 7, 7, 7, 7].drop 5 ∧
    (spec_pbkdf2 [1, 2, 3] [4, 5] 5).length = 5 :=
  ⟨by decide, by decide,
   scrypt_pbkdf2_1_eq_spec [1, 2, 3] [4, 5] [7, 7, 7, 7, 7, 7, 7, 7] 5 (by decide) (by decide)⟩

theorem spec_pbkdf2_stream_add (p s : List Nat) (a b : Nat) : ∀ first,
    spec_pbkdf2_stream p s first (a + b)
      = spec_pbkdf2_stream p s first a ++ spec_pbkdf2_stream p s (first + a) b := by
  induction a with
  | zero =>
    intro first
    simp [spec_pbkdf2_stream]
  | succ a ih =>
    intro first
    have e : a + 1 + b = (a + b) + 1 := by omega
    have e2 : first + (a + 1) = first + 1 + a := by omega
    rw [e, spec_pbkdf2_stream_succ, spec_pbkdf2_stream_succ, ih, List.append_assoc, e2]

/-- The spec output for `L` is a prefix of the spec output for any larger length. -/
theorem spec_pbkdf2_prefix (p s : List Nat) (L L2 : Nat) (h : L ≤ L2) :
    spec_pbkdf2 p s L = (spec_pbkdf2 p s L2).take L := by
  unfold spec_pbkdf2
  rw [List.take_take, Nat.min_eq_left h]
  have hn : (L2 + 63) / 64 = (L + 63) / 64 + ((L2 + 63) / 64 - (L + 63) / 64) := by omega
  rw [hn, spec_pbkdf2_stream_add, List.take_append_of_le_length]
  rw [spec_pbkdf2_stream_length]
  omega

/-- Claim C5.  For every password, salt and lengths `L < L2` in the supported
range, the `L` bytes `scrypt_pbkdf2_1` writes for length `L` are the first `L`
bytes of what it writes for length `L2`, whether or not `L` is a multiple of 64. -/
theorem scrypt_pbkdf2_1_prefix (p s out out2 : List Nat) (L L2 : Nat) (h : L < L2)
    (hL2 : L2 ≤ 2 ^ 32 - 64) (ho : L ≤ out.length) (ho2 : L2 ≤ out2.length) :
    (scrypt_pbkdf2_1 p s out L).take L = ((scrypt_pbkdf2_1 p s out2 L2).take L2).take L := by
  rw [scrypt_pbkdf2_1_out p s out L (by omega) ho, scrypt_pbkdf2_1_out p s out2 L2 hL2 ho2,
    List.take_left' (spec_pbkdf2_length p s L), List.take_left' (spec_pbkdf2_length p s L2)]
  exact spec_pbkdf2_prefix p s L L2 (by omega)

theorem scrypt_pbkdf2_1_prefix_witness :
    3 < 5 ∧ 5 ≤ 2 ^ 32 - 64 ∧ 3 ≤ [0, 0, 0].length ∧ 5 ≤ [7, 7, 7, 7, 7, 7].length ∧
    (scrypt_pbkdf2_1 [1] [2] [0, 0, 0] 3).take 3
      = ((scrypt_pbkdf2_1 [1] [2] [7, 7, 7, 7, 7, 7] 5).take 5).take 3 :=
  ⟨by decide, by decide, by decide, by decide,
   scrypt_pbkdf2_1_prefix [1] [2] [0, 0, 0] [7, 7, 7, 7, 7, 7] 3 5 (by decide) (by decide)
     (by decide) (by decide)⟩

/-! ## The N-factor schedule -/

/-- The halving loop stops after `k` halvings at the first `s / 2^k` below 8. -/
theorem halve_loop_spec (fuel : Nat) : ∀ (l s : Nat), s ≤ fuel →
    ∃ k, halve_loop fuel l s = (l + k, s / 2 ^ k) ∧ s / 2 ^ k < 8 ∧
      ∀ j, j < k → 8 ≤ s / 2 ^ j := by
  induction fuel with
  | zero =>
    intro l s hs
    have h0 : s = 0 := by omega
    subst h0
    refine ⟨0, ?_, ?_, ?_⟩
    · simp [halve_loop]
    · simp
    · intro j hj
      omega
  | succ f ih =>
    intro l s hs
    rw [halve_loop]
    have hsh : s >>> 1 = s / 2 := by rw [Nat.shiftRight_eq_div_pow]
    rw [hsh]
    by_cases hc : 3 < s / 2
    · rw [if_pos hc]
      obtain ⟨k, hk1, hk2, hk3⟩ := ih (l + 1) (s / 2) (by omega)
      have hdiv : ∀ j, s / 2 / 2 ^ j = s / 2 ^ (j + 1) := by
        intro j
        rw [Nat.div_div_eq_div_mul, Nat.pow_succ, Nat.mul_comm]
      refine ⟨k + 1, ?_, ?_, ?_⟩
      · rw [hk1, hdiv]
        have : l + 1 + k = l + (k + 1) := by omega
        rw [this]
      · rw [← hdiv]; exact hk2
      · intro j hj
        cases j with
        | zero => simp only [Nat.pow_zero, Nat.div_one]; omega
        | succ j => rw [← hdiv]; exact hk3 j (by omega)
    · rw [if_neg hc]
      refine ⟨0, by simp, ?_, by intro j hj; omega⟩
      simp only [Nat.pow_zero, Nat.div_one]
      omega

/-- The halving count is at most 29 on a 32-bit difference. -/
theorem halve_count_le (s k : Nat) (hs : s < 2 ^ 32) (hk : ∀ j, j < k → 8 ≤ s / 2 ^ j) :
    k ≤ 29 := by
  by_contra hc
  have h29 := hk 29 (by omega)
  have : s / 2 ^ 29 < 8 := by
    apply Nat.div_lt_of_lt_mul
    omega
  omega

/-- The unsigned evaluation followed by the conversion to `int` and the clamp at
zero is the truncated natural-number expression. -/
theorem nfactor_expr_eq (l r : Nat) (hl : l ≤ 29) (hr : r ≤ 3) :
    (if nfactor_expr l r < 0 then 0 else nfactor_expr l r)
      = (((l * 170 + r * 25 - 2320) / 100 : Nat) : Int) := by
  unfold nfactor_expr int_of_bits32 ULONG_BITS
  by_cases h : 2320 ≤ l * 170 + r * 25
  · have e1 : (l * 170 + r * 25 + (2 ^ 64 - 2320)) % 2 ^ 64 = l * 170 + r * 25 - 2320 := by
      omega
    rw [e1]
    have hq : (l * 170 + r * 25 - 2320) / 100 ≤ 26 := by omega
    have e2 : (l * 170 + r * 25 - 2320) / 100 % 2 ^ 32 = (l * 170 + r * 25 - 2320) / 100 :=
      Nat.mod_eq_of_lt (by omega)
    have hlt : (l * 170 + r * 25 - 2320) / 100 < 2 ^ 31 := by omega
    rw [e2, if_pos hlt]
    have hnn : ¬ ((((l * 170 + r * 25 - 2320) / 100 : Nat) : Int) < 0) := by omega
    rw [if_neg hnn]
  · have e1 : (l * 170 + r * 25 + (2 ^ 64 - 2320)) % 2 ^ 64
        = l * 170 + r * 25 + (2 ^ 64 - 2320) := by omega
    rw [e1]
    have e3 : (l * 170 + r * 25 - 2320) / 100 = 0 := by omega
    rw [e3]
    have hc1 : 184467440737095492 ≤ (l * 170 + r * 25 + (2 ^ 64 - 2320)) / 100 := by omega
    have hc2 : (l * 170 + r * 25 + (2 ^ 64 - 2320)) / 100 ≤ 184467440737095516 := by omega
    generalize (l * 170 + r * 25 + (2 ^ 64 - 2320)) / 100 = c at hc1 hc2 ⊢
    have hm : c % 2 ^ 32 = c - 42949672 * 2 ^ 32 := by omega
    have e4 : ¬ (c % 2 ^ 32 < 2 ^ 31) := by omega
    have hneg : (((c % 2 ^ 32 : Nat) : Int) - 2 ^ 32) < 0 := by omega
    rw [if_neg e4, if_pos hneg]
    rfl

theorem and_three (q : Nat) : q &&& 3 = q % 4 :=
  Nat.and_pow_two_sub_one_eq_mod q 2

/-- The facts about the halving loop on a 32-bit difference. -/
theorem halve_facts (s : Nat) (hs : s < 2 ^ 32) :
    ∃ k, halve_loop s 0 s = (k, s / 2 ^ k) ∧ s / 2 ^ k < 8 ∧
      (∀ j, j < k → 8 ≤ s / 2 ^ j) ∧ k ≤ 29 := by
  obtain ⟨k, h1, h2, h3⟩ := halve_loop_spec s 0 s (Nat.le_refl _)
  rw [Nat.zero_add] at h1
  exact ⟨k, h1, h2, h3, halve_count_le s k hs h3⟩

theorem nfactor_raw_le (s : Nat) (hs : s < 2 ^ 32) : nfactor_raw s ≤ 26 := by
  obtain ⟨k, h1, h2, h3, h4⟩ := halve_facts s hs
  unfold nfactor_raw
  rw [h1, and_three]
  simp only []
  omega

/-- The schedule after the reference timestamp, in terms of `nfactor_raw`. -/
theorem GetNfactor_schedule_after (ref mn mx t : Nat) (h : ref < t) :
    GetNfactor_schedule ref mn mx t
      = if nfactor_raw ((t - ref) % 2 ^ 32) < mn then mn % 256
        else if nfactor_raw ((t - ref) % 2 ^ 32) > mx then mx % 256
        else nfactor_raw ((t - ref) % 2 ^ 32) % 256 := by
  have hs : (t - ref) % 2 ^ 32 < 2 ^ 32 := Nat.mod_lt _ (by decide)
  obtain ⟨k, h1, h2, h3, h4⟩ := halve_facts _ hs
  have hle := nfactor_raw_le _ hs
  unfold GetNfactor_schedule
  rw [if_neg (by omega)]
  simp only []
  have hr : (halve_loop ((t - ref) % 2 ^ 32) 0 ((t - ref) % 2 ^ 32)).2 &&& 3 ≤ 3 := by
    rw [and_three]; omega
  have hl : (halve_loop ((t - ref) % 2 ^ 32) 0 ((t - ref) % 2 ^ 32)).1 ≤ 29 := by
    rw [h1]; exact h4
  rw [nfactor_expr_eq _ _ hl hr, Int.toNat_ofNat]
  have hm : nfactor_raw ((t - ref) % 2 ^ 32) % 2 ^ 32 = nfactor_raw ((t - ref) % 2 ^ 32) :=
    Nat.mod_eq_of_lt (by omega)
  unfold nfactor_raw at hm hle ⊢
  rw [hm]

/-- The raw exponent is monotone in the difference. -/
theorem nfactor_raw_mono (s t : Nat) (hst : s ≤ t) (ht : t < 2 ^ 32) :
    nfactor_raw s ≤ nfactor_raw t := by
  obtain ⟨k, h1, h2, h3, h4⟩ := halve_facts s (by omega)
  obtain ⟨m, g1, g2, g3, g4⟩ := halve_facts t ht
  unfold nfactor_raw
  rw [h1, g1, and_three, and_three]
  simp only []
  have hkm : k ≤ m := by
    by_contra hc
    have a1 := h3 m (by omega)
    have a2 : s / 2 ^ m ≤ t / 2 ^ m := Nat.div_le_div_right hst
    omega
  by_cases hEq : k = m
  · subst hEq
    have a2 : s / 2 ^ k ≤ t / 2 ^ k := Nat.div_le_div_right hst
    by_cases hk0 : k = 0
    · subst hk0
      simp only [Nat.pow_zero, Nat.div_one] at h2 g2 ⊢
      omega
    · have hhalf : ∀ x, x / 2 ^ k = x / 2 ^ (k - 1) / 2 := by
        intro x
        rw [Nat.div_div_eq_div_mul, ← Nat.pow_succ]
        congr 2
        omega
      have b1 := h3 (k - 1) (by omega)
      have b2 := g3 (k - 1) (by omega)
      rw [hhalf s] at h2 a2 ⊢
      rw [hhalf t] at g2 a2 ⊢
      omega
  · have hlt : k + 1 ≤ m := by omega
    have c1 : s / 2 ^ k % 4 ≤ 3 := by omega
    apply Nat.div_le_div_right
    have c2 : k * 170 + 170 ≤ m * 170 := by omega
    omega

theorem GetNfactor_of_profile (params : String) (t ref mn mx : Nat)
    (hsel : jane_select params = .profile ref mn mx) :
    GetNfactor params t = GetNfactor_schedule ref mn mx t := by
  unfold GetNfactor
  rw [hsel]

theorem GetNfactor_schedule_before (ref mn mx t : Nat) (h : t ≤ ref) :
    GetNfactor_schedule ref mn mx t = mn % 256 := by
  unfold GetNfactor_schedule
  rw [if_pos h]

/-- The spec value after the reference timestamp, in terms of `nfactor_raw`. -/
theorem spec_Nfactor_eq (ref mn mx t : Nat) :
    spec_Nfactor ref mn mx t = spec_clamp (nfactor_raw (t - ref)) mn mx := by
  unfold spec_Nfactor nfactor_raw
  simp only []
  congr 1
  generalize (halve_loop (t - ref) 0 (t - ref)).1 = l
  generalize (halve_loop (t - ref) 0 (t - ref)).2 &&& 3 = r
  omega

/-- Claim C6 (amended).  For every profile with `minN ≤ maxN` and every 32-bit
timestamp after the reference one, `GetNfactor` returns
`clamp(max(0, (l*170 + r*25 - 2320) div 100), minN, maxN)` reduced modulo 256 (the
result is an `unsigned char`), and exactly that value when `minN ≤ 255`; the
unsigned evaluation followed by the conversion to `int` agrees with the signed
formula, also when `l*170 + r*25 < 2320`. -/
theorem GetNfactor_schedule_eq_spec (ref mn mx t : Nat) (hmm : mn ≤ mx) (ht : t < 2 ^ 32)
    (hgt : ref < t) :
    ((GetNfactor_schedule ref mn mx t : Nat) : Int) = spec_Nfactor ref mn mx t % 256 ∧
    (mn ≤ 255 → ((GetNfactor_schedule ref mn mx t : Nat) : Int) = spec_Nfactor ref mn mx t) := by
  have hs : (t - ref) % 2 ^ 32 = t - ref := Nat.mod_eq_of_lt (by omega)
  have hle := nfactor_raw_le (t - ref) (by omega)
  rw [GetNfactor_schedule_after ref mn mx t hgt, spec_Nfactor_eq, hs]
  unfold spec_clamp
  generalize nfactor_raw (t - ref) = N at hle ⊢
  constructor
  · split
    · omega
    · split <;> omega
  · intro hmin
    split
    · omega
    · split <;> omega

theorem GetNfactor_schedule_eq_spec_witness :
    4 ≤ 30 ∧ 1402845776 < 2 ^ 32 ∧ 1367991200 < 1402845776 ∧
    (((GetNfactor_schedule 1367991200 4 30 1402845776 : Nat) : Int)
        = spec_Nfactor 1367991200 4 30 1402845776 % 256 ∧
      (4 ≤ 255 → ((GetNfactor_schedule 1367991200 4 30 1402845776 : Nat) : Int)
        = spec_Nfactor 1367991200 4 30 1402845776)) :=
  ⟨by decide, by decide, by decide,
   GetNfactor_schedule_eq_spec 1367991200 4 30 1402845776 (by decide) (by decide) (by decide)⟩

/-- Claim C6 fails as stated: the profile of the triple `0,300,400` at timestamp 1
gives 44 (300 modulo 256), not the clamp value 300. -/
theorem GetNfactor_schedule_truncates :
    jane_select "0,300,400" = .profile 0 300 400 ∧ 300 ≤ 400 ∧ 1 < 2 ^ 32 ∧ 0 < 1 ∧
    GetNfactor "0,300,400" 1 = 44 ∧ spec_Nfactor 0 300 400 1 = 300 ∧
    ((GetNfactor_schedule 0 300 400 1 : Nat) : Int) ≠ spec_Nfactor 0 300 400 1 := by
  decide

theorem coin_table_min_le : ∀ e ∈ coin_table, e.2.2.2.1 ≤ 255 := by
  decide

/-- A profile chosen by a coin name or by the empty string has `minN ≤ 255`. -/
theorem jane_select_named_min (params : String) (ref mn mx : Nat)
    (hsel : jane_select params = .profile ref mn mx)
    (hn : (coin_table.find? (fun e => params == e.1 || strcasecmp_eq params e.2.1)).isSome
      ∨ params.length = 0) : mn ≤ 255 := by
  unfold jane_select at hsel
  simp only [] at hsel
  by_cases hlen : params.length > 0
  · rw [if_pos hlen] at hsel
    rcases hn with hn | hn
    · obtain ⟨e, he⟩ := Option.isSome_iff_exists.mp hn
      rw [he] at hsel
      simp only [jane_choice.profile.injEq] at hsel
      have := coin_table_min_le e (List.mem_of_find?_eq_some he)
      omega
    · omega
  · rw [if_neg hlen] at hsel
    simp only [jane_choice.profile.injEq] at hsel
    omega

/-- Claim C7 (amended).  For every profile selected by name, by the numeric triple
or by default, and every timestamp at or before the reference one, `GetNfactor`
returns `minN` reduced modulo 256 (the result is an `unsigned char`): exactly
`minN` when `minN ≤ 255`, which holds for every named coin and the default. -/
theorem GetNfactor_before_reference (params : String) (t ref mn mx : Nat)
    (hsel : jane_select params = .profile ref mn mx) (ht : t ≤ ref) :
    GetNfactor params t = mn % 256 ∧
    (mn ≤ 255 → GetNfactor params t = mn) ∧
    ((coin_table.find? (fun e => params == e.1 || strcasecmp_eq params e.2.1)).isSome
      ∨ params.length = 0 → GetNfactor params t = mn) := by
  rw [GetNfactor_of_profile params t ref mn mx hsel, GetNfactor_schedule_before ref mn mx t ht]
  refine ⟨rfl, ?_, ?_⟩
  · intro h
    omega
  · intro hn
    have := jane_select_named_min params ref mn mx hsel hn
    omega

theorem GetNfactor_before_reference_witness :
    jane_select "ZZC" = .profile 1375817223 12 30 ∧ 1375817000 ≤ 1375817223 ∧
    (GetNfactor "ZZC" 1375817000 = 12 % 256 ∧
    (12 ≤ 255 → GetNfactor "ZZC" 1375817000 = 12) ∧
    ((coin_table.find? (fun e => "ZZC" == e.1 || strcasecmp_eq "ZZC" e.2.1)).isSome
      ∨ "ZZC".length = 0 → GetNfactor "ZZC" 1375817000 = 12)) :=
  ⟨by decide, by decide,
   GetNfactor_before_reference "ZZC" 1375817000 1375817223 12 30 (by decide) (by decide)⟩

/-- Claim C7 fails as stated: with the numeric triple `1000,256,300` and the
timestamp 1000 (the reference one) `GetNfactor` returns 0, not the `minN` 256. -/
theorem GetNfactor_before_reference_truncates :
    jane_select "1000,256,300" = .profile 1000 256 300 ∧ 1000 ≤ 1000 ∧
    GetNfactor "1000,256,300" 1000 = 0 ∧ GetNfactor "1000,256,300" 1000 ≠ 256 := by
  decide

/-- Claim C8.  For every fixed profile with `minN ≤ maxN` and all 32-bit timestamps
`t1 ≤ t2`, `GetNfactor t1 ≤ GetNfactor t2`. -/
theorem GetNfactor_monotone (params : String) (t1 t2 ref mn mx : Nat)
    (hsel : jane_select params = .profile ref mn mx) (hmm : mn ≤ mx) (h12 : t1 ≤ t2)
    (h2 : t2 < 2 ^ 32) : GetNfactor params t1 ≤ GetNfactor params t2 := by
  rw [GetNfactor_of_profile params t1 ref mn mx hsel,
    GetNfactor_of_profile params t2 ref mn mx hsel]
  by_cases hb2 : t2 ≤ ref
  · rw [GetNfactor_schedule_before ref mn mx t2 hb2,
      GetNfactor_schedule_before ref mn mx t1 (by omega)]
  · have hs2 : (t2 - ref) % 2 ^ 32 = t2 - ref := Nat.mod_eq_of_lt (by omega)
    have hle2 := nfactor_raw_le (t2 - ref) (by omega)
    rw [GetNfactor_schedule_after ref mn mx t2 (by omega), hs2]
    by_cases hb1 : t1 ≤ ref
    · rw [GetNfactor_schedule_before ref mn mx t1 hb1]
      generalize nfactor_raw (t2 - ref) = N2 at hle2 ⊢
      split
      · omega
      · split <;> omega
    · have hs1 : (t1 - ref) % 2 ^ 32 = t1 - ref := Nat.mod_eq_of_lt (by omega)
      have hle1 := nfactor_raw_le (t1 - ref) (by omega)
      have hmono := nfactor_raw_mono (t1 - ref) (t2 - ref) (by omega) (by omega)
      rw [GetNfactor_schedule_after ref mn mx t1 (by omega), hs1]
      generalize nfactor_raw (t2 - ref) = N2 at hle2 hmono ⊢
      generalize nfactor_raw (t1 - ref) = N1 at hle1 hmono ⊢
      split
      · split
        · omega
        · split <;> omega
      · split
        · split
          · omega
          · split <;> omega
        · split
          · omega
          · split <;> omega

theorem GetNfactor_monotone_witness :
    jane_select "YBC" = .profile 1372386273 4 30 ∧ 4 ≤ 30 ∧ 1372386273 ≤ 1402845776 ∧
    1402845776 < 2 ^ 32 ∧ GetNfactor "YBC" 1372386273 ≤ GetNfactor "YBC" 1402845776 :=
  ⟨by decide, by decide, by decide, by decide,
   GetNfactor_monotone "YBC" 1372386273 1402845776 1372386273 4 30 (by decide) (by decide)
     (by decide) (by decide)⟩

/-- Claim C9 (amended).  For every profile reached through the timestamp formula
with `minN ≤ maxN` and `minN ≤ 255` (the result is an `unsigned char`), and every
timestamp, the value returned by `GetNfactor` lies in `[minN, maxN]`. -/
theorem GetNfactor_in_range (params : String) (t ref mn mx : Nat)
    (hsel : jane_select params = .profile ref mn mx) (hmm : mn ≤ mx) (hmin : mn ≤ 255) :
    mn ≤ GetNfactor params t ∧ GetNfactor params t ≤ mx := by
  rw [GetNfactor_of_profile params t ref mn mx hsel]
  by_cases hb : t ≤ ref
  · rw [GetNfactor_schedule_before ref mn mx t hb]
    omega
  · have hle := nfactor_raw_le ((t - ref) % 2 ^ 32) (Nat.mod_lt _ (by decide))
    rw [GetNfactor_schedule_after ref mn mx t (by omega)]
    generalize nfactor_raw ((t - ref) % 2 ^ 32) = N at hle ⊢
    split
    · omega
    · split <;> omega

theorem GetNfactor_in_range_witness :
    jane_select "FreeCoin" = .profile 1375801200 6 32 ∧ 6 ≤ 32 ∧ 6 ≤ 255 ∧
    (6 ≤ GetNfactor "FreeCoin" 4294967295 ∧ GetNfactor "FreeCoin" 4294967295 ≤ 32) :=
  ⟨by decide, by decide, by decide,
   GetNfactor_in_range "FreeCoin" 4294967295 1375801200 6 32 (by decide) (by decide)
     (by decide)⟩

/-- Claim C9 fails as stated: with the numeric triple `7,500,600` the value
returned at timestamp 8 is 244, outside `[500, 600]`. -/
theorem GetNfactor_out_of_range :
    jane_select "7,500,600" = .profile 7 500 600 ∧ 500 ≤ 600 ∧
    GetNfactor "7,500,600" 8 = 244 ∧
    ¬ (500 ≤ GetNfactor "7,500,600" 8 ∧ GetNfactor "7,500,600" 8 ≤ 600) := by
  decide

/-! ## The search loop -/

theorem getD_set_same {α : Type} (l : List α) (i : Nat) (v d : α) (h : i < l.length) :
    (l.set i v).getD i d = v := by
  rw [List.getD_eq_getElem?_getD, List.getElem?_set_self h]
  rfl

theorem getD_set_other {α : Type} (l : List α) (i j : Nat) (v d : α) (h : i ≠ j) :
    (l.set i v).getD j d = l.getD j d := by
  rw [List.getD_eq_getElem?_getD, List.getD_eq_getElem?_getD, List.getElem?_set_ne h]

theorem assign_fold_fst (hw : Nat) (L : List Nat) : ∀ (acc : Nat × List Nat), acc.1 < 2 ^ 32 →
    (L.foldl (fun acc i =>
      ((acc.1 + 1) % 2 ^ 32, acc.2.set (hw * i + (hw - 1)) (bswap_32x4 acc.1))) acc).1
      = (acc.1 + L.length) % 2 ^ 32 := by
  induction L with
  | nil =>
    intro acc h
    simp only [List.foldl_nil, List.length_nil, Nat.add_zero]
    exact (Nat.mod_eq_of_lt h).symm
  | cons a L ih =>
    intro acc h
    rw [List.foldl_cons, ih _ (Nat.mod_lt _ (by decide))]
    simp only [List.length_cons]
    omega

theorem assign_nonces_fst (env : scan_env) (hw n : Nat) (data : List Nat) (h : n < 2 ^ 32) :
    (assign_nonces env hw n data).1 = (n + env.throughput) % 2 ^ 32 := by
  unfold assign_nonces
  rw [assign_fold_fst hw _ (n, data) h, List.length_range]

theorem scan_lanes_some (env : scan_env) (pdata ptarget : List Nat) (hw N : Nat)
    (st : scan_state) (i : Nat) (h : scan_lanes env pdata ptarget hw N st = some i) :
    0 < st.iteration ∧ i < env.throughput ∧ lane_accepts env pdata ptarget hw N st i = true := by
  unfold scan_lanes at h
  by_cases hit : st.iteration > 0
  · rw [if_pos hit] at h
    refine ⟨hit, ?_, List.find?_some h⟩
    exact List.mem_range.mp (List.mem_of_find?_eq_some h)
  · rw [if_neg hit] at h
    cases h

theorem lane_accepts_true (env : scan_env) (pdata ptarget : List Nat) (hw N : Nat)
    (st : scan_state) (i : Nat) (h : lane_accepts env pdata ptarget hw N st i = true) :
    (lane_hash st i).getD 7 0 ≤ ptarget.getD 7 0 ∧ fulltest (lane_hash st i) ptarget = true ∧
    cpu_digest env pdata hw N ((st.nonce.getD st.cur 0 + i) % 2 ^ 32) = lane_hash st i := by
  unfold lane_accepts at h
  simp only [] at h
  split at h
  · rename_i hc
    rw [Bool.and_eq_true, decide_eq_true_eq] at hc
    exact ⟨hc.1, hc.2, by simpa using h⟩
  · cases h

theorem and_one_flip (c : Nat) (h : c < 2) : (c + 1) &&& 1 = 1 - c := by
  have : c = 0 ∨ c = 1 := by omega
  rcases this with rfl | rfl <;> decide

/-- The stage of an iteration, when no sync fails, leads from the invariant at the
top of the iteration to the invariant at the scan. -/
theorem scan_stage_mid (env : scan_env) (hw start : Nat) (st : scan_state)
    (hinv : scan_inv env start st) (hok : (scan_stage env hw st).2 = false) :
    scan_mid env start (scan_stage env hw st).1 := by
  obtain ⟨hc, hn, hnl, hhl, hnn, hnc, hhc⟩ := hinv
  have hnlt : st.n < 2 ^ 32 := by rw [hnn]; exact Nat.mod_lt _ (by decide)
  have hne : st.nxt ≠ st.cur := by omega
  have hnx : st.nxt < 2 := by omega
  have hn1 : (st.n + env.throughput) % 2 ^ 32
      = (start + (st.iteration + 1) * env.throughput) % 2 ^ 32 := by
    rw [hnn, Nat.add_mul, Nat.one_mul]
    omega
  have hA : (st.nonce.set st.nxt st.n).getD st.cur 0 = st.nonce.getD st.cur 0 :=
    getD_set_other _ _ _ _ _ hne
  have hB : (st.nonce.set st.nxt st.n).getD st.nxt 0 = st.n :=
    getD_set_same _ _ _ _ (by omega)
  unfold scan_stage at hok ⊢
  simp only [] at hok ⊢
  by_cases hp : env.parallel < 2
  · rw [if_pos hp] at hok ⊢
    by_cases hs : (!env.sync1 st.iteration) = true
    · rw [if_pos hs] at hok
      cases hok
    · rw [if_neg hs]
      refine ⟨hc, hn, ?_, ?_, ?_, ?_, ?_, ?_, ?_⟩
      · simp only [List.length_set]; exact hnl
      · simp only [List.length_set]; exact hhl
      · show (assign_nonces env hw st.n _).1 = _
        rw [assign_nonces_fst env hw st.n _ hnlt, hn1]
      · intro hit
        show (st.nonce.set st.nxt st.n).getD st.cur 0 = _
        rw [hA]; exact hnc hit
      · show (st.nonce.set st.nxt st.n).getD st.nxt 0 = _
        rw [hB]; exact hnn
      · intro h2; omega
      · intro h2; omega
  · rw [if_neg hp] at hok ⊢
    by_cases hs : (!env.sync1 st.iteration) = true
    · rw [if_pos hs] at hok
      cases hok
    · rw [if_neg hs]
      refine ⟨hc, hn, ?_, ?_, hn1, ?_, ?_, ?_, ?_⟩
      · simp only [List.length_set]; exact hnl
      · simp only [List.length_set]; exact hhl
      · intro hit
        show (st.nonce.set st.nxt st.n).getD st.cur 0 = _
        rw [hA]; exact hnc hit
      · show (st.nonce.set st.nxt st.n).getD st.nxt 0 = _
        rw [hB]; exact hnn
      · intro h2 hit
        show (st.hash.set st.nxt _).getD st.cur [] = env.dev_hash _
          ((st.nonce.set st.nxt st.n).getD st.cur 0)
        rw [getD_set_other _ _ _ _ _ hne, hA]
        exact hhc h2 hit
      · intro h2
        show (st.hash.set st.nxt _).getD st.nxt [] = env.dev_hash _
          ((st.nonce.set st.nxt st.n).getD st.nxt 0)
        rw [getD_set_same _ _ _ _ (by omega)]

/-- Swapping `cur` and `nxt` and counting the iteration re-establishes the invariant. -/
theorem scan_flip_inv (env : scan_env) (start : Nat) (st : scan_state)
    (hmid : scan_mid env start st) :
    scan_inv env start { st with
      cur := (st.cur + 1) &&& 1, nxt := (st.nxt + 1) &&& 1, iteration := st.iteration + 1 } := by
  obtain ⟨hc, hn, hnl, hhl, hnn, hnc, hnx, hhc, hhx⟩ := hmid
  have e1 : (st.cur + 1) &&& 1 = st.nxt := by rw [and_one_flip _ hc, hn]
  have e2 : (st.nxt + 1) &&& 1 = 1 - st.nxt := and_one_flip _ (by omega)
  refine ⟨?_, ?_, hnl, hhl, hnn, ?_, ?_⟩
  · show (st.cur + 1) &&& 1 < 2
    rw [e1]; omega
  · show (st.nxt + 1) &&& 1 = 1 - ((st.cur + 1) &&& 1)
    rw [e1, e2]
  · intro _
    show st.nonce.getD ((st.cur + 1) &&& 1) 0 = (start + (st.iteration + 1 - 1) * _) % 2 ^ 32
    rw [e1, Nat.add_sub_cancel]
    exact hnx
  · intro h2 _
    show st.hash.getD ((st.cur + 1) &&& 1) [] = env.dev_hash (st.iteration + 1 - 1)
      (st.nonce.getD ((st.cur + 1) &&& 1) 0)
    rw [e1, Nat.add_sub_cancel]
    exact hhx h2

/-- The invariant holds on entry to the loop. -/
theorem scan_init_inv (env : scan_env) (pdata : List Nat) (hw : Nat)
    (hl : env.hash_init.length = 2) (hs : pdata.getD (hw - 1) 0 < 2 ^ 32) :
    scan_inv env (pdata.getD (hw - 1) 0) (scan_init env pdata hw) := by
  unfold scan_inv scan_init
  simp only []
  refine ⟨by decide, by decide, by decide, hl, ?_, ?_, ?_⟩
  · rw [Nat.zero_mul, Nat.add_zero, Nat.mod_eq_of_lt hs]
  · intro h; omega
  · intro _ h; omega

/-- Whenever the loop ends with `return 1`, the accepted lane passed every test. -/
theorem scan_loop_found (env : scan_env) (pdata ptarget : List Nat) (max_nonce hw N : Nat)
    (fuel : Nat) : ∀ (st : scan_state), scan_inv env (pdata.getD (hw - 1) 0) st →
    ∀ (pdata2 : List Nat) (hd i : Nat) (st2 : scan_state),
    scan_loop env pdata ptarget max_nonce hw N fuel st = some (.found pdata2 hd i st2) →
    scan_mid env (pdata.getD (hw - 1) 0) st2 ∧
    0 < st2.iteration ∧ i < env.throughput ∧
    pdata2 = pdata.set (hw - 1) ((st2.nonce.getD st2.cur 0 + i) % 2 ^ 32) ∧
    lane_accepts env pdata ptarget hw N st2 i = true := by
  induction fuel with
  | zero =>
    intro st _ pdata2 hd i st2 h
    simp [scan_loop] at h
  | succ f ih =>
    intro st hinv pdata2 hd i st2 h
    rw [scan_loop] at h
    simp only [] at h
    by_cases hbrk : (scan_stage env hw st).2 = true
    · rw [if_pos hbrk] at h
      simp [scan_exit] at h
    · rw [if_neg hbrk] at h
      have hmid := scan_stage_mid env hw _ st hinv (by simpa using hbrk)
      cases hsl : scan_lanes env pdata ptarget hw N (scan_stage env hw st).1 with
      | some i0 =>
        rw [hsl] at h
        simp only [Option.some.injEq, scan_result.found.injEq] at h
        obtain ⟨h1, _, h3, h4⟩ := h
        subst h3 h4
        obtain ⟨a1, a2, a3⟩ := scan_lanes_some env pdata ptarget hw N _ _ hsl
        exact ⟨hmid, a1, a2, h1.symm, a3⟩
      | none =>
        rw [hsl] at h
        simp only [] at h
        split at h
        · exact ih _ (scan_flip_inv env _ _ hmid) pdata2 hd i st2 h
        · simp [scan_exit] at h

/-- Claim C10.  Whenever `scanhash_scrypt_jane` returns 1, the nonce `w` written
to the caller's nonce word is `nonce[cur] + i` for a lane `i < throughput`, where
`nonce[cur]` is the base nonce assigned one iteration earlier; the digest
`&hash[cur][8 * i]` of that lane passed the pre-filter on word 7 and `fulltest`;
the digest recomputed on the CPU over the byte-swapped header carrying `w` is
equal to it, word for word and byte for byte (so a lane whose digest differs
from the CPU digest is never accepted); the CPU digest meets the target; and with
`parallel == 2` the digest is what the device left for that base nonce. -/
theorem scanhash_found_verified (env : scan_env) (jane_params : String)
    (pdata ptarget : List Nat) (max_nonce : Nat) (block_version : Int) (fuel : Nat)
    (pdata2 : List Nat) (hd i : Nat) (st : scan_state)
    (hl : env.hash_init.length = 2)
    (hs : pdata.getD (scan_header_words block_version - 1) 0 < 2 ^ 32)
    (h : scanhash_scrypt_jane env jane_params pdata ptarget max_nonce block_version fuel
      = some (.found pdata2 hd i st)) :
    0 < st.iteration ∧ i < env.throughput ∧
    st.nonce.getD st.cur 0
      = (pdata.getD (scan_header_words block_version - 1) 0
          + (st.iteration - 1) * env.throughput) % 2 ^ 32 ∧
    pdata2 = pdata.set (scan_header_words block_version - 1)
      ((st.nonce.getD st.cur 0 + i) % 2 ^ 32) ∧
    (lane_hash st i).getD 7 0 ≤ ptarget.getD 7 0 ∧
    fulltest (lane_hash st i) ptarget = true ∧
    cpu_digest env pdata (scan_header_words block_version)
        (scrypt_N (scan_Nfactor jane_params pdata block_version))
        ((st.nonce.getD st.cur 0 + i) % 2 ^ 32) = lane_hash st i ∧
    words_to_bytes (cpu_digest env pdata (scan_header_words block_version)
        (scrypt_N (scan_Nfactor jane_params pdata block_version))
        ((st.nonce.getD st.cur 0 + i) % 2 ^ 32)) = words_to_bytes (lane_hash st i) ∧
    fulltest (cpu_digest env pdata (scan_header_words block_version)
        (scrypt_N (scan_Nfactor jane_params pdata block_version))
        ((st.nonce.getD st.cur 0 + i) % 2 ^ 32)) ptarget = true ∧
    (2 ≤ env.parallel →
      st.hash.getD st.cur [] = env.dev_hash (st.iteration - 1) (st.nonce.getD st.cur 0)) := by
  unfold scanhash_scrypt_jane at h
  simp only [] at h
  split at h
  · simp at h
  · split at h
    · simp at h
    · obtain ⟨hmid, h1, h2, h3, h4⟩ := scan_loop_found env pdata ptarget max_nonce _ _ fuel _
        (scan_init_inv env pdata _ hl hs) pdata2 hd i st h
      obtain ⟨b1, b2, b3⟩ := lane_accepts_true env pdata ptarget _ _ st i h4
      obtain ⟨_, _, _, _, _, hnc, _, hhc, _⟩ := hmid
      exact ⟨h1, h2, hnc h1, h3, b1, b2, b3, by rw [b3], by rw [b3]; exact b2,
        fun hp => hhc hp h1⟩

/-! ## A run that returns 1 -/

theorem byte_word_lt (b0 b1 b2 b3 : Nat) (h0 : b0 < 256) (h1 : b1 < 256) (h2 : b2 < 256)
    (h3 : b3 < 256) : b0 ||| (b1 <<< 8) ||| (b2 <<< 16) ||| (b3 <<< 24) < 2 ^ 32 := by
  simp only [Nat.shiftLeft_eq]
  refine Nat.or_lt_two_pow (Nat.or_lt_two_pow (Nat.or_lt_two_pow ?_ ?_) ?_) ?_ <;> omega

/-- The first 32 bytes of a squeezed state, read as words, are eight 32-bit words. -/
theorem squeeze_words (S : List Nat) :
    (bytes_to_words ((spec_squeeze S).take 32)).length = 8 ∧
    ∀ j, (bytes_to_words ((spec_squeeze S).take 32)).getD j 0 < 2 ^ 32 := by
  have hm : ∀ x : Nat, x % 256 < 256 := fun x => Nat.mod_lt _ (by decide)
  have e : bytes_to_words ((spec_squeeze S).take 32)
      = [S.getD 0 0 % 256 ||| ((S.getD 0 0 >>> 8) % 256) <<< 8
            ||| ((S.getD 0 0 >>> 16) % 256) <<< 16 ||| ((S.getD 0 0 >>> 24) % 256) <<< 24,
         (S.getD 0 0 >>> 32) % 256 ||| ((S.getD 0 0 >>> 40) % 256) <<< 8
            ||| ((S.getD 0 0 >>> 48) % 256) <<< 16 ||| ((S.getD 0 0 >>> 56) % 256) <<< 24,
         S.getD 1 0 % 256 ||| ((S.getD 1 0 >>> 8) % 256) <<< 8
            ||| ((S.getD 1 0 >>> 16) % 256) <<< 16 ||| ((S.getD 1 0 >>> 24) % 256) <<< 24,
         (S.getD 1 0 >>> 32) % 256 ||| ((S.getD 1 0 >>> 40) % 256) <<< 8
            ||| ((S.getD 1 0 >>> 48) % 256) <<< 16 ||| ((S.getD 1 0 >>> 56) % 256) <<< 24,
         S.getD 2 0 % 256 ||| ((S.getD 2 0 >>> 8) % 256) <<< 8
            ||| ((S.getD 2 0 >>> 16) % 256) <<< 16 ||| ((S.getD 2 0 >>> 24) % 256) <<< 24,
         (S.getD 2 0 >>> 32) % 256 ||| ((S.getD 2 0 >>> 40) % 256) <<< 8
            ||| ((S.getD 2 0 >>> 48) % 256) <<< 16 ||| ((S.getD 2 0 >>> 56) % 256) <<< 24,
         S.getD 3 0 % 256 ||| ((S.getD 3 0 >>> 8) % 256) <<< 8
            ||| ((S.getD 3 0 >>> 16) % 256) <<< 16 ||| ((S.getD 3 0 >>> 24) % 256) <<< 24,
         (S.getD 3 0 >>> 32) % 256 ||| ((S.getD 3 0 >>> 40) % 256) <<< 8
            ||| ((S.getD 3 0 >>> 48) % 256) <<< 16 ||| ((S.getD 3 0 >>> 56) % 256) <<< 24] := by
    simp only [spec_squeeze, U64TO8_LE, List.range_succ, List.range_zero, List.nil_append,
      List.cons_append, List.map_cons, List.map_nil, List.flatten_cons, List.flatten_nil,
      List.append_nil, List.take_succ_cons, List.take_zero, List.take_nil, bytes_to_words]
  rw [e]
  refine ⟨rfl, ?_⟩
  intro j
  have hj : j < 8 ∨ 8 ≤ j := by omega
  rcases hj with hj | hj
  · interval_cases j <;>
      simp only [List.getD_cons_succ, List.getD_cons_zero] <;>
      exact byte_word_lt _ _ _ _ (hm _) (hm _) (hm _) (hm _)
  · rw [List.getD_eq_getElem?_getD, List.getElem?_eq_none (by simpa using hj)]
    decide

/-- The digest recomputed on the CPU is the first 32 bytes of a squeezed state. -/
theorem cpu_digest_squeeze (env : scan_env) (pdata : List Nat) (hw N w : Nat) :
    ∃ S, cpu_digest env pdata hw N w = bytes_to_words ((spec_squeeze S).take 32) := by
  unfold cpu_digest
  simp only []
  generalize words_to_bytes (tdata_of pdata hw w) = tdata
  generalize env.romix (scrypt_pbkdf2_1 tdata tdata (List.replicate 128 0) 128) N = X
  rw [scrypt_pbkdf2_1_out tdata X _ 32 (by decide) (by simp)]
  have e1 : (List.replicate 32 0).drop 32 = ([] : List Nat) := by
    apply List.drop_of_length_le
    simp
  have e2 : spec_pbkdf2 tdata X 32 = (scrypt_hmac tdata (X ++ U32TO8_BE 1)).take 32 := by
    unfold spec_pbkdf2
    have : (32 + 63) / 64 = 0 + 1 := by decide
    rw [this, spec_pbkdf2_stream_succ]
    simp [spec_pbkdf2_stream]
  rw [e1, List.append_nil, e2, scrypt_hmac_eq]
  unfold spec_hmac
  rw [scrypt_hash_eq_absorbed]
  exact ⟨_, rfl⟩

theorem value256_le (d : List Nat) (h : ∀ j, d.getD j 0 < 2 ^ 32) :
    value256 d ≤ value256 (List.replicate 8 0xffffffff) := by
  have h0 := h 0
  have h1 := h 1
  have h2 := h 2
  have h3 := h 3
  have h4 := h 4
  have h5 := h 5
  have h6 := h 6
  have h7 := h 7
  have e : value256 (List.replicate 8 0xffffffff) = 2 ^ 256 - 1 := by decide
  rw [e]
  unfold value256
  simp only [List.range_succ, List.range_zero, List.nil_append, List.cons_append,
    List.foldl_cons, List.foldl_nil]
  omega

/-- Every digest recomputed on the CPU has eight words and meets the easiest target. -/
theorem cpu_digest_easy (env : scan_env) (pdata : List Nat) (hw N w : Nat) :
    (cpu_digest env pdata hw N w).length = 8 ∧
    (cpu_digest env pdata hw N w).getD 7 0 ≤ sample_target.getD 7 0 ∧
    fulltest (cpu_digest env pdata hw N w) sample_target = true := by
  obtain ⟨S, hS⟩ := cpu_digest_squeeze env pdata hw N w
  obtain ⟨hl, hb⟩ := squeeze_words S
  rw [hS]
  refine ⟨hl, ?_, ?_⟩
  · have := hb 7
    have e : sample_target.getD 7 0 = 0xffffffff := by decide
    rw [e]
    omega
  · unfold fulltest
    rw [decide_eq_true_eq]
    exact value256_le _ hb

/-- One iteration that neither breaks nor accepts a lane, with the loop condition
true, continues with the slots swapped. -/
theorem scan_loop_continue (env : scan_env) (pdata ptarget : List Nat) (max_nonce hw N : Nat)
    (fuel : Nat) (st st1 : scan_state) (h1 : scan_stage env hw st = (st1, false))
    (h2 : scan_lanes env pdata ptarget hw N st1 = none)
    (h3 : (decide (st1.n ≤ max_nonce) && !env.restart st1.iteration) = true) :
    scan_loop env pdata ptarget max_nonce hw N (fuel + 1) st
      = scan_loop env pdata ptarget max_nonce hw N fuel
          { st1 with cur := (st1.cur + 1) &&& 1, nxt := (st1.nxt + 1) &&& 1,
                     iteration := st1.iteration + 1 } := by
  rw [scan_loop]
  simp only [h1, h2]
  rw [if_neg (by decide), if_pos h3]

/-- One iteration that does not break and accepts lane `i` returns 1. -/
theorem scan_loop_accept (env : scan_env) (pdata ptarget : List Nat) (max_nonce hw N : Nat)
    (fuel : Nat) (st st1 : scan_state) (i : Nat) (h1 : scan_stage env hw st = (st1, false))
    (h2 : scan_lanes env pdata ptarget hw N st1 = some i) :
    scan_loop env pdata ptarget max_nonce hw N (fuel + 1) st
      = some (.found (pdata.set (hw - 1) ((st1.nonce.getD st1.cur 0 + i) % 2 ^ 32))
          ((st1.n + 2 ^ 32 - pdata.getD (hw - 1) 0) % 2 ^ 32) i st1) := by
  rw [scan_loop]
  simp only [h1, h2]
  rw [if_neg (by decide)]

theorem sample_stage0 :
    scan_stage (sample_env sample_digest) 20 (scan_init (sample_env sample_digest) sample_header 20)
      = (sample_state0, false) := by
  rfl

theorem sample_flip :
    ({ sample_state0 with
        cur := (sample_state0.cur + 1) &&& 1, nxt := (sample_state0.nxt + 1) &&& 1,
        iteration := sample_state0.iteration + 1 } : scan_state) = sample_state1 := by
  rfl

theorem sample_stage1 :
    scan_stage (sample_env sample_digest) 20 sample_state1 = (sample_state, false) := by
  rfl

theorem sample_lane_hash : lane_hash sample_state 0 = sample_digest := by
  have hl : sample_digest.length = 8 := (cpu_digest_easy _ _ _ _ _).1
  unfold lane_hash
  show (List.drop 0 sample_digest).take 8 = sample_digest
  rw [List.drop_zero, List.take_of_length_le (Nat.le_of_eq hl)]

theorem cpu_digest_congr (env env2 : scan_env) (pdata : List Nat) (hw N w : Nat)
    (h : env.romix = env2.romix) :
    cpu_digest env pdata hw N w = cpu_digest env2 pdata hw N w := by
  unfold cpu_digest
  rw [h]

theorem sample_cpu_digest :
    cpu_digest (sample_env sample_digest) sample_header 20 32
      ((sample_state.nonce.getD sample_state.cur 0 + 0) % 2 ^ 32) = sample_digest := by
  have e : (sample_state.nonce.getD sample_state.cur 0 + 0) % 2 ^ 32 = 0 := by decide
  rw [e]
  exact cpu_digest_congr _ (sample_env []) _ _ _ _ rfl

theorem sample_accepts :
    lane_accepts (sample_env sample_digest) sample_header sample_target 20 32 sample_state 0
      = true := by
  obtain ⟨_, h1, h2⟩ := cpu_digest_easy (sample_env []) sample_header 20 32 0
  unfold lane_accepts
  simp only []
  rw [sample_lane_hash, sample_cpu_digest]
  have hc : (decide (sample_digest.getD 7 0 ≤ sample_target.getD 7 0)
      && fulltest sample_digest sample_target) = true := by
    rw [Bool.and_eq_true, decide_eq_true_eq]
    exact ⟨h1, h2⟩
  rw [if_pos hc]
  exact beq_self_eq_true _

theorem find_single (p : Nat → Bool) (h : p 0 = true) : List.find? p [0] = some 0 := by
  rw [List.find?_cons, h]

theorem sample_scan0 :
    scan_lanes (sample_env sample_digest) sample_header sample_target 20 32 sample_state0
      = none := by
  unfold scan_lanes
  rw [if_neg (by decide)]

theorem sample_scan1 :
    scan_lanes (sample_env sample_digest) sample_header sample_target 20 32 sample_state
      = some 0 := by
  unfold scan_lanes
  have hit : sample_state.iteration > 0 := by decide
  rw [if_pos hit]
  have ht : (sample_env sample_digest).throughput = 1 := rfl
  have hr : List.range 1 = [0] := by decide
  rw [ht, hr]
  exact find_single _ sample_accepts

/-- A run that returns 1: the all-zero header, the easiest target, one lane, and a
device that reports the digest the CPU computes for nonce 0. -/
theorem sample_run_found :
    scanhash_scrypt_jane (sample_env sample_digest) "" sample_header sample_target 10 1 5
      = some (.found sample_header 2 0 sample_state) := by
  have hN : scan_Nfactor "" sample_header 1 = 4 := by decide
  have hw : scan_header_words 1 = 20 := by decide
  have hN2 : scrypt_N 4 = 32 := by decide
  have e1 : sample_header.set (20 - 1) ((sample_state.nonce.getD sample_state.cur 0 + 0) % 2 ^ 32)
      = sample_header := by decide
  have e2 : (sample_state.n + 2 ^ 32 - sample_header.getD (20 - 1) 0) % 2 ^ 32 = 2 := by decide
  unfold scanhash_scrypt_jane
  simp only [hN, hw, hN2]
  rw [if_neg (by decide), if_neg (by decide)]
  rw [scan_loop_continue _ _ _ _ _ _ 4 _ _ sample_stage0 sample_scan0 (by decide), sample_flip,
    scan_loop_accept _ _ _ _ _ _ 3 _ _ 0 sample_stage1 sample_scan1, e1, e2]

theorem scanhash_found_verified_witness :
    (sample_env sample_digest).hash_init.length = 2 ∧
    sample_header.getD (scan_header_words 1 - 1) 0 < 2 ^ 32 ∧
    scanhash_scrypt_jane (sample_env sample_digest) "" sample_header sample_target 10 1 5
      = some (.found sample_header 2 0 sample_state) ∧
    cpu_digest (sample_env sample_digest) sample_header (scan_header_words 1)
        (scrypt_N (scan_Nfactor "" sample_header 1))
        ((sample_state.nonce.getD sample_state.cur 0 + 0) % 2 ^ 32)
      = lane_hash sample_state 0 :=
  ⟨by decide, by decide, sample_run_found,
   (scanhash_found_verified (sample_env sample_digest) "" sample_header sample_target 10 1 5
      sample_header 2 0 sample_state (by decide) (by decide)
      sample_run_found).2.2.2.2.2.2.1⟩

/-! ## Slicing the input of the sponge, and the leftover invariant -/

theorem WF_foldl_update (chunks : List (List Nat)) : ∀ (S : scrypt_hash_state), WF S →
    WF (chunks.foldl scrypt_hash_update S) := by
  induction chunks with
  | nil => intro S h; exact h
  | cons c cs ih =>
    intro S h
    rw [List.foldl_cons]
    exact ih _ (scrypt_hash_update_spec S c h).1

theorem WF_of_Reachable (S : scrypt_hash_state) (h : Reachable S) : WF S := by
  obtain ⟨chunks, rfl⟩ := h
  exact WF_foldl_update chunks _ scrypt_hash_init_WF

theorem Reachable_init : Reachable scrypt_hash_init := ⟨[], rfl⟩

theorem Reachable_update (S : scrypt_hash_state) (a : List Nat) (h : Reachable S) :
    Reachable (scrypt_hash_update S a) := by
  obtain ⟨chunks, rfl⟩ := h
  refine ⟨chunks ++ [a], ?_⟩
  rw [List.foldl_append, List.foldl_cons, List.foldl_nil]

/-- Absorbing the empty slice changes nothing. -/
theorem scrypt_hash_update_nil (S : scrypt_hash_state) (h : WF S) :
    scrypt_hash_update S [] = S := by
  obtain ⟨hb, hl⟩ := h
  have e : SCRYPT_HASH_BLOCK_SIZE = 72 := by decide
  unfold scrypt_hash_update
  by_cases h0 : S.leftover = 0
  · rw [if_neg (by simpa using h0)]
    unfold hash_update_current
    simp only [List.length_nil, hash_blocks, Nat.zero_mod, ne_eq, not_true_eq_false, if_false]
    cases S
    simp only [scrypt_hash_state.mk.injEq, true_and, and_true]
    exact h0.symm
  · rw [if_pos h0]
    simp only [e, List.length_nil]
    have hw : (if 72 - S.leftover < 0 then 72 - S.leftover else 0) = 0 := by
      rw [if_neg (by omega)]
    rw [hw, Nat.add_zero, Nat.mod_eq_of_lt (by omega : S.leftover < 2 ^ 32), if_pos hl]
    have hm : memcpy S.buffer S.leftover [] 0 = S.buffer := by
      simp [memcpy]
    rw [hm]

/-- Two updates agree with one update on the concatenation. -/
theorem scrypt_hash_update_update (S : scrypt_hash_state) (a b : List Nat) (h : WF S) :
    (scrypt_hash_update (scrypt_hash_update S a) b).state
      = (scrypt_hash_update S (a ++ b)).state ∧
    (scrypt_hash_update (scrypt_hash_update S a) b).leftover
      = (scrypt_hash_update S (a ++ b)).leftover ∧
    pending (scrypt_hash_update (scrypt_hash_update S a) b)
      = pending (scrypt_hash_update S (a ++ b)) := by
  obtain ⟨w1, s1, p1⟩ := scrypt_hash_update_spec S a h
  obtain ⟨w12, s12, p12⟩ := scrypt_hash_update_spec (scrypt_hash_update S a) b w1
  obtain ⟨w2, s2, p2⟩ := scrypt_hash_update_spec S (a ++ b) h
  obtain ⟨hA, hR⟩ := absorbed_append ((pending S ++ a).length / 72) (pending S ++ a) S.state b rfl
  have hs : (scrypt_hash_update (scrypt_hash_update S a) b).state
      = (scrypt_hash_update S (a ++ b)).state := by
    rw [s12, s1, p1, s2, ← hA, List.append_assoc]
  have hp : pending (scrypt_hash_update (scrypt_hash_update S a) b)
      = pending (scrypt_hash_update S (a ++ b)) := by
    rw [p12, p1, p2, ← hR, List.append_assoc]
  refine ⟨hs, ?_, hp⟩
  rw [← pending_length _ w12, ← pending_length _ w2, hp]

/-- Claim C15.  For every sponge state reachable from `scrypt_hash_init` by
updates and all byte strings `a` and `b`, updating with `a` and then `b` agrees
with updating with `a ++ b` on the 25 lanes, on the leftover count and on the
first `leftover` bytes of the buffer, so the digest does not depend on how the
message is sliced; absorbing the empty slice changes nothing. -/
theorem scrypt_hash_update_slicing (S : scrypt_hash_state) (a b : List Nat)
    (h : Reachable S) :
    (scrypt_hash_update (scrypt_hash_update S a) b).state
      = (scrypt_hash_update S (a ++ b)).state ∧
    (scrypt_hash_update (scrypt_hash_update S a) b).leftover
      = (scrypt_hash_update S (a ++ b)).leftover ∧
    (scrypt_hash_update (scrypt_hash_update S a) b).buffer.take
        (scrypt_hash_update (scrypt_hash_update S a) b).leftover
      = (scrypt_hash_update S (a ++ b)).buffer.take (scrypt_hash_update S (a ++ b)).leftover ∧
    (scrypt_hash_finish (scrypt_hash_update (scrypt_hash_update S a) b)).2
      = (scrypt_hash_finish (scrypt_hash_update S (a ++ b))).2 ∧
    scrypt_hash_update S [] = S := by
  have hW := WF_of_Reachable S h
  obtain ⟨hs, hl, hp⟩ := scrypt_hash_update_update S a b hW
  have w12 := (scrypt_hash_update_spec _ b (scrypt_hash_update_spec S a hW).1).1
  have w2 := (scrypt_hash_update_spec S (a ++ b) hW).1
  refine ⟨hs, hl, hp, ?_, scrypt_hash_update_nil S hW⟩
  rw [scrypt_hash_finish_spec _ w12, scrypt_hash_finish_spec _ w2, hs, hl, hp]

theorem scrypt_hash_update_slicing_witness :
    Reachable (scrypt_hash_update scrypt_hash_init [1, 2, 3]) ∧
    (scrypt_hash_update (scrypt_hash_update (scrypt_hash_update scrypt_hash_init [1, 2, 3])
        [4]) [5, 6]).leftover
      = (scrypt_hash_update (scrypt_hash_update scrypt_hash_init [1, 2, 3])
        ([4] ++ [5, 6])).leftover :=
  ⟨Reachable_update _ [1, 2, 3] Reachable_init,
   (scrypt_hash_update_slicing (scrypt_hash_update scrypt_hash_init [1, 2, 3]) [4] [5, 6]
      (Reachable_update _ [1, 2, 3] Reachable_init)).2.1⟩

theorem finish_WF (S : scrypt_hash_state) (h : WF S) : WF (scrypt_hash_finish S).1 := by
  have hb := finish_block_eq S h
  have hp := pending_length S h
  obtain ⟨_, hl⟩ := h
  have h1 : (scrypt_hash_finish S).1.leftover = S.leftover := by
    simp only [scrypt_hash_finish]
  have h2 : (scrypt_hash_finish S).1.buffer = finish_block S := by
    simp only [finish_block]
  unfold WF
  rw [h1, h2, hb, List.length_append, hp, spec_pad_length]
  omega

/-- Claim C16.  The leftover count is below the block size 72 after
`scrypt_hash_init`, after `scrypt_hash_update` with any input on a state that
satisfies the invariant, and after `scrypt_hash_finish`; so the writes
`buffer[leftover .. leftover + want)` of update and `buffer[leftover]`,
`buffer[leftover + 1 .. 72)` of finish stay inside the 72-byte buffer. -/
theorem leftover_below_block_size (S : scrypt_hash_state) (inp : List Nat) (h : WF S) :
    scrypt_hash_init.leftover < SCRYPT_HASH_BLOCK_SIZE ∧
    scrypt_hash_init.buffer.length = SCRYPT_HASH_BLOCK_SIZE ∧
    (scrypt_hash_update S inp).leftover < SCRYPT_HASH_BLOCK_SIZE ∧
    (scrypt_hash_update S inp).buffer.length = SCRYPT_HASH_BLOCK_SIZE ∧
    (scrypt_hash_finish S).1.leftover < SCRYPT_HASH_BLOCK_SIZE ∧
    (scrypt_hash_finish S).1.buffer.length = SCRYPT_HASH_BLOCK_SIZE ∧
    S.leftover
      + (if SCRYPT_HASH_BLOCK_SIZE - S.leftover < inp.length
          then SCRYPT_HASH_BLOCK_SIZE - S.leftover else inp.length) ≤ S.buffer.length ∧
    S.leftover < S.buffer.length ∧
    (S.leftover + 1) + (SCRYPT_HASH_BLOCK_SIZE - (S.leftover + 1)) ≤ S.buffer.length := by
  have e : SCRYPT_HASH_BLOCK_SIZE = 72 := by decide
  obtain ⟨ib, il⟩ := scrypt_hash_init_WF
  obtain ⟨ub, ul⟩ := (scrypt_hash_update_spec S inp h).1
  obtain ⟨fb, fl⟩ := finish_WF S h
  obtain ⟨hb, hl⟩ := h
  rw [e]
  refine ⟨il, ib, ul, ub, fl, fb, ?_, by omega, by omega⟩
  split <;> omega

theorem leftover_below_block_size_witness :
    WF (scrypt_hash_update scrypt_hash_init [1, 2, 3]) ∧
    (scrypt_hash_update (scrypt_hash_update scrypt_hash_init [1, 2, 3]) [4, 5]).leftover
      < SCRYPT_HASH_BLOCK_SIZE :=
  ⟨(scrypt_hash_update_spec scrypt_hash_init [1, 2, 3] scrypt_hash_init_WF).1,
   (leftover_below_block_size (scrypt_hash_update scrypt_hash_init [1, 2, 3]) [4, 5]
      (scrypt_hash_update_spec scrypt_hash_init [1, 2, 3] scrypt_hash_init_WF).1).2.2.1⟩

/-! ## The digest of the empty message -/

/-- Claim C17.  The digest `scrypt_hash` gives for the empty message is the
published Keccak-512 digest of the empty message. -/
theorem scrypt_hash_empty : scrypt_hash [] = keccak512_empty := by
  decide!

/-! ## The exponent check and a restart flag set on entry -/

theorem scan_loop_not_fatal (env : scan_env) (pdata ptarget : List Nat) (max_nonce hw N : Nat)
    (fuel : Nat) : ∀ (st : scan_state),
    scan_loop env pdata ptarget max_nonce hw N fuel st ≠ some .fatal := by
  induction fuel with
  | zero => intro st h; simp [scan_loop] at h
  | succ f ih =>
    intro st h
    rw [scan_loop] at h
    simp only [] at h
    split at h
    · simp [scan_exit] at h
    · split at h
      · simp at h
      · split at h
        · exact ih _ h
        · simp [scan_exit] at h

theorem scrypt_N_eq (e : Nat) (h : e ≤ 30) : scrypt_N e = 2 ^ (e + 1) ∧ scrypt_N e < 2 ^ 32 := by
  unfold scrypt_N
  have hlt : 2 ^ (e + 1) < 2 ^ 32 := Nat.pow_lt_pow_right (by decide) (by omega)
  rw [Nat.shiftLeft_eq, Nat.one_mul, Nat.mod_eq_of_lt hlt]
  exact ⟨rfl, hlt⟩

/-- Claim C20.  The call ends in the fatal error sink exactly when the exponent
exceeds 30; an accepted exponent gives `N = 2^(exponent + 1)`, which fits in 32
bits; for `block_version < 7` the exponent is `GetNfactor` of the byte-swapped
header word 17 and the header has 80 bytes; for `block_version >= 7` the exponent
is 21, `N = 2^22` and the header has 84 bytes, whatever the timestamp and the
profile. -/
theorem scanhash_exponent_check (env : scan_env) (jane_params : String)
    (pdata ptarget : List Nat) (max_nonce : Nat) (block_version : Int) (fuel : Nat) :
    (scanhash_scrypt_jane env jane_params pdata ptarget max_nonce block_version fuel
        = some .fatal ↔
      scan_Nfactor jane_params pdata block_version > scrypt_maxN) ∧
    (scan_Nfactor jane_params pdata block_version ≤ scrypt_maxN →
      scrypt_N (scan_Nfactor jane_params pdata block_version)
        = 2 ^ (scan_Nfactor jane_params pdata block_version + 1) ∧
      scrypt_N (scan_Nfactor jane_params pdata block_version) < 2 ^ 32) ∧
    (block_version < 7 →
      scan_Nfactor jane_params pdata block_version
        = GetNfactor jane_params (bswap_32x4 (pdata.getD 17 0)) ∧
      scan_header_words block_version * 4 = 80) ∧
    (7 ≤ block_version →
      scan_Nfactor jane_params pdata block_version = 21 ∧
      scrypt_N (scan_Nfactor jane_params pdata block_version) = 2 ^ 22 ∧
      scan_header_words block_version * 4 = 84) := by
  refine ⟨?_, ?_, ?_, ?_⟩
  · unfold scanhash_scrypt_jane
    simp only []
    constructor
    · intro h
      by_contra hc
      rw [if_neg hc] at h
      split at h
      · simp at h
      · exact scan_loop_not_fatal _ _ _ _ _ _ _ _ h
    · intro h
      rw [if_pos h]
  · intro h
    exact scrypt_N_eq _ h
  · intro h
    unfold scan_Nfactor scan_header_words
    rw [if_pos h, if_pos h]
    exact ⟨rfl, by decide⟩
  · intro h
    unfold scan_Nfactor scan_header_words
    rw [if_neg (by omega), if_neg (by omega)]
    exact ⟨rfl, by decide, by decide⟩

theorem scan_stage_n (env : scan_env) (hw : Nat) (st : scan_state) (h : st.n < 2 ^ 32) :
    (scan_stage env hw st).1.n = (st.n + env.throughput) % 2 ^ 32 ∧
    (scan_stage env hw st).1.iteration = st.iteration := by
  unfold scan_stage
  simp only []
  split
  · split
    · exact ⟨assign_nonces_fst env hw st.n _ h, rfl⟩
    · exact ⟨assign_nonces_fst env hw st.n _ h, rfl⟩
  · split
    · exact ⟨rfl, rfl⟩
    · exact ⟨rfl, rfl⟩

/-- With the restart flag set at the end of the first iteration the call returns 0
after that iteration, with the staged lanes counted. -/
theorem scanhash_restart_first (env : scan_env) (jane_params : String)
    (pdata ptarget : List Nat) (max_nonce : Nat) (block_version : Int) (fuel : Nat)
    (hs : pdata.getD (scan_header_words block_version - 1) 0 < 2 ^ 32)
    (hN : scan_Nfactor jane_params pdata block_version ≤ scrypt_maxN)
    (hT : 1 ≤ env.throughput) (hr : env.restart 0 = true) :
    scanhash_scrypt_jane env jane_params pdata ptarget max_nonce block_version (fuel + 1)
      = some (.exhausted
          (pdata.set (scan_header_words block_version - 1)
            ((pdata.getD (scan_header_words block_version - 1) 0 + env.throughput) % 2 ^ 32))
          (env.throughput % 2 ^ 32)) := by
  unfold scanhash_scrypt_jane
  simp only []
  rw [if_neg (by omega), if_neg (by omega), scan_loop]
  simp only []
  obtain ⟨hn, hi⟩ := scan_stage_n env (scan_header_words block_version)
    (scan_init env pdata (scan_header_words block_version)) hs
  have hn0 : (scan_init env pdata (scan_header_words block_version)).n
      = pdata.getD (scan_header_words block_version - 1) 0 := rfl
  have hi0 : (scan_init env pdata (scan_header_words block_version)).iteration = 0 := rfl
  rw [hn0] at hn
  rw [hi0] at hi
  have hd : ((pdata.getD (scan_header_words block_version - 1) 0 + env.throughput) % 2 ^ 32
      + 2 ^ 32 - pdata.getD (scan_header_words block_version - 1) 0) % 2 ^ 32
      = env.throughput % 2 ^ 32 := by
    omega
  split
  · unfold scan_exit
    rw [hn, hd]
  · have hsl : scan_lanes env pdata ptarget (scan_header_words block_version)
        (scrypt_N (scan_Nfactor jane_params pdata block_version))
        (scan_stage env (scan_header_words block_version)
          (scan_init env pdata (scan_header_words block_version))).1 = none := by
      unfold scan_lanes
      rw [hi, if_neg (by decide)]
    rw [hsl]
    simp only [hi, hr, Bool.not_true, Bool.and_false]
    rw [if_neg (by decide)]
    unfold scan_exit
    simp only [hn, hd]

/-- Claim C14 (amended).  For every header, target and throughput of at least 1,
if the restart flag is set when the loop tests it for the first time, the call
leaves the loop after that one iteration and returns 0; the nonce word is
advanced by `throughput` and `*hashes_done` is `throughput` (the lanes staged in
that iteration), not zero. -/
theorem scanhash_restart_on_entry (env : scan_env) (jane_params : String)
    (pdata ptarget : List Nat) (max_nonce : Nat) (block_version : Int) (fuel : Nat)
    (hs : pdata.getD (scan_header_words block_version - 1) 0 < 2 ^ 32)
    (hN : scan_Nfactor jane_params pdata block_version ≤ scrypt_maxN)
    (hT : 1 ≤ env.throughput) (hr : env.restart 0 = true) :
    scanhash_scrypt_jane env jane_params pdata ptarget max_nonce block_version (fuel + 1)
      = some (.exhausted
          (pdata.set (scan_header_words block_version - 1)
            ((pdata.getD (scan_header_words block_version - 1) 0 + env.throughput) % 2 ^ 32))
          (env.throughput % 2 ^ 32)) :=
  scanhash_restart_first env jane_params pdata ptarget max_nonce block_version fuel hs hN hT hr

theorem scanhash_restart_on_entry_witness :
    sample_header.getD (scan_header_words 1 - 1) 0 < 2 ^ 32 ∧
    scan_Nfactor "" sample_header 1 ≤ scrypt_maxN ∧
    1 ≤ cancelled_env.throughput ∧ cancelled_env.restart 0 = true ∧
    scanhash_scrypt_jane cancelled_env "" sample_header sample_target 100 1 (0 + 1)
      = some (.exhausted
          (sample_header.set (scan_header_words 1 - 1)
            ((sample_header.getD (scan_header_words 1 - 1) 0 + cancelled_env.throughput)
              % 2 ^ 32))
          (cancelled_env.throughput % 2 ^ 32)) :=
  ⟨by decide, by decide, by decide, by decide,
   scanhash_restart_on_entry cancelled_env "" sample_header sample_target 100 1 0
     (by decide) (by decide) (by decide) (by decide)⟩

/-- Claim C14 fails as stated: with the restart flag set on entry and one lane the
call returns 0 with `*hashes_done = 1`, not 0. -/
theorem scanhash_restart_counts_batch :
    cancelled_env.restart 0 = true ∧ 1 ≤ cancelled_env.throughput ∧
    ∃ pdata2 hd,
      scanhash_scrypt_jane cancelled_env "" sample_header sample_target 10 1 5
        = some (.exhausted pdata2 hd) ∧ hd = 1 ∧ hd ≠ 0 := by
  refine ⟨by decide, by decide, _, _,
    scanhash_restart_first cancelled_env "" sample_header sample_target 10 1 4
      (by decide) (by decide) (by decide) (by decide), by decide, by decide⟩

/-! ## The coin table and the bare integer of `GetNfactor` -/

theorem find_transfer {α : Type} (p q : α → Bool) (e : α) (hpq : ∀ x, p x = true → q x = true)
    (hp : p e = true) :
    ∀ l : List α, l.find? q = some e → l.find? p = some e := by
  intro l
  induction l with
  | nil => intro h; simp at h
  | cons x xs ih =>
    intro h
    rw [List.find?_cons] at h
    rw [List.find?_cons]
    cases hq : q x with
    | true =>
      rw [hq] at h
      simp only [Option.some.injEq] at h
      subst h
      rw [hp]
    | false =>
      rw [hq] at h
      have hpx : p x = false := by
        cases hpx : p x with
        | false => rfl
        | true => rw [hpq x hpx] at hq; exact absurd hq (by decide)
      rw [hpx]
      exact ih h

theorem coin_table_long_unique :
    ∀ e ∈ coin_table, coin_table.find? (caseless_hit (lower e.2.1)) = some e ∧
      0 < (lower e.2.1).length := by
  decide

theorem coin_table_short_exact :
    ∀ e ∈ coin_table, jane_select e.1 = .profile e.2.2.1 e.2.2.2.1 e.2.2.2.2 := by
  decide

theorem jane_select_long (jane_params : String) (e : String × String × Nat × Nat × Nat)
    (he : e ∈ coin_table) (h : strcasecmp_eq jane_params e.2.1 = true) :
    jane_select jane_params = .profile e.2.2.1 e.2.2.2.1 e.2.2.2.2 := by
  have hL : lower jane_params = lower e.2.1 := by
    unfold strcasecmp_eq at h
    exact eq_of_beq h
  obtain ⟨hf, hlen⟩ := coin_table_long_unique e he
  have hpos : jane_params.length > 0 := by
    have h1 : jane_params.length = (lower jane_params).length := by
      unfold lower
      rw [List.length_map]
      rfl
    rw [h1, hL]
    exact hlen
  have hfind : coin_table.find?
      (fun x => jane_params == x.1 || strcasecmp_eq jane_params x.2.1) = some e := by
    apply find_transfer _ (caseless_hit (lower e.2.1)) e _ _ _ hf
    · intro x hx
      unfold caseless_hit
      rw [← hL]
      rw [Bool.or_eq_true] at hx
      rw [Bool.or_eq_true]
      rcases hx with hx | hx
      · left
        have : jane_params = x.1 := by simpa using hx
        rw [← this]
        exact beq_self_eq_true _
      · right
        exact hx
    · simp only [h, Bool.or_true]
  unfold jane_select
  simp only []
  rw [if_pos hpos, hfind]
theorem digit_toLower (c : Char) (h : c.isDigit = true) : c.toLower = c := by
  unfold Char.isDigit at h
  unfold Char.toLower
  simp only [Bool.and_eq_true, decide_eq_true_eq] at h
  have h2 : ¬ (c.val ≥ 65) := by
    intro h65
    have a : c.val.toNat ≤ 57 := h.2
    have b : 65 ≤ c.val.toNat := h65
    omega
  rw [if_neg (fun hc => h2 hc.1)]

theorem digit_plain (c : Char) (h : c.isDigit = true) :
    c_isspace c = false ∧ c ≠ '-' ∧ c ≠ '+' := by
  refine ⟨?_, ?_, ?_⟩
  · unfold Char.isDigit at h
    simp only [Bool.and_eq_true, decide_eq_true_eq] at h
    have a : 48 ≤ c.val.toNat := h.1
    have e : c.toNat = c.val.toNat := rfl
    unfold c_isspace
    rw [e]
    have h1 : (c.val.toNat == 32) = false := beq_false_of_ne (by omega)
    have h2 : decide (c.val.toNat ≤ 13) = false := decide_eq_false (by omega)
    rw [h1, h2, Bool.and_false, Bool.or_false]
  · intro hc; subst hc; exact absurd h (by decide)
  · intro hc; subst hc; exact absurd h (by decide)

/-- What `strtoul` makes of a run of digits with value `raw`: the value, saturated
at `ULONG_MAX`. -/
theorem scan_u_digits (d : Char) (ds : List Char)
    (hd : ∀ c ∈ d :: ds, c.isDigit = true) :
    scan_u (d :: ds)
      = some ((if digits_value (d :: ds) ≥ 2 ^ 64 then 2 ^ 64 - 1 else digits_value (d :: ds))
          % 2 ^ 32, []) := by
  have hd0 : d.isDigit = true := hd d (List.mem_cons_self _ _)
  obtain ⟨hw, hm, hp⟩ := digit_plain d hd0
  have h1 : (d :: ds).dropWhile c_isspace = d :: ds := by
    rw [List.dropWhile_cons_of_neg (by rw [hw]; decide)]
  have h2 : ((d :: ds).head? == some '-') = false := by
    simp only [List.head?_cons]
    exact beq_false_of_ne (fun hc => hm (Option.some.inj hc))
  have h3 : ((d :: ds).head? == some '+') = false := by
    simp only [List.head?_cons]
    exact beq_false_of_ne (fun hc => hp (Option.some.inj hc))
  have h4 : (d :: ds).takeWhile Char.isDigit = d :: ds :=
    List.takeWhile_eq_self_iff.mpr hd
  have h5 : (d :: ds).dropWhile Char.isDigit = [] :=
    List.dropWhile_eq_nil_iff.mpr hd
  have hU : ULONG_BITS = 64 := rfl
  unfold scan_u
  simp only [h1, h2, h3, Bool.or_false, Bool.false_eq_true, if_false, h4, h5,
    List.isEmpty_cons, hU]

theorem coin_table_no_digit :
    ∀ e ∈ coin_table, (e.1.toList.head?.map Char.isDigit ≠ some true) ∧
      ((lower e.2.1).head?.map Char.isDigit ≠ some true) := by
  decide

theorem jane_select_digits (jane_params : String) (hne : jane_params.toList ≠ [])
    (hd : ∀ c ∈ jane_params.toList, c.isDigit = true) :
    jane_select jane_params
      = .override ((if digits_value jane_params.toList ≥ 2 ^ 64 then 2 ^ 64 - 1
          else digits_value jane_params.toList) % 2 ^ 32) := by
  obtain ⟨d, ds, hds⟩ := List.exists_cons_of_ne_nil hne
  have hd0 : d.isDigit = true := hd d (by rw [hds]; exact List.mem_cons_self _ _)
  have hpos : jane_params.length > 0 := by
    have h1 : jane_params.length = jane_params.toList.length := rfl
    rw [h1, hds]
    exact Nat.succ_pos _
  have hscan : scan_u jane_params.toList
      = some ((if digits_value jane_params.toList ≥ 2 ^ 64 then 2 ^ 64 - 1
          else digits_value jane_params.toList) % 2 ^ 32, []) := by
    rw [hds]
    rw [hds] at hd
    exact scan_u_digits d ds hd
  have hfind : coin_table.find?
      (fun x => jane_params == x.1 || strcasecmp_eq jane_params x.2.1) = none := by
    rw [List.find?_eq_none]
    intro x hx
    obtain ⟨hs, hl⟩ := coin_table_no_digit x hx
    intro hc
    rw [Bool.or_eq_true] at hc
    rcases hc with hc | hc
    · have : jane_params = x.1 := by simpa using hc
      apply hs
      rw [← this, hds, List.head?_cons, Option.map_some', hd0]
    · have hL : lower jane_params = lower x.2.1 := eq_of_beq hc
      apply hl
      rw [← hL]
      unfold lower
      rw [hds, List.map_cons, List.head?_cons, Option.map_some', digit_toLower d hd0, hd0]
  unfold jane_select
  simp only []
  rw [if_pos hpos, hfind]
  unfold sscanf_uuu sscanf_u
  rw [hscan]
  simp only [List.length_singleton, ne_eq, Nat.reduceEqDiff, Nat.succ_ne_self, not_false_eq_true,
    if_true, Option.map_some', OfNat.ofNat_ne_one, OfNat.one_ne_ofNat, reduceCtorEq]
/-- Claim C19 (amended).  Only the long names are matched with case ignored; a
short code must be spelled exactly.  For every entry of the coin table and every
identifier that equals the entry's long name up to letter case, `GetNfactor` uses
that entry's `(Ntimestamp, minN, maxN)`, as it does for the exactly-cased short
code, and so returns the same value as for the long name and for the short code
at every timestamp. -/
theorem GetNfactor_long_name_caseless (jane_params : String)
    (e : String × String × Nat × Nat × Nat) (nTimestamp : Nat)
    (he : e ∈ coin_table) (h : strcasecmp_eq jane_params e.2.1 = true) :
    jane_select jane_params = .profile e.2.2.1 e.2.2.2.1 e.2.2.2.2 ∧
    jane_select e.1 = .profile e.2.2.1 e.2.2.2.1 e.2.2.2.2 ∧
    GetNfactor jane_params nTimestamp
      = GetNfactor_schedule e.2.2.1 e.2.2.2.1 e.2.2.2.2 nTimestamp ∧
    GetNfactor jane_params nTimestamp = GetNfactor e.2.1 nTimestamp ∧
    GetNfactor jane_params nTimestamp = GetNfactor e.1 nTimestamp := by
  have h1 := jane_select_long jane_params e he h
  have h2 := jane_select_long e.2.1 e he (by unfold strcasecmp_eq; exact beq_self_eq_true _)
  have h3 := coin_table_short_exact e he
  refine ⟨h1, h3, GetNfactor_of_profile _ _ _ _ _ h1, ?_, ?_⟩
  · rw [GetNfactor_of_profile _ _ _ _ _ h1, GetNfactor_of_profile _ _ _ _ _ h2]
  · rw [GetNfactor_of_profile _ _ _ _ _ h1, GetNfactor_of_profile _ _ _ _ _ h3]

theorem GetNfactor_long_name_caseless_witness :
    ("ZZC", "ZZCoin", 1375817223, 12, 30) ∈ coin_table ∧
    strcasecmp_eq "zzCOIN" "ZZCoin" = true ∧
    jane_select "zzCOIN" = .profile 1375817223 12 30 ∧
    GetNfactor "zzCOIN" 1400000000 = GetNfactor "ZZC" 1400000000 :=
  ⟨by decide, by decide,
   (GetNfactor_long_name_caseless "zzCOIN" ("ZZC", "ZZCoin", 1375817223, 12, 30) 1400000000
      (by decide) (by decide)).1,
   (GetNfactor_long_name_caseless "zzCOIN" ("ZZC", "ZZCoin", 1375817223, 12, 30) 1400000000
      (by decide) (by decide)).2.2.2.2⟩

/-- Claim C19 fails as stated: `zzc` differs from the short code `ZZC` only in
letter case, yet it selects the Yacoin defaults, and at timestamp 0 `GetNfactor`
returns 4 for `zzc` and 12 for `ZZC`. -/
theorem GetNfactor_short_code_case_sensitive :
    ("ZZC", "ZZCoin", 1375817223, 12, 30) ∈ coin_table ∧
    lower "zzc" = lower "ZZC" ∧
    jane_select "ZZC" = .profile 1375817223 12 30 ∧
    jane_select "zzc" = .profile 1367991200 4 30 ∧
    GetNfactor "zzc" 0 = 4 ∧ GetNfactor "ZZC" 0 = 12 ∧
    GetNfactor "zzc" 0 ≠ GetNfactor "ZZC" 0 := by
  decide

/-- Claim C18 (amended).  When the configuration string is a non-empty run of
decimal digits with value `v`, `GetNfactor` takes the early return for every
timestamp, without the timestamp formula and without any clamp to
`[minN, maxN]`.  The value returned is what the conversion stored, reduced to an
`unsigned char`: `v mod 256` when `v < 2^64`, and 255 when `v >= 2^64`, where the
conversion saturates; it is `v` itself exactly when `v <= 255`. -/
theorem GetNfactor_bare_integer (jane_params : String) (nTimestamp : Nat)
    (hne : jane_params.toList ≠ [])
    (hd : ∀ c ∈ jane_params.toList, c.isDigit = true) :
    (∃ Nfactor, jane_select jane_params = .override Nfactor ∧
      GetNfactor jane_params nTimestamp = Nfactor % 256 ∧
      (digits_value jane_params.toList < 2 ^ 64 →
        Nfactor = digits_value jane_params.toList % 2 ^ 32) ∧
      (2 ^ 64 ≤ digits_value jane_params.toList → Nfactor = 2 ^ 32 - 1)) ∧
    (digits_value jane_params.toList < 2 ^ 64 →
      GetNfactor jane_params nTimestamp = digits_value jane_params.toList % 256) ∧
    (2 ^ 64 ≤ digits_value jane_params.toList → GetNfactor jane_params nTimestamp = 255) ∧
    (GetNfactor jane_params nTimestamp = digits_value jane_params.toList ↔
      digits_value jane_params.toList ≤ 255) := by
  have hs := jane_select_digits jane_params hne hd
  have hg : GetNfactor jane_params nTimestamp
      = (if digits_value jane_params.toList ≥ 2 ^ 64 then 2 ^ 64 - 1
          else digits_value jane_params.toList) % 2 ^ 32 % 256 := by
    unfold GetNfactor
    rw [hs]
  generalize digits_value jane_params.toList = v at hs hg ⊢
  by_cases hv : v ≥ 2 ^ 64
  · rw [if_pos hv] at hs hg
    have e : (2 ^ 64 - 1) % 2 ^ 32 % 256 = 255 := by decide
    have e2 : (2 ^ 64 - 1) % 2 ^ 32 = 2 ^ 32 - 1 := by decide
    rw [e] at hg
    rw [e2] at hs
    refine ⟨⟨_, hs, by rw [hg]; decide, fun h => by omega, fun _ => rfl⟩,
      fun h => by omega, fun _ => hg, ?_⟩
    rw [hg]
    omega
  · rw [if_neg hv] at hs hg
    have e : v % 2 ^ 32 % 256 = v % 256 := by omega
    refine ⟨⟨_, hs, by rw [hg], fun _ => rfl, fun h => by omega⟩,
      fun _ => by rw [hg, e], fun h => by omega, ?_⟩
    rw [hg]
    omega

theorem GetNfactor_bare_integer_witness :
    "200".toList ≠ [] ∧ (∀ c ∈ "200".toList, c.isDigit = true) ∧
    digits_value "200".toList = 200 ∧
    GetNfactor "200" 1402845776 = digits_value "200".toList % 256 ∧
    GetNfactor "200" 1402845776 = digits_value "200".toList ∧
    "18446744073709551616".toList ≠ [] ∧
    (∀ c ∈ "18446744073709551616".toList, c.isDigit = true) ∧
    digits_value "18446744073709551616".toList = 2 ^ 64 ∧
    GetNfactor "18446744073709551616" 1402845776 = 255 :=
  ⟨by decide, by decide, by decide,
   (GetNfactor_bare_integer "200" 1402845776 (by decide) (by decide)).2.1 (by decide),
   (GetNfactor_bare_integer "200" 1402845776 (by decide) (by decide)).2.2.2.mpr (by decide),
   by decide, by decide, by decide,
   (GetNfactor_bare_integer "18446744073709551616" 1402845776 (by decide) (by decide)).2.2.1
     (by decide)⟩

/-- Claim C18 fails as stated: the bare integer `300` is neither a coin name nor
a triple, and `GetNfactor` returns 44, not 300, at every timestamp. -/
theorem GetNfactor_bare_integer_truncates :
    jane_select "300" = .override 300 ∧ digits_value "300".toList = 300 ∧
    ∀ nTimestamp, GetNfactor "300" nTimestamp = 44 ∧ GetNfactor "300" nTimestamp ≠ 300 := by
  have hs : jane_select "300" = .override 300 := by decide
  refine ⟨hs, by decide, ?_⟩
  intro t
  have hg : GetNfactor "300" t = 44 := by
    unfold GetNfactor
    rw [hs]
  rw [hg]
  exact ⟨rfl, by decide⟩

/-! ## The trace of the search loop -/

theorem scan_stage_iteration (env : scan_env) (hw : Nat) (st : scan_state) :
    (scan_stage env hw st).1.iteration = st.iteration := by
  unfold scan_stage
  simp only []
  split
  · split <;> rfl
  · split <;> rfl

theorem scan_top_iteration (env : scan_env) (pdata : List Nat) (hw : Nat) :
    ∀ it, (scan_top env pdata hw it).iteration = it ∧ (scan_at env pdata hw it).iteration = it := by
  intro it
  induction it with
  | zero =>
    have h0 : (scan_top env pdata hw 0).iteration = 0 := rfl
    refine ⟨h0, ?_⟩
    unfold scan_at
    rw [scan_stage_iteration, h0]
  | succ k ih =>
    have h1 : (scan_top env pdata hw (k + 1)).iteration = k + 1 := by
      show (scan_at env pdata hw k).iteration + 1 = k + 1
      rw [ih.2]
    refine ⟨h1, ?_⟩
    unfold scan_at
    rw [scan_stage_iteration, h1]

/-- Every run of the loop that ends does so in some iteration `k`, after the
iterations before it passed without an event: by a failed sync, by accepting a
lane, or by the loop condition. -/
theorem scan_loop_trace (env : scan_env) (pdata ptarget : List Nat) (max_nonce hw N : Nat)
    (fuel : Nat) : ∀ (it : Nat) (res : scan_result),
    scan_loop env pdata ptarget max_nonce hw N fuel (scan_top env pdata hw it) = some res →
    ∃ k, it ≤ k ∧ (∀ j, it ≤ j → j < k → scan_quiet env pdata ptarget max_nonce hw N j) ∧
      (((scan_stage env hw (scan_top env pdata hw k)).2 = true ∧
          res = scan_exit pdata hw (scan_at env pdata hw k)) ∨
       ((scan_stage env hw (scan_top env pdata hw k)).2 = false ∧
          ∃ i, scan_lanes env pdata ptarget hw N (scan_at env pdata hw k) = some i ∧
            res = .found
              (pdata.set (hw - 1)
                (((scan_at env pdata hw k).nonce.getD (scan_at env pdata hw k).cur 0 + i) % 2 ^ 32))
              (((scan_at env pdata hw k).n + 2 ^ 32 - pdata.getD (hw - 1) 0) % 2 ^ 32) i
              (scan_at env pdata hw k)) ∨
       ((scan_stage env hw (scan_top env pdata hw k)).2 = false ∧
          scan_lanes env pdata ptarget hw N (scan_at env pdata hw k) = none ∧
          scan_cond env pdata max_nonce hw k = false ∧
          res = scan_exit pdata hw (scan_flip (scan_at env pdata hw k)))) := by
  induction fuel with
  | zero =>
    intro it res h
    simp [scan_loop] at h
  | succ f ih =>
    intro it res h
    rw [scan_loop] at h
    simp only [] at h
    by_cases hbrk : (scan_stage env hw (scan_top env pdata hw it)).2 = true
    · rw [if_pos hbrk] at h
      exact ⟨it, Nat.le_refl _, fun j h1 h2 => absurd h1 (by omega),
        Or.inl ⟨hbrk, (Option.some.inj h).symm⟩⟩
    · rw [if_neg hbrk] at h
      have hok : (scan_stage env hw (scan_top env pdata hw it)).2 = false := by
        simpa using hbrk
      cases hsl : scan_lanes env pdata ptarget hw N (scan_at env pdata hw it) with
      | some i0 =>
        have hsl2 : scan_lanes env pdata ptarget hw N
            (scan_stage env hw (scan_top env pdata hw it)).1 = some i0 := hsl
        rw [hsl2] at h
        exact ⟨it, Nat.le_refl _, fun j h1 h2 => absurd h1 (by omega),
          Or.inr (Or.inl ⟨hok, i0, hsl, (Option.some.inj h).symm⟩)⟩
      | none =>
        have hsl2 : scan_lanes env pdata ptarget hw N
            (scan_stage env hw (scan_top env pdata hw it)).1 = none := hsl
        rw [hsl2] at h
        simp only [] at h
        by_cases hc : scan_cond env pdata max_nonce hw it = true
        · have hc2 : (decide ((scan_stage env hw (scan_top env pdata hw it)).1.n ≤ max_nonce)
              && !env.restart (scan_stage env hw (scan_top env pdata hw it)).1.iteration) = true := hc
          rw [if_pos hc2] at h
          have h2 : scan_loop env pdata ptarget max_nonce hw N f
              (scan_top env pdata hw (it + 1)) = some res := h
          obtain ⟨k, hk, hq, hend⟩ := ih (it + 1) res h2
          refine ⟨k, by omega, ?_, hend⟩
          intro j h1 h3
          by_cases hj : j = it
          · subst hj
            exact ⟨hok, hsl, hc⟩
          · exact hq j (by omega) h3
        · have hc2 : ¬ (decide ((scan_stage env hw (scan_top env pdata hw it)).1.n ≤ max_nonce)
              && !env.restart (scan_stage env hw (scan_top env pdata hw it)).1.iteration) = true := hc
          rw [if_neg hc2] at h
          exact ⟨it, Nat.le_refl _, fun j h1 h2 => absurd h1 (by omega),
            Or.inr (Or.inr ⟨hok, hsl, by simpa using hc, (Option.some.inj h).symm⟩)⟩
theorem find_range_none (p : Nat → Bool) (n : Nat) (h : (List.range n).find? p = none) :
    ∀ j, j < n → p j = false := by
  intro j hj
  rw [List.find?_eq_none] at h
  have := h j (List.mem_range.mpr hj)
  simpa using this

theorem find_range_some (p : Nat → Bool) (n : Nat) : ∀ i, (List.range n).find? p = some i →
    i < n ∧ p i = true ∧ ∀ j, j < i → p j = false := by
  induction n with
  | zero => intro i h; simp at h
  | succ m ih =>
    intro i h
    rw [List.range_succ, List.find?_append] at h
    cases hm : (List.range m).find? p with
    | some a =>
      rw [hm] at h
      simp only [Option.or, Option.some.injEq] at h
      subst h
      obtain ⟨h1, h2, h3⟩ := ih a hm
      exact ⟨by omega, h2, h3⟩
    | none =>
      rw [hm] at h
      simp only [Option.or] at h
      have hi : i = m := by
        have := List.mem_of_find?_eq_some h
        simpa using this
      subst hi
      exact ⟨by omega, List.find?_some h, find_range_none p i hm⟩

/-- A digest that passes `fulltest` also passes the pre-filter on word 7, the
target being eight 32-bit words. -/
theorem fulltest_prefilter (d ptarget : List Nat) (ht : ∀ i, i < 8 → ptarget.getD i 0 < 2 ^ 32)
    (h : fulltest d ptarget = true) : d.getD 7 0 ≤ ptarget.getD 7 0 := by
  unfold fulltest at h
  rw [decide_eq_true_eq] at h
  have h0 := ht 0 (by decide)
  have h1 := ht 1 (by decide)
  have h2 := ht 2 (by decide)
  have h3 := ht 3 (by decide)
  have h4 := ht 4 (by decide)
  have h5 := ht 5 (by decide)
  have h6 := ht 6 (by decide)
  unfold value256 at h
  simp only [List.range_succ, List.range_zero, List.nil_append, List.cons_append,
    List.foldl_cons, List.foldl_nil] at h
  omega

/-- A lane whose digest is the CPU digest of its nonce is accepted exactly when
that digest satisfies the target. -/
theorem honest_accepts (env : scan_env) (pdata ptarget : List Nat) (hw N : Nat)
    (st : scan_state) (i : Nat) (ht : ∀ i, i < 8 → ptarget.getD i 0 < 2 ^ 32)
    (hh : lane_hash st i
      = cpu_digest env pdata hw N ((st.nonce.getD st.cur 0 + i) % 2 ^ 32)) :
    lane_accepts env pdata ptarget hw N st i
      = qualifies env pdata ptarget hw N ((st.nonce.getD st.cur 0 + i) % 2 ^ 32) := by
  unfold lane_accepts qualifies
  simp only []
  rw [hh]
  cases hf : fulltest (cpu_digest env pdata hw N ((st.nonce.getD st.cur 0 + i) % 2 ^ 32)) ptarget with
  | true =>
    have hp := fulltest_prefilter _ _ ht hf
    have hc : (decide ((cpu_digest env pdata hw N
        ((st.nonce.getD st.cur 0 + i) % 2 ^ 32)).getD 7 0 ≤ ptarget.getD 7 0) && true) = true := by
      rw [Bool.and_true, decide_eq_true_eq]
      exact hp
    rw [if_pos hc]
    exact beq_self_eq_true _
  | false =>
    rw [Bool.and_false, if_neg (by decide)]

theorem scan_top_inv (env : scan_env) (pdata : List Nat) (hw : Nat)
    (hl : env.hash_init.length = 2) (hs : pdata.getD (hw - 1) 0 < 2 ^ 32) :
    ∀ k, (∀ j, j < k → (scan_stage env hw (scan_top env pdata hw j)).2 = false) →
    scan_inv env (pdata.getD (hw - 1) 0) (scan_top env pdata hw k) := by
  intro k
  induction k with
  | zero => intro _; exact scan_init_inv env pdata hw hl hs
  | succ m ih =>
    intro hok
    have hinv := ih (fun j hj => hok j (by omega))
    exact scan_flip_inv env _ _ (scan_stage_mid env hw _ _ hinv (hok m (by omega)))

theorem scan_at_mid (env : scan_env) (pdata : List Nat) (hw : Nat)
    (hl : env.hash_init.length = 2) (hs : pdata.getD (hw - 1) 0 < 2 ^ 32) (k : Nat)
    (hok : ∀ j, j ≤ k → (scan_stage env hw (scan_top env pdata hw j)).2 = false) :
    scan_mid env (pdata.getD (hw - 1) 0) (scan_at env pdata hw k) :=
  scan_stage_mid env hw _ _
    (scan_top_inv env pdata hw hl hs k (fun j hj => hok j (by omega))) (hok k (Nat.le_refl _))

/-- The base nonce of the batch scanned in iteration `k` and the counter `n` then. -/
theorem scan_at_nonce (env : scan_env) (pdata : List Nat) (hw : Nat)
    (hl : env.hash_init.length = 2) (hs : pdata.getD (hw - 1) 0 < 2 ^ 32) (k : Nat)
    (hok : ∀ j, j ≤ k → (scan_stage env hw (scan_top env pdata hw j)).2 = false) :
    (scan_at env pdata hw k).n = (pdata.getD (hw - 1) 0 + (k + 1) * env.throughput) % 2 ^ 32 ∧
    (0 < k → (scan_at env pdata hw k).nonce.getD (scan_at env pdata hw k).cur 0
      = (pdata.getD (hw - 1) 0 + (k - 1) * env.throughput) % 2 ^ 32) := by
  obtain ⟨_, _, _, _, hn, hc, _, _, _⟩ := scan_at_mid env pdata hw hl hs k hok
  rw [(scan_top_iteration env pdata hw k).2] at hn hc
  exact ⟨hn, hc⟩

/-- With an honest device, lane `i` of the batch scanned in iteration `k` is
accepted exactly when the digest of its nonce satisfies the target. -/
theorem scan_at_accepts (env : scan_env) (pdata ptarget : List Nat) (hw N : Nat)
    (hl : env.hash_init.length = 2) (hs : pdata.getD (hw - 1) 0 < 2 ^ 32)
    (ht : ∀ i, i < 8 → ptarget.getD i 0 < 2 ^ 32) (hh : device_honest env pdata hw N)
    (k i : Nat) (hk : 0 < k) (hi : i < env.throughput)
    (hok : ∀ j, j ≤ k → (scan_stage env hw (scan_top env pdata hw j)).2 = false) :
    lane_accepts env pdata ptarget hw N (scan_at env pdata hw k) i
      = qualifies env pdata ptarget hw N
          ((pdata.getD (hw - 1) 0 + ((k - 1) * env.throughput + i)) % 2 ^ 32) := by
  rw [honest_accepts env pdata ptarget hw N _ i ht (hh k i hk hi),
    (scan_at_nonce env pdata hw hl hs k hok).2 hk, Nat.mod_add_mod, Nat.add_assoc]

/-- With an honest device, a scan that accepts no lane has compared every nonce of
its batch, and none satisfies the target. -/
theorem scan_batch_rejected (env : scan_env) (pdata ptarget : List Nat) (hw N : Nat)
    (hl : env.hash_init.length = 2) (hs : pdata.getD (hw - 1) 0 < 2 ^ 32)
    (ht : ∀ i, i < 8 → ptarget.getD i 0 < 2 ^ 32) (hh : device_honest env pdata hw N)
    (k : Nat) (hk : 0 < k)
    (hok : ∀ j, j ≤ k → (scan_stage env hw (scan_top env pdata hw j)).2 = false)
    (hnone : scan_lanes env pdata ptarget hw N (scan_at env pdata hw k) = none) :
    ∀ i, i < env.throughput →
      qualifies env pdata ptarget hw N
        ((pdata.getD (hw - 1) 0 + ((k - 1) * env.throughput + i)) % 2 ^ 32) = false := by
  intro i hi
  unfold scan_lanes at hnone
  have hit : (scan_at env pdata hw k).iteration > 0 := by
    rw [(scan_top_iteration env pdata hw k).2]; exact hk
  rw [if_pos hit] at hnone
  rw [← scan_at_accepts env pdata ptarget hw N hl hs ht hh k i hk hi hok]
  exact find_range_none _ _ hnone i hi

/-- With an honest device, a scan that accepts lane `l` has compared the lanes
before it, none of which satisfies the target, and the nonce of lane `l` does. -/
theorem scan_batch_accepted (env : scan_env) (pdata ptarget : List Nat) (hw N : Nat)
    (hl : env.hash_init.length = 2) (hs : pdata.getD (hw - 1) 0 < 2 ^ 32)
    (ht : ∀ i, i < 8 → ptarget.getD i 0 < 2 ^ 32) (hh : device_honest env pdata hw N)
    (k l : Nat)
    (hok : ∀ j, j ≤ k → (scan_stage env hw (scan_top env pdata hw j)).2 = false)
    (hsome : scan_lanes env pdata ptarget hw N (scan_at env pdata hw k) = some l) :
    0 < k ∧ l < env.throughput ∧
    qualifies env pdata ptarget hw N
      ((pdata.getD (hw - 1) 0 + ((k - 1) * env.throughput + l)) % 2 ^ 32) = true ∧
    ∀ i, i < l →
      qualifies env pdata ptarget hw N
        ((pdata.getD (hw - 1) 0 + ((k - 1) * env.throughput + i)) % 2 ^ 32) = false := by
  obtain ⟨a1, a2, a3⟩ := scan_lanes_some env pdata ptarget hw N _ _ hsome
  have hk : 0 < k := by
    rw [(scan_top_iteration env pdata hw k).2] at a1; exact a1
  unfold scan_lanes at hsome
  rw [if_pos a1] at hsome
  obtain ⟨_, _, b3⟩ := find_range_some _ _ l hsome
  refine ⟨hk, a2, ?_, ?_⟩
  · rw [← scan_at_accepts env pdata ptarget hw N hl hs ht hh k l hk a2 hok]
    exact a3
  · intro i hi
    rw [← scan_at_accepts env pdata ptarget hw N hl hs ht hh k i hk (by omega) hok]
    exact b3 i hi
theorem stage_ok_of_sync (env : scan_env) (hw : Nat) (st : scan_state)
    (h1 : env.sync1 st.iteration = true) (h2 : env.sync2 st.iteration = true) :
    (scan_stage env hw st).2 = false := by
  unfold scan_stage
  simp only [h1, h2, Bool.not_true, Bool.false_eq_true, if_false]
  split <;> rfl

theorem stage_ok_of_no_failure (env : scan_env) (pdata : List Nat) (hw : Nat)
    (hnf : no_failure env) (j : Nat) :
    (scan_stage env hw (scan_top env pdata hw j)).2 = false :=
  stage_ok_of_sync env hw _ (hnf _).1 (hnf _).2.1

/-- Batches of `T` consecutive offsets: a property of all offsets of the batches
before batch `B` and of the first `l` offsets of batch `B` holds below
`B * T + l`. -/
theorem batch_cover (P : Nat → Prop) (T B l : Nat) (hT : 0 < T) (hl : l ≤ T)
    (h1 : ∀ b i, b < B → i < T → P (b * T + i)) (h2 : ∀ i, i < l → P (B * T + i)) :
    ∀ m, m < B * T + l → P m := by
  intro m hm
  have hmod : m % T < T := Nat.mod_lt _ hT
  have hdm : T * (m / T) + m % T = m := Nat.div_add_mod m T
  have hcomm : T * (m / T) = m / T * T := Nat.mul_comm _ _
  have hlt : m / T < B + 1 := by
    apply Nat.div_lt_of_lt_mul
    have : T * (B + 1) = B * T + T := by rw [Nat.mul_comm, Nat.succ_mul]
    omega
  by_cases hb : m / T < B
  · have := h1 (m / T) (m % T) hb hmod
    rw [← hcomm, hdm] at this
    exact this
  · have hB : m / T = B := by omega
    rw [hB] at hdm hcomm
    have := h2 (m % T) (by omega)
    rw [← hcomm, hdm] at this
    exact this

/-- Whenever the call returns 1 and the device is honest, the nonce written back
is the first one, counted from the caller's nonce word, whose digest satisfies
the target. -/
theorem scan_found_first (env : scan_env) (jane_params : String)
    (pdata ptarget : List Nat) (max_nonce : Nat) (block_version : Int) (fuel : Nat)
    (pdata2 : List Nat) (hd l : Nat) (st : scan_state)
    (hl : env.hash_init.length = 2)
    (hs : pdata.getD (scan_header_words block_version - 1) 0 < 2 ^ 32)
    (ht : ∀ i, i < 8 → ptarget.getD i 0 < 2 ^ 32)
    (hh : device_honest env pdata (scan_header_words block_version)
      (scrypt_N (scan_Nfactor jane_params pdata block_version)))
    (h : scanhash_scrypt_jane env jane_params pdata ptarget max_nonce block_version fuel
      = some (.found pdata2 hd l st)) :
    0 < st.iteration ∧ l < env.throughput ∧
    pdata2 = pdata.set (scan_header_words block_version - 1)
      ((pdata.getD (scan_header_words block_version - 1) 0
        + ((st.iteration - 1) * env.throughput + l)) % 2 ^ 32) ∧
    qualifies env pdata ptarget (scan_header_words block_version)
      (scrypt_N (scan_Nfactor jane_params pdata block_version))
      ((pdata.getD (scan_header_words block_version - 1) 0
        + ((st.iteration - 1) * env.throughput + l)) % 2 ^ 32) = true ∧
    ∀ m, m < (st.iteration - 1) * env.throughput + l →
      qualifies env pdata ptarget (scan_header_words block_version)
        (scrypt_N (scan_Nfactor jane_params pdata block_version))
        ((pdata.getD (scan_header_words block_version - 1) 0 + m) % 2 ^ 32) = false := by
  unfold scanhash_scrypt_jane at h
  simp only [] at h
  split at h
  · simp at h
  · split at h
    · simp at h
    · have h0 : scan_loop env pdata ptarget max_nonce (scan_header_words block_version)
          (scrypt_N (scan_Nfactor jane_params pdata block_version)) fuel
          (scan_top env pdata (scan_header_words block_version) 0)
          = some (.found pdata2 hd l st) := h
      obtain ⟨k, _, hq, hend⟩ := scan_loop_trace env pdata ptarget max_nonce _ _ fuel 0 _ h0
      rcases hend with ⟨_, hres⟩ | ⟨hokk, i, hsome, hres⟩ | ⟨_, _, _, hres⟩
      · simp [scan_exit] at hres
      · simp only [scan_result.found.injEq] at hres
        obtain ⟨e1, _, e3, e4⟩ := hres
        subst e3 e4
        have hok : ∀ j, j ≤ k → (scan_stage env (scan_header_words block_version)
            (scan_top env pdata (scan_header_words block_version) j)).2 = false := by
          intro j hj
          by_cases hjk : j < k
          · exact (hq j (Nat.zero_le _) hjk).1
          · have : j = k := by omega
            rw [this]; exact hokk
        obtain ⟨hk, hlT, hqual, hbefore⟩ :=
          scan_batch_accepted env pdata ptarget _ _ hl hs ht hh k l hok hsome
        have hit : (scan_at env pdata (scan_header_words block_version) k).iteration = k :=
          (scan_top_iteration env pdata _ k).2
        rw [hit]
        refine ⟨hk, hlT, ?_, hqual, ?_⟩
        · rw [e1, (scan_at_nonce env pdata _ hl hs k hok).2 hk, Nat.mod_add_mod, Nat.add_assoc]
        · refine batch_cover (fun m => qualifies env pdata ptarget (scan_header_words block_version)
            (scrypt_N (scan_Nfactor jane_params pdata block_version))
            ((pdata.getD (scan_header_words block_version - 1) 0 + m) % 2 ^ 32) = false)
            env.throughput (k - 1) l (by omega) (by omega) ?_ ?_
          · intro b i hb hi
            have hj : b + 1 < k := by omega
            have := scan_batch_rejected env pdata ptarget _ _ hl hs ht hh (b + 1) (by omega)
              (fun j hj2 => hok j (by omega)) (hq (b + 1) (Nat.zero_le _) hj).2.1 i hi
            rw [Nat.add_sub_cancel] at this
            exact this
          · exact hbefore
      · simp [scan_exit] at hres

/-- Whenever the call returns 0 with an honest device, no failed sync and no
restart, it does so because `n` exceeded `max_nonce` after some iteration `k`;
the batches of the iterations before it were compared and rejected, the batch
staged in iteration `k` itself was not compared. -/
theorem scan_exhausted_rejects (env : scan_env) (jane_params : String)
    (pdata ptarget : List Nat) (max_nonce : Nat) (block_version : Int) (fuel : Nat)
    (pdata2 : List Nat) (hd : Nat)
    (hl : env.hash_init.length = 2)
    (hs : pdata.getD (scan_header_words block_version - 1) 0 < 2 ^ 32)
    (ht : ∀ i, i < 8 → ptarget.getD i 0 < 2 ^ 32)
    (hh : device_honest env pdata (scan_header_words block_version)
      (scrypt_N (scan_Nfactor jane_params pdata block_version)))
    (hnf : no_failure env)
    (h : scanhash_scrypt_jane env jane_params pdata ptarget max_nonce block_version fuel
      = some (.exhausted pdata2 hd)) :
    ∃ k, hd = ((k + 1) * env.throughput) % 2 ^ 32 ∧
      pdata2 = pdata.set (scan_header_words block_version - 1)
        ((pdata.getD (scan_header_words block_version - 1) 0 + (k + 1) * env.throughput)
          % 2 ^ 32) ∧
      max_nonce < (pdata.getD (scan_header_words block_version - 1) 0
        + (k + 1) * env.throughput) % 2 ^ 32 ∧
      ∀ m, m < k * env.throughput →
        qualifies env pdata ptarget (scan_header_words block_version)
          (scrypt_N (scan_Nfactor jane_params pdata block_version))
          ((pdata.getD (scan_header_words block_version - 1) 0 + m) % 2 ^ 32) = false := by
  unfold scanhash_scrypt_jane at h
  simp only [] at h
  split at h
  · simp at h
  · split at h
    · simp at h
    · rename_i hT
      have h0 : scan_loop env pdata ptarget max_nonce (scan_header_words block_version)
          (scrypt_N (scan_Nfactor jane_params pdata block_version)) fuel
          (scan_top env pdata (scan_header_words block_version) 0)
          = some (.exhausted pdata2 hd) := h
      have hok : ∀ j, (scan_stage env (scan_header_words block_version)
          (scan_top env pdata (scan_header_words block_version) j)).2 = false :=
        stage_ok_of_no_failure env pdata _ hnf
      obtain ⟨k, _, hq, hend⟩ := scan_loop_trace env pdata ptarget max_nonce _ _ fuel 0 _ h0
      rcases hend with ⟨hbrk, _⟩ | ⟨_, i, _, hres⟩ | ⟨_, hnone, hcond, hres⟩
      · rw [hok k] at hbrk
        exact absurd hbrk (by decide)
      · simp at hres
      · obtain ⟨hn, _⟩ := scan_at_nonce env pdata _ hl hs k (fun j _ => hok j)
        have hn2 : (scan_flip (scan_at env pdata (scan_header_words block_version) k)).n
            = (scan_at env pdata (scan_header_words block_version) k).n := rfl
        unfold scan_exit at hres
        simp only [scan_result.exhausted.injEq] at hres
        obtain ⟨e1, e2⟩ := hres
        rw [hn2, hn] at e1 e2
        unfold scan_cond at hcond
        rw [(hnf _).2.2, hn] at hcond
        simp only [Bool.not_false, Bool.and_true, decide_eq_false_iff_not, Nat.not_le] at hcond
        refine ⟨k, ?_, e1, hcond, ?_⟩
        · rw [e2]
          omega
        · refine batch_cover (fun m => qualifies env pdata ptarget (scan_header_words block_version)
            (scrypt_N (scan_Nfactor jane_params pdata block_version))
            ((pdata.getD (scan_header_words block_version - 1) 0 + m) % 2 ^ 32) = false)
            env.throughput k 0 (by omega) (by omega) ?_ ?_
          · intro b i hb hi
            have hnone2 : scan_lanes env pdata ptarget (scan_header_words block_version)
                (scrypt_N (scan_Nfactor jane_params pdata block_version))
                (scan_at env pdata (scan_header_words block_version) (b + 1)) = none := by
              by_cases hbk : b + 1 < k
              · exact (hq (b + 1) (Nat.zero_le _) hbk).2.1
              · have : b + 1 = k := by omega
                rw [this]; exact hnone
            have := scan_batch_rejected env pdata ptarget _ _ hl hs ht hh (b + 1) (by omega)
              (fun j _ => hok j) hnone2 i hi
            rw [Nat.add_sub_cancel] at this
            exact this
          · intro i hi
            omega
theorem flatten_lane (n : Nat) : ∀ (f : Nat → List Nat), (∀ i, (f i).length = 8) →
    ∀ i, i < n → ((((List.range n).map f).flatten).drop (8 * i)).take 8 = f i := by
  induction n with
  | zero => intro f _ i hi; omega
  | succ m ih =>
    intro f hf i hi
    rw [List.range_succ_eq_map, List.map_cons, List.flatten_cons, List.map_map]
    cases i with
    | zero =>
      rw [Nat.mul_zero, List.drop_zero, List.take_append_of_le_length (by rw [hf])]
      exact List.take_of_length_le (by rw [hf])
    | succ j =>
      have e : 8 * (j + 1) = (f 0).length + 8 * j := by rw [hf]; omega
      rw [e, List.drop_append]
      exact ih (f ∘ Nat.succ) (fun i => hf _) j (by omega)

/-- A device of the all-GPU path whose buffer holds, for every lane, the CPU digest
of the lane's nonce is honest in the sense of `device_honest`. -/
theorem device_honest_of_dev_hash (env : scan_env) (pdata : List Nat) (hw N : Nat)
    (hp : 2 ≤ env.parallel) (hl : env.hash_init.length = 2)
    (hs : pdata.getD (hw - 1) 0 < 2 ^ 32)
    (hsync : ∀ it, env.sync1 it = true ∧ env.sync2 it = true)
    (hd : ∀ it nonce i, i < env.throughput →
      ((env.dev_hash it nonce).drop (8 * i)).take 8
        = cpu_digest env pdata hw N ((nonce + i) % 2 ^ 32)) :
    device_honest env pdata hw N := by
  intro it i hit hi
  have hok : ∀ j, j ≤ it → (scan_stage env hw (scan_top env pdata hw j)).2 = false :=
    fun j _ => stage_ok_of_sync env hw _ (hsync _).1 (hsync _).2
  obtain ⟨_, _, _, _, _, _, _, hc, _⟩ := scan_at_mid env pdata hw hl hs it hok
  have hit2 : 0 < (scan_at env pdata hw it).iteration := by
    rw [(scan_top_iteration env pdata hw it).2]; exact hit
  unfold lane_hash
  rw [hc hp hit2]
  exact hd _ _ i hi

theorem honest_env_honest (T : Nat) : device_honest (honest_env T) sample_header 20 32 := by
  apply device_honest_of_dev_hash (honest_env T) sample_header 20 32 (Nat.le_refl 2) rfl
    (by decide) (fun _ => ⟨rfl, rfl⟩)
  intro it nonce i hi
  have e : ∀ v, cpu_digest (honest_env T) sample_header 20 32 v
      = cpu_digest (sample_env []) sample_header 20 32 v :=
    fun v => cpu_digest_congr _ _ _ _ _ _ rfl
  rw [e]
  show ((honest_digests T nonce).drop (8 * i)).take 8 = _
  unfold honest_digests
  exact flatten_lane T _ (fun j => (cpu_digest_easy _ _ _ _ _).1) i hi

theorem honest_env_no_failure (T : Nat) : no_failure (honest_env T) :=
  fun _ => ⟨rfl, rfl, rfl⟩

theorem find_range_zero (p : Nat → Bool) (n : Nat) (hn : 0 < n) (h : p 0 = true) :
    (List.range n).find? p = some 0 := by
  obtain ⟨m, rfl⟩ : ∃ m, n = m + 1 := ⟨n - 1, by omega⟩
  rw [List.range_succ_eq_map, List.find?_cons, h]

/-- A run in which the caller's own nonce qualifies and the loop condition holds
after the first iteration returns 1 with that nonce in the second iteration. -/
theorem scanhash_found_at_start (env : scan_env) (jane_params : String)
    (pdata ptarget : List Nat) (max_nonce : Nat) (block_version : Int) (fuel : Nat)
    (hl : env.hash_init.length = 2)
    (hs : pdata.getD (scan_header_words block_version - 1) 0 < 2 ^ 32)
    (ht : ∀ i, i < 8 → ptarget.getD i 0 < 2 ^ 32)
    (hh : device_honest env pdata (scan_header_words block_version)
      (scrypt_N (scan_Nfactor jane_params pdata block_version)))
    (hnf : no_failure env)
    (hN : scan_Nfactor jane_params pdata block_version ≤ scrypt_maxN)
    (hT : 1 ≤ env.throughput)
    (hc : (pdata.getD (scan_header_words block_version - 1) 0 + env.throughput) % 2 ^ 32
      ≤ max_nonce)
    (hq : qualifies env pdata ptarget (scan_header_words block_version)
      (scrypt_N (scan_Nfactor jane_params pdata block_version))
      (pdata.getD (scan_header_words block_version - 1) 0) = true) :
    scanhash_scrypt_jane env jane_params pdata ptarget max_nonce block_version (fuel + 2)
      = some (.found
          (pdata.set (scan_header_words block_version - 1)
            (pdata.getD (scan_header_words block_version - 1) 0))
          ((2 * env.throughput) % 2 ^ 32) 0
          (scan_at env pdata (scan_header_words block_version) 1)) := by
  have hok : ∀ j, (scan_stage env (scan_header_words block_version)
      (scan_top env pdata (scan_header_words block_version) j)).2 = false :=
    stage_ok_of_no_failure env pdata _ hnf
  have hst : ∀ j, scan_stage env (scan_header_words block_version)
      (scan_top env pdata (scan_header_words block_version) j)
      = (scan_at env pdata (scan_header_words block_version) j, false) :=
    fun j => Prod.ext rfl (hok j)
  obtain ⟨hn0, _⟩ := scan_at_nonce env pdata _ hl hs 0 (fun j _ => hok j)
  obtain ⟨hn1, hc1⟩ := scan_at_nonce env pdata _ hl hs 1 (fun j _ => hok j)
  have hc1 := hc1 (by decide)
  rw [Nat.sub_self, Nat.zero_mul, Nat.add_zero, Nat.mod_eq_of_lt hs] at hc1
  rw [Nat.zero_add, Nat.one_mul] at hn0
  have hlan0 : scan_lanes env pdata ptarget (scan_header_words block_version)
      (scrypt_N (scan_Nfactor jane_params pdata block_version))
      (scan_at env pdata (scan_header_words block_version) 0) = none := by
    unfold scan_lanes
    rw [(scan_top_iteration env pdata _ 0).2, if_neg (by decide)]
  have hacc : lane_accepts env pdata ptarget (scan_header_words block_version)
      (scrypt_N (scan_Nfactor jane_params pdata block_version))
      (scan_at env pdata (scan_header_words block_version) 1) 0 = true := by
    rw [scan_at_accepts env pdata ptarget _ _ hl hs ht hh 1 0 (by decide) (by omega)
      (fun j _ => hok j), Nat.sub_self, Nat.zero_mul, Nat.add_zero,
      Nat.mod_eq_of_lt hs]
    exact hq
  have hlan1 : scan_lanes env pdata ptarget (scan_header_words block_version)
      (scrypt_N (scan_Nfactor jane_params pdata block_version))
      (scan_at env pdata (scan_header_words block_version) 1) = some 0 := by
    unfold scan_lanes
    rw [(scan_top_iteration env pdata _ 1).2, if_pos (by decide)]
    exact find_range_zero _ _ (by omega) hacc
  have hcond : (decide ((scan_at env pdata (scan_header_words block_version) 0).n ≤ max_nonce)
      && !env.restart (scan_at env pdata (scan_header_words block_version) 0).iteration)
      = true := by
    rw [hn0, (hnf _).2.2, Bool.not_false, Bool.and_true, decide_eq_true_eq]
    exact hc
  unfold scanhash_scrypt_jane
  simp only []
  rw [if_neg (by omega), if_neg (by omega)]
  show scan_loop env pdata ptarget max_nonce _ _ (fuel + 1 + 1)
    (scan_top env pdata (scan_header_words block_version) 0) = _
  rw [scan_loop_continue env pdata ptarget max_nonce _ _ (fuel + 1) _ _ (hst 0) hlan0 hcond]
  show scan_loop env pdata ptarget max_nonce _ _ (fuel + 1)
    (scan_top env pdata (scan_header_words block_version) 1) = _
  rw [scan_loop_accept env pdata ptarget max_nonce _ _ fuel _ _ 0 (hst 1) hlan1, hc1, hn1,
    Nat.add_zero, Nat.mod_eq_of_lt hs]
  have e : ((pdata.getD (scan_header_words block_version - 1) 0 + (1 + 1) * env.throughput)
      % 2 ^ 32 + 2 ^ 32 - pdata.getD (scan_header_words block_version - 1) 0) % 2 ^ 32
      = (2 * env.throughput) % 2 ^ 32 := by
    omega
  rw [e]

/-- A run whose counter exceeds `max_nonce` after the first iteration returns 0
without having compared any digest. -/
theorem scanhash_first_exit (env : scan_env) (jane_params : String)
    (pdata ptarget : List Nat) (max_nonce : Nat) (block_version : Int) (fuel : Nat)
    (hs : pdata.getD (scan_header_words block_version - 1) 0 < 2 ^ 32)
    (hN : scan_Nfactor jane_params pdata block_version ≤ scrypt_maxN)
    (hT : 1 ≤ env.throughput)
    (hc : max_nonce
      < (pdata.getD (scan_header_words block_version - 1) 0 + env.throughput) % 2 ^ 32) :
    scanhash_scrypt_jane env jane_params pdata ptarget max_nonce block_version (fuel + 1)
      = some (.exhausted
          (pdata.set (scan_header_words block_version - 1)
            ((pdata.getD (scan_header_words block_version - 1) 0 + env.throughput) % 2 ^ 32))
          (env.throughput % 2 ^ 32)) := by
  unfold scanhash_scrypt_jane
  simp only []
  rw [if_neg (by omega), if_neg (by omega), scan_loop]
  simp only []
  obtain ⟨hn, hi⟩ := scan_stage_n env (scan_header_words block_version)
    (scan_init env pdata (scan_header_words block_version)) hs
  have hn0 : (scan_init env pdata (scan_header_words block_version)).n
      = pdata.getD (scan_header_words block_version - 1) 0 := rfl
  have hi0 : (scan_init env pdata (scan_header_words block_version)).iteration = 0 := rfl
  rw [hn0] at hn
  rw [hi0] at hi
  have hd : ((pdata.getD (scan_header_words block_version - 1) 0 + env.throughput) % 2 ^ 32
      + 2 ^ 32 - pdata.getD (scan_header_words block_version - 1) 0) % 2 ^ 32
      = env.throughput % 2 ^ 32 := by
    omega
  split
  · unfold scan_exit
    rw [hn, hd]
  · have hsl : scan_lanes env pdata ptarget (scan_header_words block_version)
        (scrypt_N (scan_Nfactor jane_params pdata block_version))
        (scan_stage env (scan_header_words block_version)
          (scan_init env pdata (scan_header_words block_version))).1 = none := by
      unfold scan_lanes
      rw [hi, if_neg (by decide)]
    rw [hsl]
    simp only [hn]
    have hdec : decide ((pdata.getD (scan_header_words block_version - 1) 0 + env.throughput)
        % 2 ^ 32 ≤ max_nonce) = false := by
      rw [decide_eq_false_iff_not]; omega
    rw [hdec, Bool.false_and, if_neg (by decide)]
    unfold scan_exit
    simp only [hn, hd]
theorem qualifies_congr (env env2 : scan_env) (pdata ptarget : List Nat) (hw N v : Nat)
    (h : env.romix = env2.romix) :
    qualifies env pdata ptarget hw N v = qualifies env2 pdata ptarget hw N v := by
  unfold qualifies
  rw [cpu_digest_congr env env2 pdata hw N v h]

theorem sample_target_words : ∀ i, i < 8 → sample_target.getD i 0 < 2 ^ 32 := by
  decide

theorem sample_params :
    scan_header_words 1 = 20 ∧ scrypt_N (scan_Nfactor "" sample_header 1) = 32 ∧
    scan_Nfactor "" sample_header 1 ≤ scrypt_maxN ∧
    sample_header.getD (scan_header_words 1 - 1) 0 = 0 := by
  decide

theorem honest_env_sample (T : Nat) :
    device_honest (honest_env T) sample_header (scan_header_words 1)
      (scrypt_N (scan_Nfactor "" sample_header 1)) := by
  rw [sample_params.1, sample_params.2.1]
  exact honest_env_honest T

theorem sample_qualifies (env : scan_env) (pdata : List Nat) (hw N v : Nat) :
    qualifies env pdata sample_target hw N v = true :=
  (cpu_digest_easy env pdata hw N v).2.2

/-- Claim C12.  Whenever `scanhash_scrypt_jane` returns 1 with an honest device,
and the winning nonce `w = start + (iteration - 1) * throughput + lane` has not
wrapped past `2^32`, `w` is written to the caller's nonce word, its digest
satisfies the target, and no nonce `v` with `start <= v < w` has a digest that
satisfies the target. -/
theorem scanhash_first_qualifying (env : scan_env) (jane_params : String)
    (pdata ptarget : List Nat) (max_nonce : Nat) (block_version : Int) (fuel : Nat)
    (pdata2 : List Nat) (hd l : Nat) (st : scan_state)
    (hl : env.hash_init.length = 2)
    (hs : pdata.getD (scan_header_words block_version - 1) 0 < 2 ^ 32)
    (ht : ∀ i, i < 8 → ptarget.getD i 0 < 2 ^ 32)
    (hh : device_honest env pdata (scan_header_words block_version)
      (scrypt_N (scan_Nfactor jane_params pdata block_version)))
    (h : scanhash_scrypt_jane env jane_params pdata ptarget max_nonce block_version fuel
      = some (.found pdata2 hd l st))
    (hnw : pdata.getD (scan_header_words block_version - 1) 0
      + ((st.iteration - 1) * env.throughput + l) < 2 ^ 32) :
    pdata2 = pdata.set (scan_header_words block_version - 1)
      (pdata.getD (scan_header_words block_version - 1) 0
        + ((st.iteration - 1) * env.throughput + l)) ∧
    qualifies env pdata ptarget (scan_header_words block_version)
      (scrypt_N (scan_Nfactor jane_params pdata block_version))
      (pdata.getD (scan_header_words block_version - 1) 0
        + ((st.iteration - 1) * env.throughput + l)) = true ∧
    ∀ v, pdata.getD (scan_header_words block_version - 1) 0 ≤ v →
      v < pdata.getD (scan_header_words block_version - 1) 0
        + ((st.iteration - 1) * env.throughput + l) →
      qualifies env pdata ptarget (scan_header_words block_version)
        (scrypt_N (scan_Nfactor jane_params pdata block_version)) v = false := by
  obtain ⟨_, _, h3, h4, h5⟩ := scan_found_first env jane_params pdata ptarget max_nonce
    block_version fuel pdata2 hd l st hl hs ht hh h
  rw [Nat.mod_eq_of_lt hnw] at h3 h4
  refine ⟨h3, h4, ?_⟩
  intro v hv1 hv2
  have := h5 (v - pdata.getD (scan_header_words block_version - 1) 0) (by omega)
  rw [Nat.add_sub_cancel' hv1, Nat.mod_eq_of_lt (by omega)] at this
  exact this

/-- Claim C13 (amended).  Whenever `scanhash_scrypt_jane` returns 0 with an honest
device, no failed sync and no restart, it is because the assigned nonce exceeded
`max_nonce`; the caller's nonce word is advanced to `start + hashes_done`
(modulo `2^32`); and every nonce `v` of the attempted range except the last
`throughput` ones, `start <= v` and `v + throughput < start + hashes_done`, has
been compared against the target, so none of them has a digest that satisfies
the target.  The last batch is counted but was never compared. -/
theorem scanhash_exhausted_compared (env : scan_env) (jane_params : String)
    (pdata ptarget : List Nat) (max_nonce : Nat) (block_version : Int) (fuel : Nat)
    (pdata2 : List Nat) (hd : Nat)
    (hl : env.hash_init.length = 2)
    (hs : pdata.getD (scan_header_words block_version - 1) 0 < 2 ^ 32)
    (ht : ∀ i, i < 8 → ptarget.getD i 0 < 2 ^ 32)
    (hh : device_honest env pdata (scan_header_words block_version)
      (scrypt_N (scan_Nfactor jane_params pdata block_version)))
    (hnf : no_failure env)
    (h : scanhash_scrypt_jane env jane_params pdata ptarget max_nonce block_version fuel
      = some (.exhausted pdata2 hd)) :
    max_nonce < (pdata.getD (scan_header_words block_version - 1) 0 + hd) % 2 ^ 32 ∧
    pdata2 = pdata.set (scan_header_words block_version - 1)
      ((pdata.getD (scan_header_words block_version - 1) 0 + hd) % 2 ^ 32) ∧
    ∀ v, pdata.getD (scan_header_words block_version - 1) 0 ≤ v →
      v + env.throughput < pdata.getD (scan_header_words block_version - 1) 0 + hd →
      qualifies env pdata ptarget (scan_header_words block_version)
        (scrypt_N (scan_Nfactor jane_params pdata block_version)) (v % 2 ^ 32) = false := by
  obtain ⟨k, h1, h2, h3, h4⟩ := scan_exhausted_rejects env jane_params pdata ptarget max_nonce
    block_version fuel pdata2 hd hl hs ht hh hnf h
  have e : (pdata.getD (scan_header_words block_version - 1) 0 + hd) % 2 ^ 32
      = (pdata.getD (scan_header_words block_version - 1) 0 + (k + 1) * env.throughput)
          % 2 ^ 32 := by
    rw [h1, Nat.add_mod_mod]
  rw [e]
  refine ⟨h3, h2, ?_⟩
  intro v hv1 hv2
  have hle : hd ≤ (k + 1) * env.throughput := by rw [h1]; exact Nat.mod_le _ _
  have hsm : (k + 1) * env.throughput = k * env.throughput + env.throughput := Nat.succ_mul _ _
  have := h4 (v - pdata.getD (scan_header_words block_version - 1) 0) (by omega)
  rw [Nat.add_sub_cancel' hv1] at this
  exact this

/-- Claim C13 fails as stated: with one lane, start nonce 0 and `max_nonce = 0`
the call returns 0 with `*hashes_done = 1` and the nonce word advanced to 1, yet
nonce 0, the only one of the range `[0, 1)`, satisfies the target: it was staged
but never compared. -/
theorem scanhash_last_batch_not_compared :
    device_honest (honest_env 1) sample_header (scan_header_words 1)
      (scrypt_N (scan_Nfactor "" sample_header 1)) ∧
    no_failure (honest_env 1) ∧
    sample_header.getD (scan_header_words 1 - 1) 0 = 0 ∧
    scanhash_scrypt_jane (honest_env 1) "" sample_header sample_target 0 1 5
      = some (.exhausted (sample_header.set 19 1) 1) ∧
    qualifies (honest_env 1) sample_header sample_target (scan_header_words 1)
      (scrypt_N (scan_Nfactor "" sample_header 1)) 0 = true := by
  refine ⟨honest_env_sample 1, honest_env_no_failure 1, by decide, ?_, sample_qualifies _ _ _ _ _⟩
  exact scanhash_first_exit (honest_env 1) "" sample_header sample_target 0 1 4 (by decide)
    (by decide) (by decide) (by decide)

/-- Claim C11 (amended).  For every header, target, start nonce and `max_nonce`,
and two honest devices with the same reference mix and any throughputs, whenever
both runs of `scanhash_scrypt_jane` return 1 they report the same winning nonce,
found at the same offset from the start nonce.  (One run may return 0 where the
other returns 1: the batch staged last is not compared, and which batch that is
depends on the throughput.) -/
theorem scanhash_same_winner (env_a env_b : scan_env) (jane_params : String)
    (pdata ptarget : List Nat) (max_nonce : Nat) (block_version : Int) (fuel_a fuel_b : Nat)
    (pdata_a pdata_b : List Nat) (hd_a hd_b l_a l_b : Nat) (st_a st_b : scan_state)
    (hr : env_a.romix = env_b.romix)
    (hla : env_a.hash_init.length = 2) (hlb : env_b.hash_init.length = 2)
    (hs : pdata.getD (scan_header_words block_version - 1) 0 < 2 ^ 32)
    (ht : ∀ i, i < 8 → ptarget.getD i 0 < 2 ^ 32)
    (hha : device_honest env_a pdata (scan_header_words block_version)
      (scrypt_N (scan_Nfactor jane_params pdata block_version)))
    (hhb : device_honest env_b pdata (scan_header_words block_version)
      (scrypt_N (scan_Nfactor jane_params pdata block_version)))
    (ha : scanhash_scrypt_jane env_a jane_params pdata ptarget max_nonce block_version fuel_a
      = some (.found pdata_a hd_a l_a st_a))
    (hb : scanhash_scrypt_jane env_b jane_params pdata ptarget max_nonce block_version fuel_b
      = some (.found pdata_b hd_b l_b st_b)) :
    pdata_a = pdata_b ∧
    (st_a.iteration - 1) * env_a.throughput + l_a
      = (st_b.iteration - 1) * env_b.throughput + l_b := by
  obtain ⟨_, _, a3, a4, a5⟩ := scan_found_first env_a jane_params pdata ptarget max_nonce
    block_version fuel_a pdata_a hd_a l_a st_a hla hs ht hha ha
  obtain ⟨_, _, b3, b4, b5⟩ := scan_found_first env_b jane_params pdata ptarget max_nonce
    block_version fuel_b pdata_b hd_b l_b st_b hlb hs ht hhb hb
  have hoff : (st_a.iteration - 1) * env_a.throughput + l_a
      = (st_b.iteration - 1) * env_b.throughput + l_b := by
    rcases Nat.lt_trichotomy ((st_a.iteration - 1) * env_a.throughput + l_a)
      ((st_b.iteration - 1) * env_b.throughput + l_b) with hlt | heq | hgt
    · have := b5 _ hlt
      rw [← qualifies_congr env_a env_b _ _ _ _ _ hr, a4] at this
      exact absurd this (by decide)
    · exact heq
    · have := a5 _ hgt
      rw [qualifies_congr env_a env_b _ _ _ _ _ hr, b4] at this
      exact absurd this (by decide)
  refine ⟨?_, hoff⟩
  rw [a3, b3, hoff]

theorem scanhash_same_winner_witness :
    (honest_env 1).romix = (honest_env 2).romix ∧
    scanhash_scrypt_jane (honest_env 1) "" sample_header sample_target 10 1 (3 + 2)
      = some (.found
          (sample_header.set (scan_header_words 1 - 1)
            (sample_header.getD (scan_header_words 1 - 1) 0))
          ((2 * (honest_env 1).throughput) % 2 ^ 32) 0
          (scan_at (honest_env 1) sample_header (scan_header_words 1) 1)) ∧
    scanhash_scrypt_jane (honest_env 2) "" sample_header sample_target 10 1 (3 + 2)
      = some (.found
          (sample_header.set (scan_header_words 1 - 1)
            (sample_header.getD (scan_header_words 1 - 1) 0))
          ((2 * (honest_env 2).throughput) % 2 ^ 32) 0
          (scan_at (honest_env 2) sample_header (scan_header_words 1) 1)) ∧
    ((scan_at (honest_env 1) sample_header (scan_header_words 1) 1).iteration - 1)
        * (honest_env 1).throughput + 0
      = ((scan_at (honest_env 2) sample_header (scan_header_words 1) 1).iteration - 1)
        * (honest_env 2).throughput + 0 :=
  ⟨rfl,
   scanhash_found_at_start (honest_env 1) "" sample_header sample_target 10 1 3 rfl (by decide)
     sample_target_words (honest_env_sample 1) (honest_env_no_failure 1) (by decide)
     (by decide) (by decide) (sample_qualifies _ _ _ _ _),
   scanhash_found_at_start (honest_env 2) "" sample_header sample_target 10 1 3 rfl (by decide)
     sample_target_words (honest_env_sample 2) (honest_env_no_failure 2) (by decide)
     (by decide) (by decide) (sample_qualifies _ _ _ _ _),
   (scanhash_same_winner (honest_env 1) (honest_env 2) "" sample_header sample_target 10 1
     (3 + 2) (3 + 2) _ _ _ _ 0 0 _ _ rfl rfl rfl (by decide) sample_target_words
     (honest_env_sample 1) (honest_env_sample 2)
     (scanhash_found_at_start (honest_env 1) "" sample_header sample_target 10 1 3 rfl
       (by decide) sample_target_words (honest_env_sample 1) (honest_env_no_failure 1)
       (by decide) (by decide) (by decide) (sample_qualifies _ _ _ _ _))
     (scanhash_found_at_start (honest_env 2) "" sample_header sample_target 10 1 3 rfl
       (by decide) sample_target_words (honest_env_sample 2) (honest_env_no_failure 2)
       (by decide) (by decide) (by decide) (sample_qualifies _ _ _ _ _))).2⟩

/-- Claim C11 fails as stated: for the all-zero header, the easiest target, start
nonce 0 and `max_nonce = 1`, with honest devices and no failure, the run with
throughput 1 returns 1 with winning nonce 0 and the run with throughput 2
returns 0. -/
theorem scanhash_throughput_dependent :
    device_honest (honest_env 1) sample_header (scan_header_words 1)
      (scrypt_N (scan_Nfactor "" sample_header 1)) ∧
    device_honest (honest_env 2) sample_header (scan_header_words 1)
      (scrypt_N (scan_Nfactor "" sample_header 1)) ∧
    no_failure (honest_env 1) ∧ no_failure (honest_env 2) ∧
    (honest_env 1).throughput = 1 ∧ (honest_env 2).throughput = 2 ∧
    scanhash_scrypt_jane (honest_env 1) "" sample_header sample_target 1 1 5
      = some (.found (sample_header.set 19 0) 2 0 (scan_at (honest_env 1) sample_header 20 1)) ∧
    scanhash_scrypt_jane (honest_env 2) "" sample_header sample_target 1 1 5
      = some (.exhausted (sample_header.set 19 2) 2) := by
  refine ⟨honest_env_sample 1, honest_env_sample 2, honest_env_no_failure 1,
    honest_env_no_failure 2, rfl, rfl, ?_, ?_⟩
  · exact scanhash_found_at_start (honest_env 1) "" sample_header sample_target 1 1 3 rfl
      (by decide) sample_target_words (honest_env_sample 1) (honest_env_no_failure 1)
      (by decide) (by decide) (by decide) (sample_qualifies _ _ _ _ _)
  · exact scanhash_first_exit (honest_env 2) "" sample_header sample_target 1 1 4 (by decide)
      (by decide) (by decide) (by decide)

/-! ## The block count of `scrypt_pbkdf2_1` -/

theorem scrypt_pbkdf2_1_blocks (p s out : List Nat) (L : Nat) :
    scrypt_pbkdf2_1 p s out L
      = pbkdf2_loop (scrypt_hmac_update (scrypt_hmac_init p) s) (pbkdf2_blocks L)
          (pbkdf2_blocks L) 1 out 0 L := by
  rfl

/-- The 32-bit block count is `ceil(L / 64)` exactly for `L ≤ 2^32 - 64`. -/
theorem pbkdf2_blocks_iff (L : Nat) : pbkdf2_blocks L = (L + 63) / 64 ↔ L ≤ 2 ^ 32 - 64 := by
  unfold pbkdf2_blocks
  have e2 : SCRYPT_HASH_DIGEST_SIZE = 64 := rfl
  rw [e2]
  omega

theorem scrypt_pbkdf2_1_no_block (p s out : List Nat) (L : Nat) (h : pbkdf2_blocks L = 0) :
    scrypt_pbkdf2_1 p s out L = out := by
  rw [scrypt_pbkdf2_1_blocks, h]
  rfl

/-- Claim C22 (amended).  For every output length `L ≤ 2^32 - 64`, the precondition
the source documents, `scrypt_pbkdf2_1` computes exactly `ceil(L / 64)` HMAC
blocks and produces exactly `L` output bytes: the block count derived from the
32-bit truncation of the length plus 63 equals `ceil(L / 64)`, and it does so for
no larger length. -/
theorem scrypt_pbkdf2_1_block_count (p s out : List Nat) (L : Nat) (hL : L ≤ 2 ^ 32 - 64)
    (ho : L ≤ out.length) :
    pbkdf2_blocks L = (L + 63) / 64 ∧
    scrypt_pbkdf2_1 p s out L = spec_pbkdf2 p s L ++ out.drop L ∧
    (spec_pbkdf2 p s L).length = L ∧
    (scrypt_pbkdf2_1 p s out L).length = out.length ∧
    ∀ M, pbkdf2_blocks M = (M + 63) / 64 ↔ M ≤ 2 ^ 32 - 64 := by
  have h1 := scrypt_pbkdf2_1_out p s out L hL ho
  have h2 := spec_pbkdf2_length p s L
  refine ⟨(pbkdf2_blocks_iff L).mpr hL, h1, h2, ?_, pbkdf2_blocks_iff⟩
  rw [h1, List.length_append, h2, List.length_drop]
  omega

theorem scrypt_pbkdf2_1_block_count_witness :
    130 ≤ 2 ^ 32 - 64 ∧ 130 ≤ (List.replicate 200 7).length ∧
    pbkdf2_blocks 130 = 3 ∧
    (scrypt_pbkdf2_1 [1, 2, 3] [4, 5] (List.replicate 200 7) 130).length
      = (List.replicate 200 7).length :=
  ⟨by decide, by rw [List.length_replicate]; decide, by decide,
   (scrypt_pbkdf2_1_block_count [1, 2, 3] [4, 5] (List.replicate 200 7) 130 (by decide)
     (by rw [List.length_replicate]; decide)).2.2.2.1⟩

/-- Claim C22 fails as stated: `L = 2^32 - 1` satisfies `L ≤ 2^32 * 64`, yet the
32-bit sum `(uint32_t)L + 63` wraps to 62, the block count is 0 instead of
`ceil(L / 64) = 2^26`, and the output array is returned untouched. -/
theorem scrypt_pbkdf2_1_count_wraps :
    2 ^ 32 - 1 ≤ 2 ^ 32 * 64 ∧ pbkdf2_blocks (2 ^ 32 - 1) = 0 ∧
    (2 ^ 32 - 1 + 63) / 64 = 2 ^ 26 ∧
    pbkdf2_blocks (2 ^ 32 - 1) ≠ (2 ^ 32 - 1 + 63) / 64 ∧
    scrypt_pbkdf2_1 [1, 2, 3] [4, 5] (List.replicate 8 7) (2 ^ 32 - 1) = List.replicate 8 7 :=
  ⟨by decide, by decide, by decide, by decide,
   scrypt_pbkdf2_1_no_block _ _ _ _ (by decide)⟩

/-! ## The size of the scratch buffer -/

theorem scan_Vbuf_size_small (e : Nat) (h : e ≤ 23) : scan_Vbuf_size e = 128 * 2 ^ (e + 1) := by
  unfold scan_Vbuf_size
  rw [(scrypt_N_eq e (by omega)).1]
  have hlt : 2 ^ (e + 1) ≤ 2 ^ 24 := Nat.pow_le_pow_right (by decide) (by omega)
  omega

theorem scan_Vbuf_size_large (e : Nat) (h1 : 24 ≤ e) (h2 : e ≤ 30) : scan_Vbuf_size e = 0 := by
  unfold scan_Vbuf_size
  rw [(scrypt_N_eq e h2).1]
  obtain ⟨d, rfl⟩ : ∃ d, e = 24 + d := ⟨e - 24, by omega⟩
  have e1 : 2 ^ (24 + d + 1) * 128 = 2 ^ 32 * 2 ^ d := by
    rw [show 24 + d + 1 = 25 + d by omega, Nat.pow_add]
    have : (2 : Nat) ^ 25 * 128 = 2 ^ 32 := by decide
    rw [Nat.mul_right_comm, this]
  rw [e1, Nat.mul_mod_right]

/-- Claim C23, evaluated on the code: the 32-bit product `N * 128` passed to
`scrypt_alloc` equals `128 * 2^(e+1)` for every exponent `e <= 23`, and is 0 for
every accepted exponent `24 <= e <= 30`, where the mathematical value is at least
`2^32`; for `e = 24`, reached with the configuration string `24`, the request is
0 bytes instead of `2^32`.  The 64-bit product of `scryptjane_hash` has the
mathematical value for every accepted exponent. -/
theorem scan_Vbuf_size_wraps :
    (∀ e, e ≤ 23 → scan_Vbuf_size e = 128 * 2 ^ (e + 1)) ∧
    (∀ e, 24 ≤ e → e ≤ 30 → scan_Vbuf_size e = 0 ∧ 2 ^ 32 ≤ 128 * 2 ^ (e + 1)) ∧
    (∀ e, e ≤ 30 → hash_V_size e = 128 * 2 ^ (e + 1)) ∧
    scan_Nfactor "24" (List.replicate 20 0) 1 = 24 ∧ 24 ≤ scrypt_maxN ∧
    scan_Vbuf_size (scan_Nfactor "24" (List.replicate 20 0) 1) = 0 ∧
    128 * 2 ^ (24 + 1) = 2 ^ 32 := by
  refine ⟨scan_Vbuf_size_small, ?_, ?_, by decide, by decide, ?_, by decide⟩
  · intro e h1 h2
    refine ⟨scan_Vbuf_size_large e h1 h2, ?_⟩
    have : 2 ^ 25 ≤ 2 ^ (e + 1) := Nat.pow_le_pow_right (by decide) (by omega)
    omega
  · intro e h
    unfold hash_V_size
    rw [(scrypt_N_eq e h).1]
    have hlt : 2 ^ (e + 1) ≤ 2 ^ 31 := Nat.pow_le_pow_right (by decide) (by omega)
    omega
  · have h : scan_Nfactor "24" (List.replicate 20 0) 1 = 24 := by decide
    rw [h]
    exact scan_Vbuf_size_large 24 (by decide) (by decide)
/-! ## The padding of `scrypt_hash_finish` at the block boundary -/

theorem spec_pad_edges :
    spec_pad 71 = [0x81] ∧ spec_pad 0 = 0x01 :: (List.replicate 70 0 ++ [0x80]) := by
  decide

/-- Claim C25.  For a state that satisfies the invariant, `scrypt_hash_finish`
builds in the buffer the `leftover` buffered bytes followed by the padding and
applies exactly one `keccak_block` to it.  With 71 buffered bytes the final block
is these bytes followed by the single byte `0x81`; with none it is `0x01`, seventy
zero bytes, `0x80`; and for every leftover count the final block, the final lanes
and the digest depend only on the lanes and on the first `leftover` bytes of the
buffer, not on the stale bytes behind them. -/
theorem scrypt_hash_finish_padding (S S2 : scrypt_hash_state) (h : WF S) (h2 : WF S2)
    (hl : S2.leftover = S.leftover)
    (hb : S2.buffer.take S.leftover = S.buffer.take S.leftover) :
    (scrypt_hash_finish S).1.buffer.length = SCRYPT_HASH_BLOCK_SIZE ∧
    (scrypt_hash_finish S).1.buffer = S.buffer.take S.leftover ++ spec_pad S.leftover ∧
    (scrypt_hash_finish S).1.state = keccak_block S.state (scrypt_hash_finish S).1.buffer ∧
    (S.leftover = 71 → (scrypt_hash_finish S).1.buffer = S.buffer.take 71 ++ [0x81]) ∧
    (S.leftover = 0 →
      (scrypt_hash_finish S).1.buffer = 0x01 :: (List.replicate 70 0 ++ [0x80])) ∧
    (scrypt_hash_finish S2).1.buffer = (scrypt_hash_finish S).1.buffer ∧
    (S2.state = S.state → scrypt_hash_finish S2 = scrypt_hash_finish S) := by
  have e1 : (scrypt_hash_finish S).1.buffer = S.buffer.take S.leftover ++ spec_pad S.leftover :=
    finish_block_eq S h
  have e2 : (scrypt_hash_finish S2).1.buffer
      = S2.buffer.take S2.leftover ++ spec_pad S2.leftover := finish_block_eq S2 h2
  have e3 : (scrypt_hash_finish S2).1.buffer = (scrypt_hash_finish S).1.buffer := by
    rw [e1, e2, hl, hb]
  have hst : ∀ T : scrypt_hash_state,
      scrypt_hash_finish T
        = ({ state := keccak_block T.state (scrypt_hash_finish T).1.buffer,
             leftover := T.leftover, buffer := (scrypt_hash_finish T).1.buffer },
           spec_squeeze (keccak_block T.state (scrypt_hash_finish T).1.buffer)) :=
    fun _ => rfl
  have est : (scrypt_hash_finish S).1.state
      = keccak_block S.state (scrypt_hash_finish S).1.buffer := by
    simp only [scrypt_hash_finish]
  refine ⟨?_, e1, est, ?_, ?_, e3, ?_⟩
  · have hp : (S.buffer.take S.leftover).length = S.leftover := pending_length S h
    rw [e1, List.length_append, hp, spec_pad_length]
    have := h.2
    have e : SCRYPT_HASH_BLOCK_SIZE = 72 := by decide
    rw [e]
    omega
  · intro h71
    rw [e1, h71, spec_pad_edges.1]
  · intro h0
    rw [e1, h0, spec_pad_edges.2]
    rfl
  · intro hs
    rw [hst S2, hst S, e3, hs, hl]

theorem scrypt_hash_finish_padding_witness :
    WF scrypt_hash_init ∧
    WF { state := scrypt_hash_init.state, leftover := 0, buffer := List.replicate 72 9 } ∧
    (scrypt_hash_finish
        { state := scrypt_hash_init.state, leftover := 0, buffer := List.replicate 72 9 }).1.buffer
      = (scrypt_hash_finish scrypt_hash_init).1.buffer ∧
    (scrypt_hash_finish scrypt_hash_init).1.buffer = 0x01 :: (List.replicate 70 0 ++ [0x80]) :=
  ⟨scrypt_hash_init_WF, ⟨List.length_replicate _ _, by decide⟩,
   (scrypt_hash_finish_padding scrypt_hash_init
     { state := scrypt_hash_init.state, leftover := 0, buffer := List.replicate 72 9 }
     scrypt_hash_init_WF ⟨List.length_replicate _ _, by decide⟩ rfl rfl).2.2.2.2.2.1,
   (scrypt_hash_finish_padding scrypt_hash_init
     { state := scrypt_hash_init.state, leftover := 0, buffer := List.replicate 72 9 }
     scrypt_hash_init_WF ⟨List.length_replicate _ _, by decide⟩ rfl rfl).2.2.2.2.1 rfl⟩

/-! ## The exponent of the named profiles -/

theorem coin_table_min_small : ∀ e ∈ coin_table, e.2.2.2.1 ≤ 26 := by
  decide

theorem GetNfactor_schedule_le (ref mn mx t : Nat) (hmn : mn ≤ 26) :
    GetNfactor_schedule ref mn mx t ≤ 26 := by
  by_cases hb : t ≤ ref
  · rw [GetNfactor_schedule_before ref mn mx t hb]
    omega
  · have hle := nfactor_raw_le ((t - ref) % 2 ^ 32) (Nat.mod_lt _ (by decide))
    rw [GetNfactor_schedule_after ref mn mx t (by omega)]
    generalize nfactor_raw ((t - ref) % 2 ^ 32) = N at hle ⊢
    split
    · omega
    · split <;> omega

theorem halve_count_le_29 (s : Nat) (hs : s < 2 ^ 32) : (halve_loop s 0 s).1 ≤ 29 := by
  obtain ⟨k, h1, _, _, h4⟩ := halve_facts s hs
  rw [h1]
  exact h4

/-- Claim C26.  For every configuration that selects an entry of the coin table
(a coin name, or the default, which is the first entry) and every timestamp, the
exponent returned by `GetNfactor` is at most 26, hence at most 30: a 32-bit
difference is halved at most 29 times and the formula value is at most 26.  So
`scanhash_scrypt_jane` never ends in the fatal error for such a configuration,
whatever the header and the block version, also for the FreeCoin entry with
`maxN = 32`. -/
theorem GetNfactor_named_le (jane_params : String) (e : String × String × Nat × Nat × Nat)
    (he : e ∈ coin_table)
    (hsel : jane_select jane_params = .profile e.2.2.1 e.2.2.2.1 e.2.2.2.2) :
    (∀ s, s < 2 ^ 32 → (halve_loop s 0 s).1 ≤ 29 ∧ nfactor_raw s ≤ 26) ∧
    (∀ nTimestamp, GetNfactor jane_params nTimestamp ≤ 26 ∧
      GetNfactor jane_params nTimestamp ≤ scrypt_maxN) ∧
    (∀ pdata block_version, scan_Nfactor jane_params pdata block_version ≤ scrypt_maxN) ∧
    ∀ env pdata ptarget max_nonce block_version fuel,
      scanhash_scrypt_jane env jane_params pdata ptarget max_nonce block_version fuel
        ≠ some .fatal := by
  have hg : ∀ t, GetNfactor jane_params t ≤ 26 := by
    intro t
    rw [GetNfactor_of_profile jane_params t _ _ _ hsel]
    exact GetNfactor_schedule_le _ _ _ _ (coin_table_min_small e he)
  have hm : scrypt_maxN = 30 := rfl
  have hN : ∀ pdata block_version, scan_Nfactor jane_params pdata block_version ≤ scrypt_maxN := by
    intro pdata bv
    unfold scan_Nfactor
    rw [hm]
    split
    · have := hg (bswap_32x4 (pdata.getD 17 0))
      omega
    · decide
  refine ⟨fun s hs => ⟨halve_count_le_29 s hs, nfactor_raw_le s hs⟩, ?_, hN, ?_⟩
  · intro t
    have := hg t
    rw [hm]
    omega
  · intro env pdata ptarget max_nonce bv fuel hf
    unfold scanhash_scrypt_jane at hf
    simp only [] at hf
    rw [if_neg (by have := hN pdata bv; omega)] at hf
    split at hf
    · simp at hf
    · exact scan_loop_not_fatal _ _ _ _ _ _ _ _ hf

theorem GetNfactor_named_le_witness :
    ("FEC", "FreeCoin", 1375801200, 6, 32) ∈ coin_table ∧
    jane_select "freecoin" = .profile 1375801200 6 32 ∧
    GetNfactor "freecoin" 4294967295 ≤ 26 :=
  ⟨by decide, by decide,
   ((GetNfactor_named_le "freecoin" ("FEC", "FreeCoin", 1375801200, 6, 32) (by decide)
     (by decide)).2.1 4294967295).1⟩
/-! ## What the call writes to the caller's header -/

/-- Every outcome of the loop carries the caller's header with only the nonce word
rewritten; on `return 1` the word is the nonce of the accepted lane. -/
theorem scan_loop_writes (env : scan_env) (pdata ptarget : List Nat) (max_nonce hw N : Nat)
    (fuel : Nat) (res : scan_result)
    (h : scan_loop env pdata ptarget max_nonce hw N fuel (scan_init env pdata hw) = some res) :
    (∃ x, header_after pdata res = pdata.set (hw - 1) x) ∧
    ∀ p hd l st, res = .found p hd l st →
      p = pdata.set (hw - 1) ((st.nonce.getD st.cur 0 + l) % 2 ^ 32) := by
  have h0 : scan_loop env pdata ptarget max_nonce hw N fuel (scan_top env pdata hw 0)
      = some res := h
  obtain ⟨k, _, _, hend⟩ := scan_loop_trace env pdata ptarget max_nonce hw N fuel 0 res h0
  rcases hend with ⟨_, hres⟩ | ⟨_, i, _, hres⟩ | ⟨_, _, _, hres⟩
  · subst hres
    exact ⟨⟨_, rfl⟩, fun p hd l st hf => by simp [scan_exit] at hf⟩
  · subst hres
    refine ⟨⟨_, rfl⟩, ?_⟩
    intro p hd l st hf
    simp only [scan_result.found.injEq] at hf
    obtain ⟨e1, _, e3, e4⟩ := hf
    rw [← e1, ← e3, ← e4]
  · subst hres
    exact ⟨⟨_, rfl⟩, fun p hd l st hf => by simp [scan_exit] at hf⟩

/-- Claim C21.  In every outcome of `scanhash_scrypt_jane` the caller's header keeps
its length and every word other than the nonce word, which is word 19 of an
80-byte header and word 20 of an 84-byte header; on `return 1` the nonce word
holds exactly the winning nonce `nonce[cur] + i`.  The target is only read: it is
an argument of the call and no outcome carries it. -/
theorem scanhash_frame (env : scan_env) (jane_params : String)
    (pdata ptarget : List Nat) (max_nonce : Nat) (block_version : Int) (fuel : Nat)
    (res : scan_result)
    (h : scanhash_scrypt_jane env jane_params pdata ptarget max_nonce block_version fuel
      = some res) :
    (header_after pdata res).length = pdata.length ∧
    (∀ z, z ≠ scan_header_words block_version - 1 →
      (header_after pdata res).getD z 0 = pdata.getD z 0) ∧
    scan_header_words block_version - 1 = (if block_version < 7 then 19 else 20) ∧
    ∀ p hd l st, res = .found p hd l st →
      header_after pdata res = p ∧
      p = pdata.set (scan_header_words block_version - 1)
        ((st.nonce.getD st.cur 0 + l) % 2 ^ 32) ∧
      (scan_header_words block_version - 1 < pdata.length →
        p.getD (scan_header_words block_version - 1) 0
          = (st.nonce.getD st.cur 0 + l) % 2 ^ 32) := by
  have hw : scan_header_words block_version - 1 = (if block_version < 7 then 19 else 20) := by
    unfold scan_header_words
    split <;> rfl
  have hshape : (∃ x, header_after pdata res
        = pdata.set (scan_header_words block_version - 1) x) ∨ header_after pdata res = pdata := by
    unfold scanhash_scrypt_jane at h
    simp only [] at h
    split at h
    · right
      rw [← Option.some.inj h]
      rfl
    · split at h
      · right
        rw [← Option.some.inj h]
        rfl
      · left
        exact (scan_loop_writes env pdata ptarget max_nonce _ _ fuel res h).1
  have hfound : ∀ p hd l st, res = .found p hd l st →
      p = pdata.set (scan_header_words block_version - 1)
        ((st.nonce.getD st.cur 0 + l) % 2 ^ 32) := by
    intro p hd l st hf
    unfold scanhash_scrypt_jane at h
    simp only [] at h
    split at h
    · rw [hf] at h; simp at h
    · split at h
      · rw [hf] at h; simp at h
      · exact (scan_loop_writes env pdata ptarget max_nonce _ _ fuel res h).2 p hd l st hf
  refine ⟨?_, ?_, hw, ?_⟩
  · rcases hshape with ⟨x, hx⟩ | hx
    · rw [hx, List.length_set]
    · rw [hx]
  · intro z hz
    rcases hshape with ⟨x, hx⟩ | hx
    · rw [hx]
      exact getD_set_other _ _ _ _ _ (fun hc => hz hc.symm)
    · rw [hx]
  · intro p hd l st hf
    have hp := hfound p hd l st hf
    refine ⟨by rw [hf]; rfl, hp, ?_⟩
    intro hlt
    rw [hp]
    exact getD_set_same _ _ _ _ hlt

theorem scanhash_frame_witness :
    scanhash_scrypt_jane (sample_env sample_digest) "" sample_header sample_target 10 1 5
      = some (.found sample_header 2 0 sample_state) ∧
    (header_after sample_header (.found sample_header 2 0 sample_state)).length
      = sample_header.length ∧
    scan_header_words 1 - 1 = (if (1 : Int) < 7 then 19 else 20) :=
  ⟨sample_run_found,
   (scanhash_frame (sample_env sample_digest) "" sample_header sample_target 10 1 5 _
     sample_run_found).1,
   (scanhash_frame (sample_env sample_digest) "" sample_header sample_target 10 1 5 _
     sample_run_found).2.2.1⟩
/-! ## Termination of the search loop -/

/-- One iteration that neither breaks nor accepts a lane, with the loop condition
false, leaves the loop. -/
theorem scan_loop_leave (env : scan_env) (pdata ptarget : List Nat) (max_nonce hw N : Nat)
    (fuel : Nat) (st st1 : scan_state) (h1 : scan_stage env hw st = (st1, false))
    (h2 : scan_lanes env pdata ptarget hw N st1 = none)
    (h3 : (decide (st1.n ≤ max_nonce) && !env.restart st1.iteration) = false) :
    scan_loop env pdata ptarget max_nonce hw N (fuel + 1) st
      = some (scan_exit pdata hw (scan_flip st1)) := by
  rw [scan_loop]
  simp only [h1, h2]
  rw [if_neg (by decide), if_neg (by rw [h3]; decide)]
  rfl

theorem scan_quiet_step (env : scan_env) (pdata ptarget : List Nat) (max_nonce hw N : Nat)
    (fuel it : Nat) (hq : scan_quiet env pdata ptarget max_nonce hw N it) :
    scan_loop env pdata ptarget max_nonce hw N (fuel + 1) (scan_top env pdata hw it)
      = scan_loop env pdata ptarget max_nonce hw N fuel (scan_top env pdata hw (it + 1)) := by
  obtain ⟨h1, h2, h3⟩ := hq
  rw [scan_loop_continue env pdata ptarget max_nonce hw N fuel _
    (scan_at env pdata hw it) (Prod.ext rfl h1) h2 h3]
  rfl

/-- The iterations that pass without an event use one unit of the bound each. -/
theorem scan_quiet_run (env : scan_env) (pdata ptarget : List Nat) (max_nonce hw N : Nat)
    (k : Nat) : ∀ fuel, (∀ j, j < k → scan_quiet env pdata ptarget max_nonce hw N j) →
    scan_loop env pdata ptarget max_nonce hw N (fuel + k) (scan_top env pdata hw 0)
      = scan_loop env pdata ptarget max_nonce hw N fuel (scan_top env pdata hw k) := by
  induction k with
  | zero => intro fuel _; rfl
  | succ m ih =>
    intro fuel hq
    have e : fuel + (m + 1) = (fuel + 1) + m := by omega
    rw [e, ih (fuel + 1) (fun j hj => hq j (by omega)),
      scan_quiet_step env pdata ptarget max_nonce hw N fuel m (hq m (by omega))]

/-- A loop in which every iteration passes without an event never ends: for every
bound on the number of iterations the bound is used up. -/
theorem scan_quiet_forever (env : scan_env) (pdata ptarget : List Nat) (max_nonce hw N : Nat)
    (hq : ∀ j, scan_quiet env pdata ptarget max_nonce hw N j) :
    ∀ fuel it, scan_loop env pdata ptarget max_nonce hw N fuel (scan_top env pdata hw it)
      = none := by
  intro fuel
  induction fuel with
  | zero => intro it; rfl
  | succ f ih =>
    intro it
    rw [scan_quiet_step env pdata ptarget max_nonce hw N f it (hq it)]
    exact ih (it + 1)

/-- With no lane accepted, no failed sync, no restart, `start ≤ max_nonce` and
`max_nonce + throughput < 2^32`, the loop leaves after iteration
`(max_nonce - start) / throughput`, the first one whose counter exceeds
`max_nonce`. -/
theorem scan_loop_exhausts (env : scan_env) (pdata ptarget : List Nat) (max_nonce hw N : Nat)
    (fuel : Nat)
    (hl : env.hash_init.length = 2) (hT : 1 ≤ env.throughput)
    (hle : pdata.getD (hw - 1) 0 ≤ max_nonce)
    (hwrap : max_nonce + env.throughput < 2 ^ 32)
    (hnf : no_failure env)
    (hno : ∀ it, scan_lanes env pdata ptarget hw N (scan_at env pdata hw it) = none)
    (hfuel : (max_nonce - pdata.getD (hw - 1) 0) / env.throughput < fuel) :
    scan_loop env pdata ptarget max_nonce hw N fuel (scan_init env pdata hw)
      = some (.exhausted
          (pdata.set (hw - 1) (pdata.getD (hw - 1) 0
            + ((max_nonce - pdata.getD (hw - 1) 0) / env.throughput + 1) * env.throughput))
          (((max_nonce - pdata.getD (hw - 1) 0) / env.throughput + 1) * env.throughput)) ∧
    max_nonce < pdata.getD (hw - 1) 0
      + ((max_nonce - pdata.getD (hw - 1) 0) / env.throughput + 1) * env.throughput ∧
    pdata.getD (hw - 1) 0
      + ((max_nonce - pdata.getD (hw - 1) 0) / env.throughput + 1) * env.throughput < 2 ^ 32 := by
  have hs : pdata.getD (hw - 1) 0 < 2 ^ 32 := by omega
  generalize hK : (max_nonce - pdata.getD (hw - 1) 0) / env.throughput = K at hfuel ⊢
  have hK1 : K * env.throughput ≤ max_nonce - pdata.getD (hw - 1) 0 := by
    rw [← hK]; exact Nat.div_mul_le_self _ _
  have hK2 : max_nonce - pdata.getD (hw - 1) 0 < (K + 1) * env.throughput := by
    have : (max_nonce - pdata.getD (hw - 1) 0) / env.throughput < K + 1 := by omega
    exact (Nat.div_lt_iff_lt_mul (by omega)).mp this
  have hsucc : (K + 1) * env.throughput = K * env.throughput + env.throughput :=
    Nat.succ_mul _ _
  have hok : ∀ j, (scan_stage env hw (scan_top env pdata hw j)).2 = false :=
    stage_ok_of_no_failure env pdata hw hnf
  have hn : ∀ j, (scan_at env pdata hw j).n
      = (pdata.getD (hw - 1) 0 + (j + 1) * env.throughput) % 2 ^ 32 :=
    fun j => (scan_at_nonce env pdata hw hl hs j (fun i _ => hok i)).1
  have hquiet : ∀ j, j < K → scan_quiet env pdata ptarget max_nonce hw N j := by
    intro j hj
    refine ⟨hok j, hno j, ?_⟩
    unfold scan_cond
    have hmul : (j + 1) * env.throughput ≤ K * env.throughput :=
      Nat.mul_le_mul_right _ (by omega)
    rw [hn j, (hnf _).2.2, Bool.not_false, Bool.and_true, decide_eq_true_eq,
      Nat.mod_eq_of_lt (by omega)]
    omega
  obtain ⟨f, rfl⟩ : ∃ f, fuel = (f + 1) + K := ⟨fuel - K - 1, by omega⟩
  have h0 : scan_init env pdata hw = scan_top env pdata hw 0 := rfl
  have hcond : (decide ((scan_at env pdata hw K).n ≤ max_nonce)
      && !env.restart (scan_at env pdata hw K).iteration) = false := by
    rw [hn K, (hnf _).2.2, Bool.not_false, Bool.and_true, decide_eq_false_iff_not,
      Nat.mod_eq_of_lt (by omega)]
    omega
  refine ⟨?_, by omega, by omega⟩
  rw [h0, scan_quiet_run env pdata ptarget max_nonce hw N K (f + 1) hquiet,
    scan_loop_leave env pdata ptarget max_nonce hw N f _ (scan_at env pdata hw K)
      (Prod.ext rfl (hok K)) (hno K) hcond]
  unfold scan_exit
  have hn2 : (scan_flip (scan_at env pdata hw K)).n = (scan_at env pdata hw K).n := rfl
  rw [hn2, hn K, Nat.mod_eq_of_lt (by omega)]
  have hd : (pdata.getD (hw - 1) 0 + (K + 1) * env.throughput + 2 ^ 32
      - pdata.getD (hw - 1) 0) % 2 ^ 32 = (K + 1) * env.throughput := by
    omega
  rw [hd]

/-- Claim C24 (amended).  For every start nonce and `max_nonce` with
`start ≤ max_nonce` and `max_nonce + throughput < 2^32`, and throughput at least
1, if no lane ever yields an accepted candidate, no sync fails and the restart
flag is never set, the loop of `scanhash_scrypt_jane` terminates: after
`(max_nonce - start) / throughput + 1` iterations the call returns 0, the counter
`n = start + hashes_done` exceeds `max_nonce` and has not wrapped. -/
theorem scanhash_terminates (env : scan_env) (jane_params : String)
    (pdata ptarget : List Nat) (max_nonce : Nat) (block_version : Int) (fuel : Nat)
    (hl : env.hash_init.length = 2)
    (hN : scan_Nfactor jane_params pdata block_version ≤ scrypt_maxN)
    (hT : 1 ≤ env.throughput)
    (hle : pdata.getD (scan_header_words block_version - 1) 0 ≤ max_nonce)
    (hwrap : max_nonce + env.throughput < 2 ^ 32)
    (hnf : no_failure env)
    (hno : ∀ it, scan_lanes env pdata ptarget (scan_header_words block_version)
      (scrypt_N (scan_Nfactor jane_params pdata block_version))
      (scan_at env pdata (scan_header_words block_version) it) = none)
    (hfuel : (max_nonce - pdata.getD (scan_header_words block_version - 1) 0)
      / env.throughput < fuel) :
    scanhash_scrypt_jane env jane_params pdata ptarget max_nonce block_version fuel
      = some (.exhausted
          (pdata.set (scan_header_words block_version - 1)
            (pdata.getD (scan_header_words block_version - 1) 0
              + ((max_nonce - pdata.getD (scan_header_words block_version - 1) 0)
                  / env.throughput + 1) * env.throughput))
          (((max_nonce - pdata.getD (scan_header_words block_version - 1) 0)
              / env.throughput + 1) * env.throughput)) ∧
    max_nonce < pdata.getD (scan_header_words block_version - 1) 0
      + ((max_nonce - pdata.getD (scan_header_words block_version - 1) 0)
          / env.throughput + 1) * env.throughput ∧
    pdata.getD (scan_header_words block_version - 1) 0
      + ((max_nonce - pdata.getD (scan_header_words block_version - 1) 0)
          / env.throughput + 1) * env.throughput < 2 ^ 32 := by
  obtain ⟨h1, h2, h3⟩ := scan_loop_exhausts env pdata ptarget max_nonce
    (scan_header_words block_version) (scrypt_N (scan_Nfactor jane_params pdata block_version))
    fuel hl hT hle hwrap hnf hno hfuel
  refine ⟨?_, h2, h3⟩
  unfold scanhash_scrypt_jane
  simp only []
  rw [if_neg (by omega), if_neg (by omega)]
  exact h1

theorem reject_env_lanes : ∀ it,
    scan_lanes reject_env sample_header zero_target 20 32
      (scan_at reject_env sample_header 20 it) = none := by
  intro it
  have hok : ∀ j, j ≤ it →
      (scan_stage reject_env 20 (scan_top reject_env sample_header 20 j)).2 = false :=
    fun j _ => stage_ok_of_sync reject_env 20 _ rfl rfl
  have hiter := (scan_top_iteration reject_env sample_header 20 it).2
  unfold scan_lanes
  by_cases h0 : it = 0
  · rw [hiter, h0, if_neg (by decide)]
  · rw [hiter, if_pos (by omega)]
    obtain ⟨_, _, _, _, _, _, _, hc, _⟩ :=
      scan_at_mid reject_env sample_header 20 rfl (by decide) it hok
    have hcur := hc (by decide) (by rw [hiter]; omega)
    have hlane : lane_hash (scan_at reject_env sample_header 20 it) 0
        = [1, 0, 0, 0, 0, 0, 0, 0] := by
      unfold lane_hash
      rw [hcur]
      rfl
    have hrej : lane_accepts reject_env sample_header zero_target 20 32
        (scan_at reject_env sample_header 20 it) 0 = false := by
      unfold lane_accepts
      simp only []
      rw [hlane, if_neg (by decide)]
    rw [List.find?_eq_none]
    intro i hi
    have hi0 : i = 0 := by
      have := List.mem_range.mp hi
      have ht : reject_env.throughput = 1 := rfl
      omega
    rw [hi0, hrej]
    decide

theorem reject_env_quiet : ∀ j,
    scan_quiet reject_env sample_header zero_target (2 ^ 32 - 1) 20 32 j := by
  intro j
  have hok : ∀ i, (scan_stage reject_env 20 (scan_top reject_env sample_header 20 i)).2 = false :=
    fun i => stage_ok_of_sync reject_env 20 _ rfl rfl
  refine ⟨hok j, reject_env_lanes j, ?_⟩
  unfold scan_cond
  have hn := (scan_at_nonce reject_env sample_header 20 rfl (by decide) j (fun i _ => hok i)).1
  have hlt : (scan_at reject_env sample_header 20 j).n < 2 ^ 32 := by
    rw [hn]; exact Nat.mod_lt _ (by decide)
  have hr : reject_env.restart (scan_at reject_env sample_header 20 j).iteration = false := rfl
  rw [hr, Bool.not_false, Bool.and_true, decide_eq_true_eq]
  omega

theorem reject_env_sample : ∀ it,
    scan_lanes reject_env sample_header zero_target (scan_header_words 1)
      (scrypt_N (scan_Nfactor "" sample_header 1))
      (scan_at reject_env sample_header (scan_header_words 1) it) = none := by
  rw [sample_params.1, sample_params.2.1]
  exact reject_env_lanes

theorem scanhash_terminates_witness :
    reject_env.hash_init.length = 2 ∧
    scan_Nfactor "" sample_header 1 ≤ scrypt_maxN ∧ 1 ≤ reject_env.throughput ∧
    sample_header.getD (scan_header_words 1 - 1) 0 ≤ 5 ∧
    5 + reject_env.throughput < 2 ^ 32 ∧ no_failure reject_env ∧
    (5 - sample_header.getD (scan_header_words 1 - 1) 0) / reject_env.throughput < 7 ∧
    5 < sample_header.getD (scan_header_words 1 - 1) 0
      + ((5 - sample_header.getD (scan_header_words 1 - 1) 0) / reject_env.throughput + 1)
        * reject_env.throughput :=
  ⟨rfl, by decide, by decide, by decide, by decide, fun _ => ⟨rfl, rfl, rfl⟩, by decide,
   (scanhash_terminates reject_env "" sample_header zero_target 5 1 7 rfl (by decide)
     (by decide) (by decide) (by decide) (fun _ => ⟨rfl, rfl, rfl⟩) reject_env_sample
     (by decide)).2.1⟩

/-- Claim C24 fails as stated: with start nonce 0, `max_nonce = 2^32 - 1`, one lane,
a device whose digests never meet the target, no failed sync and no restart, the
counter `n` wraps and never exceeds `max_nonce`: whatever the bound on the number
of iterations, the loop has not ended. -/
theorem scanhash_never_exhausts :
    sample_header.getD (scan_header_words 1 - 1) 0 ≤ 2 ^ 32 - 1 ∧
    1 ≤ reject_env.throughput ∧ no_failure reject_env ∧
    (∀ it, scan_lanes reject_env sample_header zero_target (scan_header_words 1)
      (scrypt_N (scan_Nfactor "" sample_header 1))
      (scan_at reject_env sample_header (scan_header_words 1) it) = none) ∧
    ∀ fuel, scanhash_scrypt_jane reject_env "" sample_header zero_target (2 ^ 32 - 1) 1 fuel
      = none := by
  refine ⟨by decide, by decide, fun _ => ⟨rfl, rfl, rfl⟩, reject_env_sample, ?_⟩
  intro fuel
  unfold scanhash_scrypt_jane
  simp only []
  rw [if_neg (by decide), if_neg (by decide), sample_params.1, sample_params.2.1]
  exact scan_quiet_forever reject_env sample_header zero_target (2 ^ 32 - 1) 20 32
    reject_env_quiet fuel 0

/-! ## Two digests of the sample header, evaluated block by block -/

theorem scrypt_hash_two (b1 t : List Nat) (h1 : b1.length = 72) (ht : t.length < 72) :
    scrypt_hash (b1 ++ t)
      = spec_squeeze (keccak_block (keccak_block zero_state b1)
          (t ++ spec_pad (72 + t.length))) := by
  rw [scrypt_hash_eq_absorbed, (absorbed_block_append zero_state b1 t h1).1,
    (absorbed_block_append zero_state b1 t h1).2, absorbed_of_short _ t ht, rest_of_short t ht,
    List.length_append, h1]

theorem scrypt_hash_three (b1 b2 t : List Nat) (h1 : b1.length = 72) (h2 : b2.length = 72)
    (ht : t.length < 72) :
    scrypt_hash (b1 ++ (b2 ++ t))
      = spec_squeeze (keccak_block (keccak_block (keccak_block zero_state b1) b2)
          (t ++ spec_pad (144 + t.length))) := by
  have e : (b1 ++ (b2 ++ t)).length = 144 + t.length := by
    rw [List.length_append, List.length_append, h1, h2]
    omega
  rw [scrypt_hash_eq_absorbed, (absorbed_block_append zero_state b1 (b2 ++ t) h1).1,
    (absorbed_block_append zero_state b1 (b2 ++ t) h1).2,
    (absorbed_block_append _ b2 t h2).1, (absorbed_block_append (keccak_block zero_state b1) b2 t h2).2,
    absorbed_of_short _ t ht, rest_of_short t ht, e]

/-- The digest recomputed on the CPU is the first 32 bytes of one HMAC, keyed with
the header, over the mixed buffer and the block counter 1. -/
theorem cpu_digest_hmac (env : scan_env) (pdata : List Nat) (hw N w : Nat) :
    cpu_digest env pdata hw N w
      = bytes_to_words ((spec_hmac (words_to_bytes (tdata_of pdata hw w))
          (env.romix (scrypt_pbkdf2_1 (words_to_bytes (tdata_of pdata hw w))
            (words_to_bytes (tdata_of pdata hw w)) (List.replicate 128 0) 128) N
            ++ U32TO8_BE 1)).take 32) := by
  unfold cpu_digest
  simp only []
  generalize words_to_bytes (tdata_of pdata hw w) = tdata
  generalize env.romix (scrypt_pbkdf2_1 tdata tdata (List.replicate 128 0) 128) N = X
  rw [scrypt_pbkdf2_1_out tdata X _ 32 (by decide) (by simp)]
  have e1 : (List.replicate 32 0).drop 32 = ([] : List Nat) := by
    apply List.drop_of_length_le
    simp
  have e2 : spec_pbkdf2 tdata X 32 = (scrypt_hmac tdata (X ++ U32TO8_BE 1)).take 32 := by
    unfold spec_pbkdf2
    have : (32 + 63) / 64 = 0 + 1 := by decide
    rw [this, spec_pbkdf2_stream_succ]
    simp [spec_pbkdf2_stream]
  rw [e1, List.append_nil, e2, scrypt_hmac_eq]

theorem sample_message :
    List.replicate 128 0 ++ U32TO8_BE 1
      = List.replicate 72 0 ++ (List.replicate 56 0 ++ [0, 0, 0, 1]) := by
  decide

theorem sample_lanes_zero : keccak_block zero_state (List.replicate 72 0)
    = [17376452488221285863, 9571781953733019530, 15391093639620504046,
     13624874521033984333, 10027350355371872343, 18417369716475457492,
     10448040663659726788, 10113917136857017974, 12479658147685402012,
     3500241080921619556, 16959053435453822517, 12224711289652453635,
     9342009439668884831, 4879704952849025062, 140226327413610143,
     424854978622500449, 7259519967065370866, 7004910057750291985,
     13293599522548616907, 10105770293752443592, 10668034807192757780,
     1747952066141424100, 1654286879329379778, 8500057116360352059,
     16929593379567477321] := by
  decide!


theorem sample_key_lanes_0 : keccak_block (keccak_block zero_state (List.replicate 72 0))
      [0, 0, 0, 0, 0, 0, 0, 0, 1, 0, 0, 0, 0, 0, 0, 0, 0, 0, 0, 0, 0, 0, 0, 0,
       0, 0, 0, 0, 0, 0, 0, 0, 0, 0, 0, 0, 0, 0, 0, 0, 0, 0, 0, 0, 0, 0, 0, 0,
       0, 0, 0, 0, 0, 0, 0, 0, 0, 0, 0, 0, 0, 0, 0, 0, 0, 0, 0, 0, 0, 0, 0, 128]
    = [9530094283650009685, 17403586516366298570, 18028375445718805279,
     9181091118761579748, 3839417536120203777, 5757254258780978789,
     12111486899424042821, 9068024528238042412, 14966549673582808556,
     11739125902597945135, 1807347691954196466, 12579755883166396319,
     12781949376824880450, 1601339957473494828, 9668124833948443380,
     13623162642040821475, 1098466472309979137, 4490283722625146189,
     13491751680648747935, 10519709219813733366, 1768033017050069933,
     8335950911518365789, 8063529822390438773, 5252682300697537706,
     15917846652849669951] := by
  rw [sample_lanes_zero]
  decide!

theorem sample_key_0 : scrypt_hash (List.replicate 72 0 ++ [0, 0, 0, 0, 0, 0, 0, 0])
    = [85, 138, 240, 36, 66, 178, 65, 132, 202, 141, 202, 125, 186, 245, 133, 241,
       31, 171, 113, 15, 243, 167, 49, 250, 228, 20, 71, 160, 186, 201, 105, 127,
       1, 170, 217, 48, 232, 89, 72, 53, 101, 190, 62, 192, 62, 224, 229, 79,
       69, 159, 247, 101, 42, 165, 20, 168, 44, 93, 40, 148, 67, 24, 216, 125] := by
  rw [scrypt_hash_two _ _ (List.length_replicate _ _) (by decide)]
  have hb : [0, 0, 0, 0, 0, 0, 0, 0] ++ spec_pad (72 + ([0, 0, 0, 0, 0, 0, 0, 0] : List Nat).length)
      = [0, 0, 0, 0, 0, 0, 0, 0, 1, 0, 0, 0, 0, 0, 0, 0, 0, 0, 0, 0, 0, 0, 0, 0,
       0, 0, 0, 0, 0, 0, 0, 0, 0, 0, 0, 0, 0, 0, 0, 0, 0, 0, 0, 0, 0, 0, 0, 0,
       0, 0, 0, 0, 0, 0, 0, 0, 0, 0, 0, 0, 0, 0, 0, 0, 0, 0, 0, 0, 0, 0, 0, 128] := by
    decide
  rw [hb, sample_key_lanes_0]
  decide

theorem sample_inner_lanes1_0 : keccak_block zero_state
      [99, 188, 198, 18, 116, 132, 119, 178, 252, 187, 252, 75, 140, 195, 179, 199,
       41, 157, 71, 57, 197, 145, 7, 204, 210, 34, 113, 150, 140, 255, 95, 73,
       55, 156, 239, 6, 222, 111, 126, 3, 83, 136, 8, 246, 8, 214, 211, 121,
       115, 169, 193, 83, 28, 147, 34, 158, 26, 107, 30, 162, 117, 46, 238, 75,
       54, 54, 54, 54, 54, 54, 54, 54]
    = [10594622466322159100, 17900857113587441079, 13369869882458639642,
     117233348409067131, 7135549565453949518, 1720795105443489219,
     9019838802465662779, 4965659268921349704, 1317398549250153355,
     6850875823133067045, 12687124597976749607, 17135309540413181213,
     9594722487750048476, 5547989525609444917, 2296848795587824837,
     15538595910644875864, 2944372831262854264, 10239325248596658921,
     11147501821411163459, 14301217668113888082, 11955089586033690942,
     4940697025349279214, 6807635325143946243, 3789973291100440962,
     8395690935393069417] := by
  decide!

theorem sample_inner_lanes2_0 : keccak_block (keccak_block zero_state
      [99, 188, 198, 18, 116, 132, 119, 178, 252, 187, 252, 75, 140, 195, 179, 199,
       41, 157, 71, 57, 197, 145, 7, 204, 210, 34, 113, 150, 140, 255, 95, 73,
       55, 156, 239, 6, 222, 111, 126, 3, 83, 136, 8, 246, 8, 214, 211, 121,
       115, 169, 193, 83, 28, 147, 34, 158, 26, 107, 30, 162, 117, 46, 238, 75,
       54, 54, 54, 54, 54, 54, 54, 54]) (List.replicate 72 0)
    = [17850957616385096518, 3813360983047454340, 6805521078399598059,
     2608450316462182260, 2866949620568425052, 15020147348457914260,
     7008698976733007048, 13816134827102638168, 6995774084145480723,
     11347131376055378322, 15678583487758839441, 2139773260710784673,
     3216137701840588390, 14666014146412108142, 3519687802206220135,
     1035644382523647825, 4249346651809989621, 4799677058120756900,
     12332781578118877817, 893339973650364051, 13511800427796220992,
     15825846795024337740, 2884463924571210061, 6188993206304821176,
     15280228364233840199] := by
  rw [sample_inner_lanes1_0]
  decide!

theorem sample_inner_lanes3_0 : keccak_block (keccak_block (keccak_block zero_state
      [99, 188, 198, 18, 116, 132, 119, 178, 252, 187, 252, 75, 140, 195, 179, 199,
       41, 157, 71, 57, 197, 145, 7, 204, 210, 34, 113, 150, 140, 255, 95, 73,
       55, 156, 239, 6, 222, 111, 126, 3, 83, 136, 8, 246, 8, 214, 211, 121,
       115, 169, 193, 83, 28, 147, 34, 158, 26, 107, 30, 162, 117, 46, 238, 75,
       54, 54, 54, 54, 54, 54, 54, 54]) (List.replicate 72 0))
      [0, 0, 0, 0, 0, 0, 0, 0, 0, 0, 0, 0, 0, 0, 0, 0, 0, 0, 0, 0, 0, 0, 0, 0,
       0, 0, 0, 0, 0, 0, 0, 0, 0, 0, 0, 0, 0, 0, 0, 0, 0, 0, 0, 0, 0, 0, 0, 0,
       0, 0, 0, 0, 0, 0, 0, 0, 0, 0, 0, 1, 1, 0, 0, 0, 0, 0, 0, 0, 0, 0, 0, 128]
    = [974425521871729801, 13513357065252459434, 1500768715111843392,
     5673366536572876612, 11488647254795816187, 5543571690276196299,
     13872087921583072050, 18006032473114013123, 9561476804862743272,
     8081745631896999837, 6788230263851133676, 16360221588894202039,
     10802172964970123476, 3890830319606336602, 7144819698879201961,
     6565993011133919074, 17812228197893327187, 2227553064064729179,
     6650394159082070499, 5005963790754878426, 2003367328172853799,
     13508419524336737010, 1295497114842653752, 6485738893874662036,
     8755155445448233588] := by
  rw [sample_inner_lanes2_0]
  decide!

theorem sample_inner_0 : scrypt_hash
      ([99, 188, 198, 18, 116, 132, 119, 178, 252, 187, 252, 75, 140, 195, 179, 199,
       41, 157, 71, 57, 197, 145, 7, 204, 210, 34, 113, 150, 140, 255, 95, 73,
       55, 156, 239, 6, 222, 111, 126, 3, 83, 136, 8, 246, 8, 214, 211, 121,
       115, 169, 193, 83, 28, 147, 34, 158, 26, 107, 30, 162, 117, 46, 238, 75,
       54, 54, 54, 54, 54, 54, 54, 54]
        ++ (List.replicate 72 0 ++ (List.replicate 56 0 ++ [0, 0, 0, 1])))
    = [137, 52, 61, 115, 217, 218, 133, 13, 170, 83, 99, 109, 167, 22, 137, 187,
       64, 198, 66, 234, 49, 205, 211, 20, 68, 183, 3, 101, 206, 216, 187, 78,
       251, 12, 223, 11, 207, 223, 111, 159, 203, 15, 211, 201, 20, 185, 238, 76,
       50, 35, 242, 154, 119, 142, 131, 192, 195, 237, 27, 94, 34, 71, 226, 249] := by
  rw [scrypt_hash_three _ _ _ (by decide) (List.length_replicate _ _) (by decide)]
  have hb : (List.replicate 56 0 ++ [0, 0, 0, 1])
        ++ spec_pad (144 + (List.replicate 56 0 ++ [0, 0, 0, 1] : List Nat).length)
      = [0, 0, 0, 0, 0, 0, 0, 0, 0, 0, 0, 0, 0, 0, 0, 0, 0, 0, 0, 0, 0, 0, 0, 0,
       0, 0, 0, 0, 0, 0, 0, 0, 0, 0, 0, 0, 0, 0, 0, 0, 0, 0, 0, 0, 0, 0, 0, 0,
       0, 0, 0, 0, 0, 0, 0, 0, 0, 0, 0, 1, 1, 0, 0, 0, 0, 0, 0, 0, 0, 0, 0, 128] := by
    decide
  rw [hb, sample_inner_lanes3_0]
  decide

theorem sample_outer_lanes1_0 : keccak_block zero_state
      [9, 214, 172, 120, 30, 238, 29, 216, 150, 209, 150, 33, 230, 169, 217, 173,
       67, 247, 45, 83, 175, 251, 109, 166, 184, 72, 27, 252, 230, 149, 53, 35,
       93, 246, 133, 108, 180, 5, 20, 105, 57, 226, 98, 156, 98, 188, 185, 19,
       25, 195, 171, 57, 118, 249, 72, 244, 112, 1, 116, 200, 31, 68, 132, 33,
       92, 92, 92, 92, 92, 92, 92, 92]
    = [8600463903612004676, 15485455493649482507, 11580634213617561108,
     415844186208055226, 13971278979919000708, 10873416171884965167,
     14906702068988251205, 6946084450916175507, 3798529315775017825,
     13454568219181341281, 2211620778589029921, 3907065229182064927,
     4376611021036674783, 15765811793385421732, 15342287099020298592,
     15057913373443751747, 13011931964954049112, 9506462947867387757,
     11750376420519874575, 9556728964636963948, 8409740296265006671,
     11441885333026175892, 10765021718929285568, 6936620244118295233,
     11771556192547669187] := by
  decide!

theorem sample_outer_lanes2_0 : keccak_block (keccak_block zero_state
      [9, 214, 172, 120, 30, 238, 29, 216, 150, 209, 150, 33, 230, 169, 217, 173,
       67, 247, 45, 83, 175, 251, 109, 166, 184, 72, 27, 252, 230, 149, 53, 35,
       93, 246, 133, 108, 180, 5, 20, 105, 57, 226, 98, 156, 98, 188, 185, 19,
       25, 195, 171, 57, 118, 249, 72, 244, 112, 1, 116, 200, 31, 68, 132, 33,
       92, 92, 92, 92, 92, 92, 92, 92])
      [137, 52, 61, 115, 217, 218, 133, 13, 170, 83, 99, 109, 167, 22, 137, 187,
       64, 198, 66, 234, 49, 205, 211, 20, 68, 183, 3, 101, 206, 216, 187, 78,
       251, 12, 223, 11, 207, 223, 111, 159, 203, 15, 211, 201, 20, 185, 238, 76,
       50, 35, 242, 154, 119, 142, 131, 192, 195, 237, 27, 94, 34, 71, 226, 249,
       1, 0, 0, 0, 0, 0, 0, 128]
    = [7185682436215609283, 14981373762930382534, 16776070021987063563,
     12059377326311289060, 5769954530018829366, 11315421641197163959,
     1050468433763664835, 12326972038509939064, 6315553304489569263,
     3103189022740539014, 9055780949722644067, 3419301786215078206,
     13605173284659204389, 1304068003716890041, 9527049487047431711,
     9658406292940834509, 7642170057407582180, 8234133915184112070,
     2030258292354868066, 1253791581938504958, 5979763369867967644,
     6026800276220768359, 16464141549124347616, 16269977048442643310,
     8961811990028350576] := by
  rw [sample_outer_lanes1_0]
  decide!

theorem sample_outer_0 : scrypt_hash
      ([9, 214, 172, 120, 30, 238, 29, 216, 150, 209, 150, 33, 230, 169, 217, 173,
       67, 247, 45, 83, 175, 251, 109, 166, 184, 72, 27, 252, 230, 149, 53, 35,
       93, 246, 133, 108, 180, 5, 20, 105, 57, 226, 98, 156, 98, 188, 185, 19,
       25, 195, 171, 57, 118, 249, 72, 244, 112, 1, 116, 200, 31, 68, 132, 33,
       92, 92, 92, 92, 92, 92, 92, 92]
        ++ [137, 52, 61, 115, 217, 218, 133, 13, 170, 83, 99, 109, 167, 22, 137, 187,
       64, 198, 66, 234, 49, 205, 211, 20, 68, 183, 3, 101, 206, 216, 187, 78,
       251, 12, 223, 11, 207, 223, 111, 159, 203, 15, 211, 201, 20, 185, 238, 76,
       50, 35, 242, 154, 119, 142, 131, 192, 195, 237, 27, 94, 34, 71, 226, 249])
    = [195, 23, 101, 183, 26, 172, 184, 99, 198, 150, 210, 10, 16, 136, 232, 207,
       11, 87, 158, 51, 205, 146, 208, 232, 228, 48, 47, 243, 200, 131, 91, 167,
       54, 164, 237, 19, 19, 255, 18, 80, 183, 21, 83, 239, 7, 116, 8, 157,
       195, 131, 62, 146, 121, 3, 148, 14, 120, 201, 142, 7, 194, 51, 18, 171] := by
  rw [scrypt_hash_two _ _ (by decide) (by decide)]
  have hb : [137, 52, 61, 115, 217, 218, 133, 13, 170, 83, 99, 109, 167, 22, 137, 187,
       64, 198, 66, 234, 49, 205, 211, 20, 68, 183, 3, 101, 206, 216, 187, 78,
       251, 12, 223, 11, 207, 223, 111, 159, 203, 15, 211, 201, 20, 185, 238, 76,
       50, 35, 242, 154, 119, 142, 131, 192, 195, 237, 27, 94, 34, 71, 226, 249]
        ++ spec_pad (72 + ([137, 52, 61, 115, 217, 218, 133, 13, 170, 83, 99, 109, 167, 22, 137, 187,
       64, 198, 66, 234, 49, 205, 211, 20, 68, 183, 3, 101, 206, 216, 187, 78,
       251, 12, 223, 11, 207, 223, 111, 159, 203, 15, 211, 201, 20, 185, 238, 76,
       50, 35, 242, 154, 119, 142, 131, 192, 195, 237, 27, 94, 34, 71, 226, 249] : List Nat).length)
      = [137, 52, 61, 115, 217, 218, 133, 13, 170, 83, 99, 109, 167, 22, 137, 187,
       64, 198, 66, 234, 49, 205, 211, 20, 68, 183, 3, 101, 206, 216, 187, 78,
       251, 12, 223, 11, 207, 223, 111, 159, 203, 15, 211, 201, 20, 185, 238, 76,
       50, 35, 242, 154, 119, 142, 131, 192, 195, 237, 27, 94, 34, 71, 226, 249,
       1, 0, 0, 0, 0, 0, 0, 128] := by
    decide
  rw [hb, sample_outer_lanes2_0]
  decide

/-- The digest of the all-zero header with nonce 0, `N = 32` and the reference mix
of `sample_env`. -/
theorem sample_digest_0 : cpu_digest (sample_env []) sample_header 20 32 0
    = [3076855747, 1673047066, 181573318, 3488122896,
     866014987, 3905983181, 4079956196, 2807792584] := by
  have htd : words_to_bytes (tdata_of sample_header 20 0)
      = List.replicate 72 0 ++ [0, 0, 0, 0, 0, 0, 0, 0] := by
    decide
  have hkey : spec_hmac_key (List.replicate 72 0 ++ [0, 0, 0, 0, 0, 0, 0, 0])
      = [85, 138, 240, 36, 66, 178, 65, 132, 202, 141, 202, 125, 186, 245, 133, 241,
       31, 171, 113, 15, 243, 167, 49, 250, 228, 20, 71, 160, 186, 201, 105, 127,
       1, 170, 217, 48, 232, 89, 72, 53, 101, 190, 62, 192, 62, 224, 229, 79,
       69, 159, 247, 101, 42, 165, 20, 168, 44, 93, 40, 148, 67, 24, 216, 125]
        ++ List.replicate 8 0 := by
    unfold spec_hmac_key
    rw [if_neg (by decide), sample_key_0]
  have hik : ([85, 138, 240, 36, 66, 178, 65, 132, 202, 141, 202, 125, 186, 245, 133, 241,
       31, 171, 113, 15, 243, 167, 49, 250, 228, 20, 71, 160, 186, 201, 105, 127,
       1, 170, 217, 48, 232, 89, 72, 53, 101, 190, 62, 192, 62, 224, 229, 79,
       69, 159, 247, 101, 42, 165, 20, 168, 44, 93, 40, 148, 67, 24, 216, 125]
        ++ List.replicate 8 0).map (fun b => b ^^^ 0x36)
      = [99, 188, 198, 18, 116, 132, 119, 178, 252, 187, 252, 75, 140, 195, 179, 199,
       41, 157, 71, 57, 197, 145, 7, 204, 210, 34, 113, 150, 140, 255, 95, 73,
       55, 156, 239, 6, 222, 111, 126, 3, 83, 136, 8, 246, 8, 214, 211, 121,
       115, 169, 193, 83, 28, 147, 34, 158, 26, 107, 30, 162, 117, 46, 238, 75,
       54, 54, 54, 54, 54, 54, 54, 54] := by
    decide
  have hok : ([85, 138, 240, 36, 66, 178, 65, 132, 202, 141, 202, 125, 186, 245, 133, 241,
       31, 171, 113, 15, 243, 167, 49, 250, 228, 20, 71, 160, 186, 201, 105, 127,
       1, 170, 217, 48, 232, 89, 72, 53, 101, 190, 62, 192, 62, 224, 229, 79,
       69, 159, 247, 101, 42, 165, 20, 168, 44, 93, 40, 148, 67, 24, 216, 125]
        ++ List.replicate 8 0).map (fun b => b ^^^ 0x5c)
      = [9, 214, 172, 120, 30, 238, 29, 216, 150, 209, 150, 33, 230, 169, 217, 173,
       67, 247, 45, 83, 175, 251, 109, 166, 184, 72, 27, 252, 230, 149, 53, 35,
       93, 246, 133, 108, 180, 5, 20, 105, 57, 226, 98, 156, 98, 188, 185, 19,
       25, 195, 171, 57, 118, 249, 72, 244, 112, 1, 116, 200, 31, 68, 132, 33,
       92, 92, 92, 92, 92, 92, 92, 92] := by
    decide
  rw [cpu_digest_hmac, htd]
  show bytes_to_words ((spec_hmac (List.replicate 72 0 ++ [0, 0, 0, 0, 0, 0, 0, 0])
    (List.replicate 128 0 ++ U32TO8_BE 1)).take 32) = _
  unfold spec_hmac
  rw [hkey, hik, hok, sample_message, sample_inner_0, sample_outer_0]
  decide


theorem sample_key_lanes_1 : keccak_block (keccak_block zero_state (List.replicate 72 0))
      [0, 0, 0, 0, 0, 0, 0, 1, 1, 0, 0, 0, 0, 0, 0, 0, 0, 0, 0, 0, 0, 0, 0, 0,
       0, 0, 0, 0, 0, 0, 0, 0, 0, 0, 0, 0, 0, 0, 0, 0, 0, 0, 0, 0, 0, 0, 0, 0,
       0, 0, 0, 0, 0, 0, 0, 0, 0, 0, 0, 0, 0, 0, 0, 0, 0, 0, 0, 0, 0, 0, 0, 128]
    = [9742382281172930683, 16529010529112997592, 10360116461072062899,
     10221727946916011775, 8862871092081010152, 15906761985785375883,
     5266702564299022668, 12645430491149853439, 1096184492600828767,
     10972385045492933292, 17509924092056508140, 6832696576858201921,
     14653212732268511780, 1189606026026189799, 5136077826624248097,
     759161831201331363, 6722961990599996760, 2296856687024462162,
     18096555567758944606, 5828560361347060044, 764233630682548096,
     9589772808968225018, 16036541203277899796, 16895557605717940128,
     3761619964934444509] := by
  rw [sample_lanes_zero]
  decide!

theorem sample_key_1 : scrypt_hash (List.replicate 72 0 ++ [0, 0, 0, 0, 0, 0, 0, 1])
    = [123, 80, 95, 63, 17, 229, 51, 135, 216, 190, 120, 116, 128, 215, 98, 229,
       179, 153, 224, 245, 7, 135, 198, 143, 255, 158, 156, 34, 105, 223, 218, 141,
       232, 37, 145, 253, 76, 62, 255, 122, 139, 172, 108, 153, 191, 43, 192, 220,
       76, 161, 174, 250, 19, 22, 23, 73, 255, 98, 225, 136, 8, 152, 125, 175] := by
  rw [scrypt_hash_two _ _ (List.length_replicate _ _) (by decide)]
  have hb : [0, 0, 0, 0, 0, 0, 0, 1] ++ spec_pad (72 + ([0, 0, 0, 0, 0, 0, 0, 1] : List Nat).length)
      = [0, 0, 0, 0, 0, 0, 0, 1, 1, 0, 0, 0, 0, 0, 0, 0, 0, 0, 0, 0, 0, 0, 0, 0,
       0, 0, 0, 0, 0, 0, 0, 0, 0, 0, 0, 0, 0, 0, 0, 0, 0, 0, 0, 0, 0, 0, 0, 0,
       0, 0, 0, 0, 0, 0, 0, 0, 0, 0, 0, 0, 0, 0, 0, 0, 0, 0, 0, 0, 0, 0, 0, 128] := by
    decide
  rw [hb, sample_key_lanes_1]
  decide

theorem sample_inner_lanes1_1 : keccak_block zero_state
      [77, 102, 105, 9, 39, 211, 5, 177, 238, 136, 78, 66, 182, 225, 84, 211,
       133, 175, 214, 195, 49, 177, 240, 185, 201, 168, 170, 20, 95, 233, 236, 187,
       222, 19, 167, 203, 122, 8, 201, 76, 189, 154, 90, 175, 137, 29, 246, 234,
       122, 151, 152, 204, 37, 32, 33, 127, 201, 84, 215, 190, 62, 174, 75, 153,
       54, 54, 54, 54, 54, 54, 54, 54]
    = [2155655702874784536, 9037732652198996974, 8669565568289222246,
     3697621686939869478, 12221415577395405507, 11704177248047318134,
     16653667194021713099, 18319038860211423536, 14582622915152487312,
     9366072664540197712, 7968472081139698903, 6017270174257356313,
     4556077965593260437, 13053833731704739310, 1419943544372750103,
     600900208452719327, 11403147163656546445, 2652695521952241436,
     11801025090199669004, 15513946466361268932, 11560057349819538401,
     4282609503558632603, 11995407839193195924, 16735818415021418936,
     6713983242753982835] := by
  decide!

theorem sample_inner_lanes2_1 : keccak_block (keccak_block zero_state
      [77, 102, 105, 9, 39, 211, 5, 177, 238, 136, 78, 66, 182, 225, 84, 211,
       133, 175, 214, 195, 49, 177, 240, 185, 201, 168, 170, 20, 95, 233, 236, 187,
       222, 19, 167, 203, 122, 8, 201, 76, 189, 154, 90, 175, 137, 29, 246, 234,
       122, 151, 152, 204, 37, 32, 33, 127, 201, 84, 215, 190, 62, 174, 75, 153,
       54, 54, 54, 54, 54, 54, 54, 54]) (List.replicate 72 0)
    = [15625712883766149906, 3309732815337165863, 10040029719210150291,
     13333046871186884513, 5345584974648942700, 333335993649043901,
     3649200866494531092, 514162961646988290, 7485815401119442294,
     13021518058815285996, 9543633763056990045, 2014630747217272468,
     4751092160375145494, 12755458456724565213, 8194874195471126579,
     12383927102565208027, 5244480603646848665, 9744434345595846869,
     2593925275532583620, 5699322456890770231, 17370352906385124002,
     7803164896878625393, 5355058373995647038, 8086336805079347830,
     6376709552775239761] := by
  rw [sample_inner_lanes1_1]
  decide!

theorem sample_inner_lanes3_1 : keccak_block (keccak_block (keccak_block zero_state
      [77, 102, 105, 9, 39, 211, 5, 177, 238, 136, 78, 66, 182, 225, 84, 211,
       133, 175, 214, 195, 49, 177, 240, 185, 201, 168, 170, 20, 95, 233, 236, 187,
       222, 19, 167, 203, 122, 8, 201, 76, 189, 154, 90, 175, 137, 29, 246, 234,
       122, 151, 152, 204, 37, 32, 33, 127, 201, 84, 215, 190, 62, 174, 75, 153,
       54, 54, 54, 54, 54, 54, 54, 54]) (List.replicate 72 0))
      [0, 0, 0, 0, 0, 0, 0, 0, 0, 0, 0, 0, 0, 0, 0, 0, 0, 0, 0, 0, 0, 0, 0, 0,
       0, 0, 0, 0, 0, 0, 0, 0, 0, 0, 0, 0, 0, 0, 0, 0, 0, 0, 0, 0, 0, 0, 0, 0,
       0, 0, 0, 0, 0, 0, 0, 0, 0, 0, 0, 1, 1, 0, 0, 0, 0, 0, 0, 0, 0, 0, 0, 128]
    = [4866656290970881079, 5194454849814146340, 14749599364577303331,
     1342551120361610572, 9372896411070028985, 15240750389154636200,
     1771992040068941827, 1223179780160351673, 10851068099635488190,
     15579312918552933528, 14616884847579451337, 8553546493686341469,
     13833430083770413517, 7883664466837614625, 13680109304129219573,
     17200251560715348577, 8249546673846404121, 5464237011808259806,
     14796040751641368826, 977554625060921477, 9797574867591615041,
     12794996520842644210, 989841742580795241, 6848849768065519522,
     8618171147937141143] := by
  rw [sample_inner_lanes2_1]
  decide!

theorem sample_inner_1 : scrypt_hash
      ([77, 102, 105, 9, 39, 211, 5, 177, 238, 136, 78, 66, 182, 225, 84, 211,
       133, 175, 214, 195, 49, 177, 240, 185, 201, 168, 170, 20, 95, 233, 236, 187,
       222, 19, 167, 203, 122, 8, 201, 76, 189, 154, 90, 175, 137, 29, 246, 234,
       122, 151, 152, 204, 37, 32, 33, 127, 201, 84, 215, 190, 62, 174, 75, 153,
       54, 54, 54, 54, 54, 54, 54, 54]
        ++ (List.replicate 72 0 ++ (List.replicate 56 0 ++ [0, 0, 0, 1])))
    = [55, 76, 61, 171, 28, 214, 137, 67, 36, 45, 250, 28, 42, 105, 22, 72,
       35, 27, 245, 176, 121, 26, 177, 204, 76, 221, 244, 125, 33, 179, 161, 18,
       185, 220, 92, 74, 160, 55, 19, 130, 168, 97, 245, 223, 186, 5, 130, 211,
       3, 8, 33, 61, 95, 97, 151, 24, 185, 237, 229, 132, 135, 155, 249, 16] := by
  rw [scrypt_hash_three _ _ _ (by decide) (List.length_replicate _ _) (by decide)]
  have hb : (List.replicate 56 0 ++ [0, 0, 0, 1])
        ++ spec_pad (144 + (List.replicate 56 0 ++ [0, 0, 0, 1] : List Nat).length)
      = [0, 0, 0, 0, 0, 0, 0, 0, 0, 0, 0, 0, 0, 0, 0, 0, 0, 0, 0, 0, 0, 0, 0, 0,
       0, 0, 0, 0, 0, 0, 0, 0, 0, 0, 0, 0, 0, 0, 0, 0, 0, 0, 0, 0, 0, 0, 0, 0,
       0, 0, 0, 0, 0, 0, 0, 0, 0, 0, 0, 1, 1, 0, 0, 0, 0, 0, 0, 0, 0, 0, 0, 128] := by
    decide
  rw [hb, sample_inner_lanes3_1]
  decide

theorem sample_outer_lanes1_1 : keccak_block zero_state
      [39, 12, 3, 99, 77, 185, 111, 219, 132, 226, 36, 40, 220, 139, 62, 185,
       239, 197, 188, 169, 91, 219, 154, 211, 163, 194, 192, 126, 53, 131, 134, 209,
       180, 121, 205, 161, 16, 98, 163, 38, 215, 240, 48, 197, 227, 119, 156, 128,
       16, 253, 242, 166, 79, 74, 75, 21, 163, 62, 189, 212, 84, 196, 33, 243,
       92, 92, 92, 92, 92, 92, 92, 92]
    = [905387274351567300, 8574403429978034809, 1757422969884157232,
     15470383471990480633, 13308706632356232647, 16469467669916122072,
     13775784623041090672, 17985125994094725711, 7685648661631457124,
     10911054117372246582, 7908662350511452821, 12772998227712803776,
     8691422352391676050, 14523708492339157205, 8066006091068891436,
     16073471172772208709, 17673050705011789333, 3488379199479944007,
     8142241301100164530, 9440727081535737256, 14330728898157103096,
     17704641411699143810, 3683229812838261622, 17075286139521800242,
     4678867561711489784] := by
  decide!

theorem sample_outer_lanes2_1 : keccak_block (keccak_block zero_state
      [39, 12, 3, 99, 77, 185, 111, 219, 132, 226, 36, 40, 220, 139, 62, 185,
       239, 197, 188, 169, 91, 219, 154, 211, 163, 194, 192, 126, 53, 131, 134, 209,
       180, 121, 205, 161, 16, 98, 163, 38, 215, 240, 48, 197, 227, 119, 156, 128,
       16, 253, 242, 166, 79, 74, 75, 21, 163, 62, 189, 212, 84, 196, 33, 243,
       92, 92, 92, 92, 92, 92, 92, 92])
      [55, 76, 61, 171, 28, 214, 137, 67, 36, 45, 250, 28, 42, 105, 22, 72,
       35, 27, 245, 176, 121, 26, 177, 204, 76, 221, 244, 125, 33, 179, 161, 18,
       185, 220, 92, 74, 160, 55, 19, 130, 168, 97, 245, 223, 186, 5, 130, 211,
       3, 8, 33, 61, 95, 97, 151, 24, 185, 237, 229, 132, 135, 155, 249, 16,
       1, 0, 0, 0, 0, 0, 0, 128]
    = [12861501112162290012, 4954588587163044322, 5208506069902754419,
     5329093283358358434, 4676373857257597576, 9696461344165174320,
     3010605838760310468, 13425236985803576567, 5837282562477855518,
     1725815967549248912, 15159817937623416231, 11222513083708772441,
     1090342268820527379, 4536538029045523680, 7855815940353035407,
     3584962767065530854, 1597717500533023763, 8855576973943328979,
     6076399035000215952, 5872352835588507099, 13564871187521539294,
     10226835735556296869, 13995850896701730423, 1880403348751691886,
     10713625552471391746] := by
  rw [sample_outer_lanes1_1]
  decide!

theorem sample_outer_1 : scrypt_hash
      ([39, 12, 3, 99, 77, 185, 111, 219, 132, 226, 36, 40, 220, 139, 62, 185,
       239, 197, 188, 169, 91, 219, 154, 211, 163, 194, 192, 126, 53, 131, 134, 209,
       180, 121, 205, 161, 16, 98, 163, 38, 215, 240, 48, 197, 227, 119, 156, 128,
       16, 253, 242, 166, 79, 74, 75, 21, 163, 62, 189, 212, 84, 196, 33, 243,
       92, 92, 92, 92, 92, 92, 92, 92]
        ++ [55, 76, 61, 171, 28, 214, 137, 67, 36, 45, 250, 28, 42, 105, 22, 72,
       35, 27, 245, 176, 121, 26, 177, 204, 76, 221, 244, 125, 33, 179, 161, 18,
       185, 220, 92, 74, 160, 55, 19, 130, 168, 97, 245, 223, 186, 5, 130, 211,
       3, 8, 33, 61, 95, 97, 151, 24, 185, 237, 229, 132, 135, 155, 249, 16])
    = [92, 137, 185, 76, 30, 59, 125, 178, 226, 201, 14, 202, 17, 60, 194, 68,
       115, 2, 5, 187, 172, 84, 72, 72, 162, 187, 126, 65, 27, 190, 244, 73,
       136, 42, 195, 38, 63, 209, 229, 64, 48, 156, 69, 237, 55, 192, 144, 134,
       196, 118, 6, 58, 15, 210, 199, 41, 247, 20, 66, 156, 232, 5, 80, 186] := by
  rw [scrypt_hash_two _ _ (by decide) (by decide)]
  have hb : [55, 76, 61, 171, 28, 214, 137, 67, 36, 45, 250, 28, 42, 105, 22, 72,
       35, 27, 245, 176, 121, 26, 177, 204, 76, 221, 244, 125, 33, 179, 161, 18,
       185, 220, 92, 74, 160, 55, 19, 130, 168, 97, 245, 223, 186, 5, 130, 211,
       3, 8, 33, 61, 95, 97, 151, 24, 185, 237, 229, 132, 135, 155, 249, 16]
        ++ spec_pad (72 + ([55, 76, 61, 171, 28, 214, 137, 67, 36, 45, 250, 28, 42, 105, 22, 72,
       35, 27, 245, 176, 121, 26, 177, 204, 76, 221, 244, 125, 33, 179, 161, 18,
       185, 220, 92, 74, 160, 55, 19, 130, 168, 97, 245, 223, 186, 5, 130, 211,
       3, 8, 33, 61, 95, 97, 151, 24, 185, 237, 229, 132, 135, 155, 249, 16] : List Nat).length)
      = [55, 76, 61, 171, 28, 214, 137, 67, 36, 45, 250, 28, 42, 105, 22, 72,
       35, 27, 245, 176, 121, 26, 177, 204, 76, 221, 244, 125, 33, 179, 161, 18,
       185, 220, 92, 74, 160, 55, 19, 130, 168, 97, 245, 223, 186, 5, 130, 211,
       3, 8, 33, 61, 95, 97, 151, 24, 185, 237, 229, 132, 135, 155, 249, 16,
       1, 0, 0, 0, 0, 0, 0, 128] := by
    decide
  rw [hb, sample_outer_lanes2_1]
  decide

/-- The digest of the all-zero header with nonce 1, `N = 32` and the reference mix
of `sample_env`. -/
theorem sample_digest_1 : cpu_digest (sample_env []) sample_header 20 32 1
    = [1287227740, 2994551582, 3389966818, 1153580049,
     3137667699, 1212699820, 1098824610, 1240776219] := by
  have htd : words_to_bytes (tdata_of sample_header 20 1)
      = List.replicate 72 0 ++ [0, 0, 0, 0, 0, 0, 0, 1] := by
    decide
  have hkey : spec_hmac_key (List.replicate 72 0 ++ [0, 0, 0, 0, 0, 0, 0, 1])
      = [123, 80, 95, 63, 17, 229, 51, 135, 216, 190, 120, 116, 128, 215, 98, 229,
       179, 153, 224, 245, 7, 135, 198, 143, 255, 158, 156, 34, 105, 223, 218, 141,
       232, 37, 145, 253, 76, 62, 255, 122, 139, 172, 108, 153, 191, 43, 192, 220,
       76, 161, 174, 250, 19, 22, 23, 73, 255, 98, 225, 136, 8, 152, 125, 175]
        ++ List.replicate 8 0 := by
    unfold spec_hmac_key
    rw [if_neg (by decide), sample_key_1]
  have hik : ([123, 80, 95, 63, 17, 229, 51, 135, 216, 190, 120, 116, 128, 215, 98, 229,
       179, 153, 224, 245, 7, 135, 198, 143, 255, 158, 156, 34, 105, 223, 218, 141,
       232, 37, 145, 253, 76, 62, 255, 122, 139, 172, 108, 153, 191, 43, 192, 220,
       76, 161, 174, 250, 19, 22, 23, 73, 255, 98, 225, 136, 8, 152, 125, 175]
        ++ List.replicate 8 0).map (fun b => b ^^^ 0x36)
      = [77, 102, 105, 9, 39, 211, 5, 177, 238, 136, 78, 66, 182, 225, 84, 211,
       133, 175, 214, 195, 49, 177, 240, 185, 201, 168, 170, 20, 95, 233, 236, 187,
       222, 19, 167, 203, 122, 8, 201, 76, 189, 154, 90, 175, 137, 29, 246, 234,
       122, 151, 152, 204, 37, 32, 33, 127, 201, 84, 215, 190, 62, 174, 75, 153,
       54, 54, 54, 54, 54, 54, 54, 54] := by
    decide
  have hok : ([123, 80, 95, 63, 17, 229, 51, 135, 216, 190, 120, 116, 128, 215, 98, 229,
       179, 153, 224, 245, 7, 135, 198, 143, 255, 158, 156, 34, 105, 223, 218, 141,
       232, 37, 145, 253, 76, 62, 255, 122, 139, 172, 108, 153, 191, 43, 192, 220,
       76, 161, 174, 250, 19, 22, 23, 73, 255, 98, 225, 136, 8, 152, 125, 175]
        ++ List.replicate 8 0).map (fun b => b ^^^ 0x5c)
      = [39, 12, 3, 99, 77, 185, 111, 219, 132, 226, 36, 40, 220, 139, 62, 185,
       239, 197, 188, 169, 91, 219, 154, 211, 163, 194, 192, 126, 53, 131, 134, 209,
       180, 121, 205, 161, 16, 98, 163, 38, 215, 240, 48, 197, 227, 119, 156, 128,
       16, 253, 242, 166, 79, 74, 75, 21, 163, 62, 189, 212, 84, 196, 33, 243,
       92, 92, 92, 92, 92, 92, 92, 92] := by
    decide
  rw [cpu_digest_hmac, htd]
  show bytes_to_words ((spec_hmac (List.replicate 72 0 ++ [0, 0, 0, 0, 0, 0, 0, 1])
    (List.replicate 128 0 ++ U32TO8_BE 1)).take 32) = _
  unfold spec_hmac
  rw [hkey, hik, hok, sample_message, sample_inner_1, sample_outer_1]
  decide

/-! ## Runs that compare a batch before they end -/

theorem half_target_words : ∀ i, i < 8 → half_target.getD i 0 < 2 ^ 32 := by
  decide

/-- Nonce 0 of the sample header does not meet `half_target`. -/
theorem sample_rejects_0 (T : Nat) :
    qualifies (honest_env T) sample_header half_target (scan_header_words 1)
      (scrypt_N (scan_Nfactor "" sample_header 1)) 0 = false := by
  rw [sample_params.1, sample_params.2.1]
  unfold qualifies
  rw [cpu_digest_congr (honest_env T) (sample_env []) sample_header 20 32 0 rfl, sample_digest_0]
  decide

/-- Nonce 1 of the sample header meets `half_target`. -/
theorem sample_accepts_1 (T : Nat) :
    qualifies (honest_env T) sample_header half_target (scan_header_words 1)
      (scrypt_N (scan_Nfactor "" sample_header 1)) 1 = true := by
  rw [sample_params.1, sample_params.2.1]
  unfold qualifies
  rw [cpu_digest_congr (honest_env T) (sample_env []) sample_header 20 32 1 rfl, sample_digest_1]
  decide

theorem find_range_first (p : Nat → Bool) (n : Nat) : ∀ l, l < n → p l = true →
    (∀ j, j < l → p j = false) → (List.range n).find? p = some l := by
  induction n with
  | zero => intro l hl; omega
  | succ m ih =>
    intro l hl hp hb
    rw [List.range_succ, List.find?_append]
    by_cases hlm : l < m
    · rw [ih l hlm hp hb]
      rfl
    · have e : l = m := by omega
      subst e
      have hn : (List.range l).find? p = none := by
        rw [List.find?_eq_none]
        intro j hj
        rw [hb j (List.mem_range.mp hj)]
        decide
      rw [hn, List.find?_cons, hp]
      rfl

/-- A run whose first batch holds the first qualifying nonce at lane `l`, with the
loop condition true after the first iteration, returns 1 with that nonce in the
second iteration. -/
theorem scanhash_found_first_batch (env : scan_env) (jane_params : String)
    (pdata ptarget : List Nat) (max_nonce : Nat) (block_version : Int) (fuel l : Nat)
    (hl : env.hash_init.length = 2)
    (hs : pdata.getD (scan_header_words block_version - 1) 0 < 2 ^ 32)
    (ht : ∀ i, i < 8 → ptarget.getD i 0 < 2 ^ 32)
    (hh : device_honest env pdata (scan_header_words block_version)
      (scrypt_N (scan_Nfactor jane_params pdata block_version)))
    (hnf : no_failure env)
    (hN : scan_Nfactor jane_params pdata block_version ≤ scrypt_maxN)
    (hT : l < env.throughput)
    (hc : (pdata.getD (scan_header_words block_version - 1) 0 + env.throughput) % 2 ^ 32
      ≤ max_nonce)
    (hq : qualifies env pdata ptarget (scan_header_words block_version)
      (scrypt_N (scan_Nfactor jane_params pdata block_version))
      ((pdata.getD (scan_header_words block_version - 1) 0 + l) % 2 ^ 32) = true)
    (hrej : ∀ i, i < l → qualifies env pdata ptarget (scan_header_words block_version)
      (scrypt_N (scan_Nfactor jane_params pdata block_version))
      ((pdata.getD (scan_header_words block_version - 1) 0 + i) % 2 ^ 32) = false) :
    scanhash_scrypt_jane env jane_params pdata ptarget max_nonce block_version (fuel + 2)
      = some (.found
          (pdata.set (scan_header_words block_version - 1)
            ((pdata.getD (scan_header_words block_version - 1) 0 + l) % 2 ^ 32))
          ((2 * env.throughput) % 2 ^ 32) l
          (scan_at env pdata (scan_header_words block_version) 1)) := by
  have hok : ∀ j, (scan_stage env (scan_header_words block_version)
      (scan_top env pdata (scan_header_words block_version) j)).2 = false :=
    stage_ok_of_no_failure env pdata _ hnf
  have hst : ∀ j, scan_stage env (scan_header_words block_version)
      (scan_top env pdata (scan_header_words block_version) j)
      = (scan_at env pdata (scan_header_words block_version) j, false) :=
    fun j => Prod.ext rfl (hok j)
  obtain ⟨hn0, _⟩ := scan_at_nonce env pdata _ hl hs 0 (fun j _ => hok j)
  obtain ⟨hn1, hc1⟩ := scan_at_nonce env pdata _ hl hs 1 (fun j _ => hok j)
  have hc1 := hc1 (by decide)
  rw [Nat.sub_self, Nat.zero_mul, Nat.add_zero, Nat.mod_eq_of_lt hs] at hc1
  rw [Nat.zero_add, Nat.one_mul] at hn0
  have hlan0 : scan_lanes env pdata ptarget (scan_header_words block_version)
      (scrypt_N (scan_Nfactor jane_params pdata block_version))
      (scan_at env pdata (scan_header_words block_version) 0) = none := by
    unfold scan_lanes
    rw [(scan_top_iteration env pdata _ 0).2, if_neg (by decide)]
  have hacc : ∀ i, i < env.throughput →
      lane_accepts env pdata ptarget (scan_header_words block_version)
        (scrypt_N (scan_Nfactor jane_params pdata block_version))
        (scan_at env pdata (scan_header_words block_version) 1) i
      = qualifies env pdata ptarget (scan_header_words block_version)
        (scrypt_N (scan_Nfactor jane_params pdata block_version))
        ((pdata.getD (scan_header_words block_version - 1) 0 + i) % 2 ^ 32) := by
    intro i hi
    rw [scan_at_accepts env pdata ptarget _ _ hl hs ht hh 1 i (by decide) hi
      (fun j _ => hok j), Nat.sub_self, Nat.zero_mul, Nat.zero_add]
  have hlan1 : scan_lanes env pdata ptarget (scan_header_words block_version)
      (scrypt_N (scan_Nfactor jane_params pdata block_version))
      (scan_at env pdata (scan_header_words block_version) 1) = some l := by
    unfold scan_lanes
    rw [(scan_top_iteration env pdata _ 1).2, if_pos (by decide)]
    apply find_range_first _ _ l hT
    · rw [hacc l hT]; exact hq
    · intro j hj
      rw [hacc j (by omega)]; exact hrej j hj
  have hcond : (decide ((scan_at env pdata (scan_header_words block_version) 0).n ≤ max_nonce)
      && !env.restart (scan_at env pdata (scan_header_words block_version) 0).iteration)
      = true := by
    rw [hn0, (hnf _).2.2, Bool.not_false, Bool.and_true, decide_eq_true_eq]
    exact hc
  unfold scanhash_scrypt_jane
  simp only []
  rw [if_neg (by omega), if_neg (by omega)]
  show scan_loop env pdata ptarget max_nonce _ _ (fuel + 1 + 1)
    (scan_top env pdata (scan_header_words block_version) 0) = _
  rw [scan_loop_continue env pdata ptarget max_nonce _ _ (fuel + 1) _ _ (hst 0) hlan0 hcond]
  show scan_loop env pdata ptarget max_nonce _ _ (fuel + 1)
    (scan_top env pdata (scan_header_words block_version) 1) = _
  rw [scan_loop_accept env pdata ptarget max_nonce _ _ fuel _ _ l (hst 1) hlan1, hc1, hn1]
  have e : ((pdata.getD (scan_header_words block_version - 1) 0 + (1 + 1) * env.throughput)
      % 2 ^ 32 + 2 ^ 32 - pdata.getD (scan_header_words block_version - 1) 0) % 2 ^ 32
      = (2 * env.throughput) % 2 ^ 32 := by
    omega
  rw [e]

/-- A run whose first batch is compared and rejected and whose counter exceeds
`max_nonce` after the second iteration returns 0 then. -/
theorem scanhash_exit_second (env : scan_env) (jane_params : String)
    (pdata ptarget : List Nat) (max_nonce : Nat) (block_version : Int) (fuel : Nat)
    (hl : env.hash_init.length = 2)
    (hs : pdata.getD (scan_header_words block_version - 1) 0 < 2 ^ 32)
    (ht : ∀ i, i < 8 → ptarget.getD i 0 < 2 ^ 32)
    (hh : device_honest env pdata (scan_header_words block_version)
      (scrypt_N (scan_Nfactor jane_params pdata block_version)))
    (hnf : no_failure env)
    (hN : scan_Nfactor jane_params pdata block_version ≤ scrypt_maxN)
    (hT : 1 ≤ env.throughput)
    (hc : (pdata.getD (scan_header_words block_version - 1) 0 + env.throughput) % 2 ^ 32
      ≤ max_nonce)
    (hc2 : max_nonce
      < (pdata.getD (scan_header_words block_version - 1) 0 + 2 * env.throughput) % 2 ^ 32)
    (hrej : ∀ i, i < env.throughput →
      qualifies env pdata ptarget (scan_header_words block_version)
        (scrypt_N (scan_Nfactor jane_params pdata block_version))
        ((pdata.getD (scan_header_words block_version - 1) 0 + i) % 2 ^ 32) = false) :
    scanhash_scrypt_jane env jane_params pdata ptarget max_nonce block_version (fuel + 2)
      = some (.exhausted
          (pdata.set (scan_header_words block_version - 1)
            ((pdata.getD (scan_header_words block_version - 1) 0 + 2 * env.throughput)
              % 2 ^ 32))
          ((2 * env.throughput) % 2 ^ 32)) := by
  have hok : ∀ j, (scan_stage env (scan_header_words block_version)
      (scan_top env pdata (scan_header_words block_version) j)).2 = false :=
    stage_ok_of_no_failure env pdata _ hnf
  have hst : ∀ j, scan_stage env (scan_header_words block_version)
      (scan_top env pdata (scan_header_words block_version) j)
      = (scan_at env pdata (scan_header_words block_version) j, false) :=
    fun j => Prod.ext rfl (hok j)
  obtain ⟨hn0, _⟩ := scan_at_nonce env pdata _ hl hs 0 (fun j _ => hok j)
  obtain ⟨hn1, _⟩ := scan_at_nonce env pdata _ hl hs 1 (fun j _ => hok j)
  rw [Nat.zero_add, Nat.one_mul] at hn0
  have e2 : (1 + 1) * env.throughput = 2 * env.throughput := rfl
  rw [e2] at hn1
  have hlan0 : scan_lanes env pdata ptarget (scan_header_words block_version)
      (scrypt_N (scan_Nfactor jane_params pdata block_version))
      (scan_at env pdata (scan_header_words block_version) 0) = none := by
    unfold scan_lanes
    rw [(scan_top_iteration env pdata _ 0).2, if_neg (by decide)]
  have hlan1 : scan_lanes env pdata ptarget (scan_header_words block_version)
      (scrypt_N (scan_Nfactor jane_params pdata block_version))
      (scan_at env pdata (scan_header_words block_version) 1) = none := by
    unfold scan_lanes
    rw [(scan_top_iteration env pdata _ 1).2, if_pos (by decide), List.find?_eq_none]
    intro i hi
    have hi2 := List.mem_range.mp hi
    rw [scan_at_accepts env pdata ptarget _ _ hl hs ht hh 1 i (by decide) hi2
      (fun j _ => hok j), Nat.sub_self, Nat.zero_mul, Nat.zero_add, hrej i hi2]
    decide
  have hcond0 : (decide ((scan_at env pdata (scan_header_words block_version) 0).n ≤ max_nonce)
      && !env.restart (scan_at env pdata (scan_header_words block_version) 0).iteration)
      = true := by
    rw [hn0, (hnf _).2.2, Bool.not_false, Bool.and_true, decide_eq_true_eq]
    exact hc
  have hcond1 : (decide ((scan_at env pdata (scan_header_words block_version) 1).n ≤ max_nonce)
      && !env.restart (scan_at env pdata (scan_header_words block_version) 1).iteration)
      = false := by
    rw [hn1, (hnf _).2.2, Bool.not_false, Bool.and_true, decide_eq_false_iff_not]
    omega
  unfold scanhash_scrypt_jane
  simp only []
  rw [if_neg (by omega), if_neg (by omega)]
  show scan_loop env pdata ptarget max_nonce _ _ (fuel + 1 + 1)
    (scan_top env pdata (scan_header_words block_version) 0) = _
  rw [scan_loop_continue env pdata ptarget max_nonce _ _ (fuel + 1) _ _ (hst 0) hlan0 hcond0]
  show scan_loop env pdata ptarget max_nonce _ _ (fuel + 1)
    (scan_top env pdata (scan_header_words block_version) 1) = _
  rw [scan_loop_leave env pdata ptarget max_nonce _ _ fuel _ _ (hst 1) hlan1 hcond1]
  unfold scan_exit
  have hn2 : (scan_flip (scan_at env pdata (scan_header_words block_version) 1)).n
      = (scan_at env pdata (scan_header_words block_version) 1).n := rfl
  rw [hn2, hn1]
  have e : ((pdata.getD (scan_header_words block_version - 1) 0 + 2 * env.throughput)
      % 2 ^ 32 + 2 ^ 32 - pdata.getD (scan_header_words block_version - 1) 0) % 2 ^ 32
      = (2 * env.throughput) % 2 ^ 32 := by
    omega
  rw [e]

/-- The sample run with two lanes and `half_target`: lane 0 (nonce 0) is rejected,
lane 1 (nonce 1) is accepted. -/
theorem sample_run_second_lane :
    scanhash_scrypt_jane (honest_env 2) "" sample_header half_target 10 1 (3 + 2)
      = some (.found
          (sample_header.set (scan_header_words 1 - 1)
            ((sample_header.getD (scan_header_words 1 - 1) 0 + 1) % 2 ^ 32))
          ((2 * (honest_env 2).throughput) % 2 ^ 32) 1
          (scan_at (honest_env 2) sample_header (scan_header_words 1) 1)) := by
  apply scanhash_found_first_batch (honest_env 2) "" sample_header half_target 10 1 3 1 rfl
    (by decide) half_target_words (honest_env_sample 2) (honest_env_no_failure 2) (by decide)
    (by decide) (by decide)
  · exact sample_accepts_1 2
  · intro i hi
    have e : i = 0 := by omega
    rw [e]
    exact sample_rejects_0 2

/-- The sample run with one lane, `half_target` and `max_nonce = 1`: nonce 0 is
compared and rejected in the second iteration, which leaves the loop. -/
theorem sample_run_exhausted :
    scanhash_scrypt_jane (honest_env 1) "" sample_header half_target 1 1 (3 + 2)
      = some (.exhausted
          (sample_header.set (scan_header_words 1 - 1)
            ((sample_header.getD (scan_header_words 1 - 1) 0 + 2 * (honest_env 1).throughput)
              % 2 ^ 32))
          ((2 * (honest_env 1).throughput) % 2 ^ 32)) := by
  apply scanhash_exit_second (honest_env 1) "" sample_header half_target 1 1 3 rfl
    (by decide) half_target_words (honest_env_sample 1) (honest_env_no_failure 1) (by decide)
    (by decide) (by decide) (by decide)
  intro i hi
  have ht : (honest_env 1).throughput = 1 := rfl
  have e : i = 0 := by omega
  rw [e]
  exact sample_rejects_0 1

theorem scanhash_first_qualifying_witness :
    (honest_env 2).hash_init.length = 2 ∧
    sample_header.getD (scan_header_words 1 - 1) 0 < 2 ^ 32 ∧
    (∀ i, i < 8 → half_target.getD i 0 < 2 ^ 32) ∧
    device_honest (honest_env 2) sample_header (scan_header_words 1)
      (scrypt_N (scan_Nfactor "" sample_header 1)) ∧
    scanhash_scrypt_jane (honest_env 2) "" sample_header half_target 10 1 (3 + 2)
      = some (.found
          (sample_header.set (scan_header_words 1 - 1)
            ((sample_header.getD (scan_header_words 1 - 1) 0 + 1) % 2 ^ 32))
          ((2 * (honest_env 2).throughput) % 2 ^ 32) 1
          (scan_at (honest_env 2) sample_header (scan_header_words 1) 1)) ∧
    sample_header.getD (scan_header_words 1 - 1) 0
      + (((scan_at (honest_env 2) sample_header (scan_header_words 1) 1).iteration - 1)
          * (honest_env 2).throughput + 1) = 1 ∧
    qualifies (honest_env 2) sample_header half_target (scan_header_words 1)
      (scrypt_N (scan_Nfactor "" sample_header 1))
      (sample_header.getD (scan_header_words 1 - 1) 0
        + (((scan_at (honest_env 2) sample_header (scan_header_words 1) 1).iteration - 1)
            * (honest_env 2).throughput + 1)) = true ∧
    qualifies (honest_env 2) sample_header half_target (scan_header_words 1)
      (scrypt_N (scan_Nfactor "" sample_header 1)) 0 = false :=
  have hw : sample_header.getD (scan_header_words 1 - 1) 0
      + (((scan_at (honest_env 2) sample_header (scan_header_words 1) 1).iteration - 1)
          * (honest_env 2).throughput + 1) = 1 := by
    rw [(scan_top_iteration (honest_env 2) sample_header (scan_header_words 1) 1).2]
    decide
  have h := scanhash_first_qualifying (honest_env 2) "" sample_header half_target 10 1 (3 + 2)
    _ _ 1 _ rfl (by decide) half_target_words (honest_env_sample 2) sample_run_second_lane
    (by rw [hw]; decide)
  ⟨rfl, by decide, half_target_words, honest_env_sample 2, sample_run_second_lane, hw,
   h.2.1, h.2.2 0 (by decide) (by rw [hw]; decide)⟩

theorem scanhash_exhausted_compared_witness :
    (honest_env 1).hash_init.length = 2 ∧
    sample_header.getD (scan_header_words 1 - 1) 0 < 2 ^ 32 ∧
    (∀ i, i < 8 → half_target.getD i 0 < 2 ^ 32) ∧
    device_honest (honest_env 1) sample_header (scan_header_words 1)
      (scrypt_N (scan_Nfactor "" sample_header 1)) ∧
    no_failure (honest_env 1) ∧
    scanhash_scrypt_jane (honest_env 1) "" sample_header half_target 1 1 (3 + 2)
      = some (.exhausted
          (sample_header.set (scan_header_words 1 - 1)
            ((sample_header.getD (scan_header_words 1 - 1) 0 + 2 * (honest_env 1).throughput)
              % 2 ^ 32))
          ((2 * (honest_env 1).throughput) % 2 ^ 32)) ∧
    (2 * (honest_env 1).throughput) % 2 ^ 32 = 2 ∧
    1 < (sample_header.getD (scan_header_words 1 - 1) 0
      + (2 * (honest_env 1).throughput) % 2 ^ 32) % 2 ^ 32 ∧
    qualifies (honest_env 1) sample_header half_target (scan_header_words 1)
      (scrypt_N (scan_Nfactor "" sample_header 1)) (0 % 2 ^ 32) = false :=
  have h := scanhash_exhausted_compared (honest_env 1) "" sample_header half_target 1 1 (3 + 2)
    _ _ rfl (by decide) half_target_words (honest_env_sample 1) (honest_env_no_failure 1)
    sample_run_exhausted
  ⟨rfl, by decide, half_target_words, honest_env_sample 1, honest_env_no_failure 1,
   sample_run_exhausted, by decide, h.1, h.2.2 0 (by decide) (by decide)⟩

end ScryptJane
